import Mathlib

/-! Verification development for tgp::vector and tgp::split_buffer.

A shallow embedding of `include/tgp/vector.h` and `include/tgp/split_buffer.h`.

The containers work on raw storage through three (vector) or four (split_buffer)
pointers, and a `split_buffer` local to a member function is destroyed when that
function's block ends.  Both facts decide what a caller observes, so the embedding
keeps them: storage is an explicit memory of cells addressed by natural numbers,
pointers are addresses (`0` is `nullptr`), and every member function is a function
from the object and the memory to the object and the memory afterwards, with the
exception that left the call, if any.

Conventions used throughout:
* a pointer difference `a - b` of the source is the truncated difference of the
  two addresses; every loop `for (; first != last; ++first)` runs `last - first`
  times;
* move construction and move assignment copy the value and leave the source live,
  as for the scalar element types the repository's tests use;
* an input range `[first, last)` is the list of the values it yields; a single-pass
  range is read one element at a time from the front and never re-read;
* `size_type` sums of caller-supplied counts wrap at `2 ^ 64`.
-/

namespace tgp

/-! ## Memory -/

/-- One addressable storage cell. -/
inductive Cell (T : Type) where
  /-- Not part of any current allocation (never allocated, or released). -/
  | free : Cell T
  /-- Allocated, no live element. -/
  | raw : Cell T
  /-- Allocated, holding a live element. -/
  | live : T → Cell T
deriving DecidableEq, Repr

/-- The exceptions that can leave a member function. -/
inductive Exn where
  | length_error : Exn
  | out_of_range : Exn
  | bad_alloc : Exn
  /-- An element constructor threw. -/
  | ctor_error : Exn
deriving DecidableEq, Repr

/-- The state of the allocator's storage.

`allocs` and `ctors` are failure schedules: `none` never fails, `some k` lets the next
`k` calls succeed and makes the calls after them throw.  `fault` records that some access
touched storage it must not touch (undefined behaviour in the source); execution of
the model continues so that the pointer values can still be inspected. -/
structure Mem (T : Type) where
  cells : Nat → Cell T
  brk : Nat
  allocs : Option Nat
  ctors : Option Nat
  fault : Bool

/-- Memory with no allocation; address `0` is never handed out. -/
def Mem.empty (T : Type) : Mem T :=
  { cells := fun _ => Cell.free, brk := 1, allocs := none, ctors := none, fault := false }

/-- Overwrite one cell. -/
def Mem.set {T : Type} (m : Mem T) (a : Nat) (c : Cell T) : Mem T :=
  { m with cells := fun b => if b = a then c else m.cells b }

/-- Mark an invalid access. -/
def Mem.bad {T : Type} (m : Mem T) : Mem T :=
  { m with fault := true }

/-- Read `*a`: the value of a live element. -/
def Mem.load {T : Type} (m : Mem T) (a : Nat) : Option T :=
  match m.cells a with
  | Cell.live x => some x
  | _ => none

/-- Write a value into the cell at `a` (the effect shared by assignment `*a = x` and by
construction at `a`).  `x` is the result of reading the source; reading a cell that is not
live, or writing outside every allocation, is an invalid access. -/
def Mem.store {T : Type} (m : Mem T) (a : Nat) (x : Option T) : Mem T :=
  match x with
  | none => m.bad
  | some y =>
    match m.cells a with
    | Cell.free => m.bad
    | _ => m.set a (Cell.live y)

/-- Run `alloc_traits::destroy(alloc, a)`: end the lifetime of the element at `a`. -/
def Mem.destroy {T : Type} (m : Mem T) (a : Nat) : Mem T :=
  match m.cells a with
  | Cell.live _ => m.set a Cell.raw
  | _ => m.bad

/-- Run `alloc_traits::construct(alloc, a, x)`, and likewise placement `new (a) T(x)`:
throws when the constructor schedule is exhausted, otherwise stores the element. -/
def Mem.construct {T : Type} (m : Mem T) (a : Nat) (x : Option T) : Option Exn × Mem T :=
  match m.ctors with
  | some 0 => (some Exn.ctor_error, m)
  | some (k + 1) => (none, { m.store a x with ctors := some k })
  | none => (none, m.store a x)

/-- Turn the `n` cells from `a` on into `c`. -/
def Mem.setRange {T : Type} (m : Mem T) (a n : Nat) (c : Cell T) : Mem T :=
  { m with cells := fun b => if a ≤ b ∧ b < a + n then c else m.cells b }

/-- Whether one of the `n` cells from `a` on is outside every allocation. -/
def Mem.anyFree {T : Type} (m : Mem T) (a : Nat) : Nat → Bool
  | 0 => false
  | n + 1 =>
    (match m.cells a with
     | Cell.free => true
     | _ => false) || m.anyFree (a + 1) n

/-- Run `alloc_traits::allocate(alloc, n)`: throws `bad_alloc` when the allocation schedule is
exhausted, otherwise hands out `n` raw cells at a fresh non-null address.  One unused cell is
left behind each block, so that a one-past-the-end pointer never is another block's base
and zero-sized blocks have distinct addresses. -/
def Mem.allocate {T : Type} (m : Mem T) (n : Nat) : Except Exn Nat × Mem T :=
  match m.allocs with
  | some 0 => (Except.error Exn.bad_alloc, m)
  | some (k + 1) =>
    (Except.ok m.brk, { m.setRange m.brk n Cell.raw with brk := m.brk + n + 1, allocs := some k })
  | none =>
    (Except.ok m.brk, { m.setRange m.brk n Cell.raw with brk := m.brk + n + 1 })

/-- Run `alloc_traits::deallocate(alloc, p, n)`: releases the `n` cells at `p`; a null `p`
releases nothing.  Releasing a cell that is not allocated is an invalid access. -/
def Mem.deallocate {T : Type} (m : Mem T) (p n : Nat) : Mem T :=
  if p = 0 then m
  else if m.anyFree p n then (m.setRange p n Cell.free).bad
  else m.setRange p n Cell.free

/-- The values of the `n` cells from `a` on, when all of them hold live elements. -/
def Mem.read {T : Type} (m : Mem T) (a : Nat) : Nat → Option (List T)
  | 0 => some []
  | n + 1 =>
    match m.load a, m.read (a + 1) n with
    | some x, some xs => some (x :: xs)
    | _, _ => none

/-- Whether the `n` cells from `a` on are all allocated and without a live element. -/
def Mem.allRaw {T : Type} (m : Mem T) (a : Nat) : Nat → Bool
  | 0 => true
  | n + 1 =>
    (match m.cells a with
     | Cell.raw => true
     | _ => false) && m.allRaw (a + 1) n

/-- `size_type` arithmetic is modulo `2 ^ 64`. -/
def wrap (n : Nat) : Nat := n % 2 ^ 64

/-! ## Standard algorithms used by the containers -/

/-- `std::move(first, first + n, d)`: move-assign front to back; returns the memory (the
returned iterator is `d + n`). -/
def std_move {T : Type} (m : Mem T) (first d : Nat) : Nat → Mem T
  | 0 => m
  | n + 1 => std_move (m.store d (m.load first)) (first + 1) (d + 1) n

/-- `std::move_backward(last - n, last, d_last)`: move-assign back to front. -/
def std_move_backward {T : Type} (m : Mem T) (last d_last : Nat) : Nat → Mem T
  | 0 => m
  | n + 1 => std_move_backward (m.store (d_last - 1) (m.load (last - 1))) (last - 1) (d_last - 1) n

/-- `std::copy(first, last, d)` from an input range: assign each value in turn. -/
def std_copy {T : Type} (m : Mem T) (d : Nat) : List T → Mem T
  | [] => m
  | x :: xs => std_copy (m.store d (some x)) (d + 1) xs

/-- `std::fill_n(p, n, x)`: assign `x` to `n` consecutive cells. -/
def std_fill_n {T : Type} (m : Mem T) (p : Nat) (x : Option T) : Nat → Mem T
  | 0 => m
  | n + 1 => std_fill_n (m.store p x) (p + 1) x n

/-- `std::__uninitialized_allocator_relocate(alloc, first, first + n, result)`: move-construct
each element at the destination and destroy its source.  Relocation does not throw. -/
def relocate {T : Type} (m : Mem T) (first result : Nat) : Nat → Mem T
  | 0 => m
  | n + 1 => relocate ((m.store result (m.load first)).destroy first) (first + 1) (result + 1) n

/-! ## split_buffer -/

/-- The data members of `split_buffer` (the allocator reference apart). -/
structure split_buffer where
  first_ : Nat
  begin_ : Nat
  end_ : Nat
  cap_ : Nat
deriving DecidableEq, Repr

namespace split_buffer

variable {T : Type}

/-- The constructor `split_buffer(cap, pre_reserve, alloc)`. -/
def ctor (cap pre_reserve : Nat) (m : Mem T) : Except Exn split_buffer × Mem T :=
  match m.allocate cap with
  | (Except.error e, m1) => (Except.error e, m1)
  | (Except.ok first, m1) =>
    (Except.ok { first_ := first, begin_ := first + pre_reserve,
                 end_ := first + pre_reserve, cap_ := first + cap }, m1)

/-- The member `capacity()`. -/
def capacity (sb : split_buffer) : Nat := sb.cap_ - sb.first_

/-- The loop of `clear()`: destroy `*begin_`, then `++begin_`. -/
def clear_loop (sb : split_buffer) (m : Mem T) : Nat → split_buffer × Mem T
  | 0 => (sb, m)
  | n + 1 => clear_loop { sb with begin_ := sb.begin_ + 1 } (m.destroy sb.begin_) n

/-- The member `clear()`. -/
def clear (sb : split_buffer) (m : Mem T) : split_buffer × Mem T :=
  clear_loop sb m (sb.end_ - sb.begin_)

/-- The destructor: with a non-null `first_`, destroy the live elements and release the
allocation. -/
def dtor (sb : split_buffer) (m : Mem T) : Mem T :=
  if sb.first_ ≠ 0 then
    let r := sb.clear m
    r.2.deallocate r.1.first_ r.1.capacity
  else m

/-- The member `construct_at_end(n)`: value-initialise `n` elements at `end_`. -/
def construct_at_end_n [Inhabited T] (sb : split_buffer) (m : Mem T) :
    Nat → Option Exn × split_buffer × Mem T
  | 0 => (none, sb, m)
  | n + 1 =>
    match m.construct sb.end_ (some default) with
    | (some e, m1) => (some e, sb, m1)
    | (none, m1) => construct_at_end_n { sb with end_ := sb.end_ + 1 } m1 n

/-- The member `construct_at_end(n, value)`. -/
def construct_at_end_fill (sb : split_buffer) (m : Mem T) (value : T) :
    Nat → Option Exn × split_buffer × Mem T
  | 0 => (none, sb, m)
  | n + 1 =>
    match m.construct sb.end_ (some value) with
    | (some e, m1) => (some e, sb, m1)
    | (none, m1) => construct_at_end_fill { sb with end_ := sb.end_ + 1 } m1 value n

/-- The member `construct_at_end(first, last)`. -/
def construct_at_end_range (sb : split_buffer) (m : Mem T) :
    List T → Option Exn × split_buffer × Mem T
  | [] => (none, sb, m)
  | x :: xs =>
    match m.construct sb.end_ (some x) with
    | (some e, m1) => (some e, sb, m1)
    | (none, m1) => construct_at_end_range { sb with end_ := sb.end_ + 1 } m1 xs

/-- The member `emplace_back(args...)`. -/
def emplace_back (sb : split_buffer) (x : T) (m : Mem T) : Option Exn × split_buffer × Mem T :=
  match m.construct sb.end_ (some x) with
  | (some e, m1) => (some e, sb, m1)
  | (none, m1) => (none, { sb with end_ := sb.end_ + 1 }, m1)

/-- The member `emplace_front(args...)`. -/
def emplace_front (sb : split_buffer) (x : T) (m : Mem T) : Option Exn × split_buffer × Mem T :=
  match m.construct (sb.begin_ - 1) (some x) with
  | (some e, m1) => (some e, sb, m1)
  | (none, m1) => (none, { sb with begin_ := sb.begin_ - 1 }, m1)

/-- The member `invariants()`. -/
def invariants (sb : split_buffer) : Bool :=
  if sb.first_ = 0 then
    if sb.begin_ ≠ 0 ∨ sb.end_ ≠ 0 ∨ sb.cap_ ≠ 0 then false else true
  else
    if sb.first_ > sb.begin_ then false
    else if sb.begin_ > sb.end_ then false
    else if sb.end_ > sb.cap_ then false
    else true

end split_buffer

/-! ## vector -/

/-- The allocator object a vector holds: its identity (for `==`) and `max_size()`. -/
structure Allocator where
  id : Nat
  max_size : Nat
deriving DecidableEq, Repr

/-- The data members of `vector`. -/
structure vector where
  begin_ : Nat
  end_ : Nat
  cap_ : Nat
  alloc_ : Allocator
deriving DecidableEq, Repr

namespace vector

variable {T : Type}

/-- The member `capacity()`. -/
def capacity (v : vector) : Nat := v.cap_ - v.begin_

/-- The member `max_size()`. -/
def max_size (v : vector) : Nat := v.alloc_.max_size

/-- The member `size()`. -/
def size (v : vector) : Nat := v.end_ - v.begin_

/-- The member `invariants()`. -/
def invariants (v : vector) : Bool :=
  if v.begin_ = 0 then
    if v.end_ ≠ 0 ∨ v.cap_ ≠ 0 then false else true
  else
    if v.begin_ > v.end_ then false
    else if v.end_ > v.cap_ then false
    else true

/-- What iterating from `begin()` to `end()` yields: the values of the cells of
`[begin_, end_)`, provided every one of them holds a live element. -/
def elements (v : vector) (m : Mem T) : Option (List T) := m.read v.begin_ v.size

/-- The member `construct_at_end(n)`. -/
def construct_at_end_n [Inhabited T] (v : vector) (m : Mem T) :
    Nat → Option Exn × vector × Mem T
  | 0 => (none, v, m)
  | n + 1 =>
    match m.construct v.end_ (some default) with
    | (some e, m1) => (some e, v, m1)
    | (none, m1) => construct_at_end_n { v with end_ := v.end_ + 1 } m1 n

/-- The member `construct_at_end(n, value)`. -/
def construct_at_end_fill (v : vector) (m : Mem T) (value : T) :
    Nat → Option Exn × vector × Mem T
  | 0 => (none, v, m)
  | n + 1 =>
    match m.construct v.end_ (some value) with
    | (some e, m1) => (some e, v, m1)
    | (none, m1) => construct_at_end_fill { v with end_ := v.end_ + 1 } m1 value n

/-- The member `construct_at_end(first, last)`. -/
def construct_at_end_range (v : vector) (m : Mem T) :
    List T → Option Exn × vector × Mem T
  | [] => (none, v, m)
  | x :: xs =>
    match m.construct v.end_ (some x) with
    | (some e, m1) => (some e, v, m1)
    | (none, m1) => construct_at_end_range { v with end_ := v.end_ + 1 } m1 xs

/-- The member `construct_one_at_end(args...)`; the argument is what reading the source
gave. -/
def construct_one_at_end (v : vector) (x : Option T) (m : Mem T) :
    Option Exn × vector × Mem T :=
  match m.construct v.end_ x with
  | (some e, m1) => (some e, v, m1)
  | (none, m1) => (none, { v with end_ := v.end_ + 1 }, m1)

/-- The loop of `destruct_at_end`: `destroy(--soon_to_be_end)`. -/
def destruct_at_end_loop (m : Mem T) (soon_to_be_end : Nat) : Nat → Mem T
  | 0 => m
  | n + 1 => destruct_at_end_loop (m.destroy (soon_to_be_end - 1)) (soon_to_be_end - 1) n

/-- The member `destruct_at_end(new_end)`. -/
def destruct_at_end (v : vector) (new_end : Nat) (m : Mem T) : vector × Mem T :=
  ({ v with end_ := new_end }, destruct_at_end_loop m v.end_ (v.end_ - new_end))

/-- The member `recommend_cap(new_size)`. -/
def recommend_cap (v : vector) (new_size : Nat) : Except Exn Nat :=
  let ms := v.max_size
  if new_size > ms then Except.error Exn.length_error
  else
    let cur_cap := v.capacity
    if cur_cap > ms / 2 then Except.ok ms
    else Except.ok (max (cur_cap * 2) new_size)

/-- The member `swap_with_split_buffer(sb)`.  The buffer is not written to. -/
def swap_with_split_buffer (v : vector) (sb : split_buffer) (m : Mem T) : vector × Mem T :=
  let m1 := relocate m v.begin_ sb.first_ (v.end_ - v.begin_)
  let v1 := { v with end_ := v.begin_ }
  let m2 := m1.deallocate v1.begin_ v1.capacity
  ({ v1 with begin_ := sb.first_, end_ := sb.end_, cap_ := sb.cap_ }, m2)

/-- The member `swap_with_split_buffer(sb, p)`; returns the pointer, the vector and the
buffer, whose `begin_` and `end_` it moves. -/
def swap_with_split_buffer_at (v : vector) (sb : split_buffer) (p : Nat) (m : Mem T) :
    Nat × vector × split_buffer × Mem T :=
  let ret := sb.begin_
  let m1 := relocate m p sb.end_ (v.end_ - p)
  let sb1 := { sb with end_ := sb.end_ + (v.end_ - p) }
  let v1 := { v with end_ := p }
  let m2 := relocate m1 v1.begin_ sb1.first_ (p - v1.begin_)
  let sb2 := { sb1 with begin_ := sb1.begin_ - (p - v1.begin_) }
  let v2 := { v1 with end_ := v1.begin_ }
  let m3 := m2.deallocate v2.begin_ v2.capacity
  (ret, { v2 with begin_ := sb2.first_, end_ := sb2.end_, cap_ := sb2.cap_ }, sb2, m3)

/-- The loop of `move_range`: `construct_one_at_end(std::move(*p))` for `p` up to `from_e`. -/
def move_range_loop (v : vector) (m : Mem T) (p : Nat) : Nat → Option Exn × vector × Mem T
  | 0 => (none, v, m)
  | k + 1 =>
    match v.construct_one_at_end (m.load p) m with
    | (some e, v1, m1) => (some e, v1, m1)
    | (none, v1, m1) => move_range_loop v1 m1 (p + 1) k

/-- The member `move_range(from_s, from_e, to)`. -/
def move_range (v : vector) (from_s from_e to_ : Nat) (m : Mem T) :
    Option Exn × vector × Mem T :=
  let old_last := v.end_
  let n := old_last - to_
  match move_range_loop v m (from_s + n) (from_e - (from_s + n)) with
  | (some e, v1, m1) => (some e, v1, m1)
  | (none, v1, m1) => (none, v1, std_move_backward m1 (from_s + n) old_last n)

/-- The member `clear()`. -/
def clear (v : vector) (m : Mem T) : vector × Mem T :=
  v.destruct_at_end v.begin_ m

/-- The member `destroy_vector()`. -/
def destroy_vector (v : vector) (m : Mem T) : vector × Mem T :=
  if v.begin_ ≠ 0 then
    let r := v.clear m
    (r.1, r.2.deallocate r.1.begin_ r.1.capacity)
  else (v, m)

/-- The member `allocate_vector(n)`. -/
def allocate_vector (v : vector) (n : Nat) (m : Mem T) : Option Exn × vector × Mem T :=
  if n > v.max_size then (some Exn.length_error, v, m)
  else
    match m.allocate n with
    | (Except.error e, m1) => (some e, v, m1)
    | (Except.ok b, m1) => (none, { v with begin_ := b, end_ := b, cap_ := b + n }, m1)

/-- The member `deallocate_vector()`. -/
def deallocate_vector (v : vector) (m : Mem T) : vector × Mem T :=
  if v.begin_ ≠ 0 then
    let r := v.clear m
    ({ r.1 with begin_ := 0, end_ := 0, cap_ := 0 }, r.2.deallocate r.1.begin_ r.1.capacity)
  else (v, m)

/-- The constructor `vector(alloc)`: no allocation. -/
def ctor (alloc : Allocator) : vector :=
  { begin_ := 0, end_ := 0, cap_ := 0, alloc_ := alloc }

/-- The constructor `vector(count, alloc)`. -/
def ctor_count [Inhabited T] (count : Nat) (alloc : Allocator) (m : Mem T) :
    Option Exn × vector × Mem T :=
  let v := ctor alloc
  if count > 0 then
    match v.allocate_vector count m with
    | (some e, v1, m1) => let r := v1.destroy_vector m1; (some e, r.1, r.2)
    | (none, v1, m1) =>
      match v1.construct_at_end_n m1 count with
      | (some e, v2, m2) => let r := v2.destroy_vector m2; (some e, r.1, r.2)
      | (none, v2, m2) => (none, v2, m2)
  else (none, v, m)

/-- The constructor `vector(count, value, alloc)`. -/
def ctor_fill (count : Nat) (value : T) (alloc : Allocator) (m : Mem T) :
    Option Exn × vector × Mem T :=
  let v := ctor alloc
  if count > 0 then
    match v.allocate_vector count m with
    | (some e, v1, m1) => let r := v1.destroy_vector m1; (some e, r.1, r.2)
    | (none, v1, m1) =>
      match v1.construct_at_end_fill m1 value count with
      | (some e, v2, m2) => let r := v2.destroy_vector m2; (some e, r.1, r.2)
      | (none, v2, m2) => (none, v2, m2)
  else (none, v, m)

/-- The constructor `vector(first, last, alloc)` for a multi-pass range. -/
def ctor_range (s : List T) (alloc : Allocator) (m : Mem T) : Option Exn × vector × Mem T :=
  let v := ctor alloc
  let count := s.length
  if count > 0 then
    match v.allocate_vector count m with
    | (some e, v1, m1) => let r := v1.destroy_vector m1; (some e, r.1, r.2)
    | (none, v1, m1) =>
      match v1.construct_at_end_range m1 s with
      | (some e, v2, m2) => let r := v2.destroy_vector m2; (some e, r.1, r.2)
      | (none, v2, m2) => (none, v2, m2)
  else (none, v, m)

/-- The members `emplace_back(args...)` and, through it, `push_back(value)`. -/
def emplace_back (v : vector) (x : T) (m : Mem T) : Option Exn × vector × Mem T :=
  if v.end_ = v.cap_ then
    match v.recommend_cap (v.size + 1) with
    | Except.error e => (some e, v, m)
    | Except.ok c =>
      match split_buffer.ctor c v.size m with
      | (Except.error e, m1) => (some e, v, m1)
      | (Except.ok sb, m1) =>
        match sb.emplace_back x m1 with
        | (some e, sb1, m2) => (some e, v, sb1.dtor m2)
        | (none, sb1, m2) =>
          let r := v.swap_with_split_buffer sb1 m2
          (none, r.1, sb1.dtor r.2)
  else v.construct_one_at_end (some x) m

/-- The member `push_back(value)`. -/
def push_back (v : vector) (value : T) (m : Mem T) : Option Exn × vector × Mem T :=
  v.emplace_back value m

/-- The loop `for (; first != last; ++first) emplace_back(*first)` over a single-pass
range. -/
def emplace_back_each (v : vector) (m : Mem T) : List T → Option Exn × vector × Mem T
  | [] => (none, v, m)
  | x :: xs =>
    match v.emplace_back x m with
    | (some e, v1, m1) => (some e, v1, m1)
    | (none, v1, m1) => emplace_back_each v1 m1 xs

/-- The constructor `vector(first, last, alloc)` for a single-pass range. -/
def ctor_input (s : List T) (alloc : Allocator) (m : Mem T) : Option Exn × vector × Mem T :=
  match (ctor alloc).emplace_back_each m s with
  | (some e, v1, m1) => let r := v1.destroy_vector m1; (some e, r.1, r.2)
  | (none, v1, m1) => (none, v1, m1)

/-- The member `pop_back()`. -/
def pop_back (v : vector) (m : Mem T) : vector × Mem T :=
  v.destruct_at_end (v.end_ - 1) m

/-- The member `erase(first, last)`. -/
def erase_range (v : vector) (first last : Nat) (m : Mem T) : Nat × vector × Mem T :=
  let p := v.begin_ + (first - v.begin_)
  let k := v.end_ - (p + (last - first))
  let r := v.destruct_at_end (p + k) (std_move m (p + (last - first)) p k)
  (p, r.1, r.2)

/-- The member `insert(pos, count, value)`. -/
def insert_fill (v : vector) (pos count : Nat) (value : T) (m : Mem T) :
    Except Exn Nat × vector × Mem T :=
  let p := v.begin_ + (pos - v.begin_)
  if count > 0 then
    let cur_size := v.size
    if wrap (count + cur_size) > v.capacity then
      match v.recommend_cap (wrap (count + cur_size)) with
      | Except.error e => (Except.error e, v, m)
      | Except.ok c =>
        match split_buffer.ctor c (p - v.begin_) m with
        | (Except.error e, m1) => (Except.error e, v, m1)
        | (Except.ok sb, m1) =>
          match sb.construct_at_end_fill m1 value count with
          | (some e, sb1, m2) => (Except.error e, v, sb1.dtor m2)
          | (none, sb1, m2) =>
            let r := v.swap_with_split_buffer_at sb1 p m2
            (Except.ok r.1, r.2.1, r.2.2.1.dtor r.2.2.2)
    else
      let n := v.end_ - p
      if count > n then
        match v.construct_at_end_fill m value (count - n) with
        | (some e, v1, m1) => (Except.error e, v1, m1)
        | (none, v1, m1) =>
          match v1.move_range p (p + n) v1.end_ m1 with
          | (some e, v2, m2) => (Except.error e, v2, m2)
          | (none, v2, m2) => (Except.ok p, v2, std_fill_n m2 p (m2.load (p + n)) n)
      else
        match split_buffer.ctor v.capacity (p - v.begin_) m with
        | (Except.error e, m1) => (Except.error e, v, m1)
        | (Except.ok sb, m1) =>
          match sb.construct_at_end_fill m1 value count with
          | (some e, sb1, m2) => (Except.error e, v, sb1.dtor m2)
          | (none, sb1, m2) =>
            let r := v.swap_with_split_buffer_at sb1 p m2
            (Except.ok r.1, r.2.1, r.2.2.1.dtor r.2.2.2)
  else (Except.ok p, v, m)

/-- The member `insert(pos, first, last)` for a multi-pass range. -/
def insert_range (v : vector) (pos : Nat) (s : List T) (m : Mem T) :
    Except Exn Nat × vector × Mem T :=
  let count := s.length
  let n := pos - v.begin_
  let p := v.begin_ + n
  if wrap (count + v.size) > v.capacity then
    match v.recommend_cap (wrap (count + v.size)) with
    | Except.error e => (Except.error e, v, m)
    | Except.ok c =>
      match split_buffer.ctor c n m with
      | (Except.error e, m1) => (Except.error e, v, m1)
      | (Except.ok sb, m1) =>
        match sb.construct_at_end_range m1 s with
        | (some e, sb1, m2) => (Except.error e, v, sb1.dtor m2)
        | (none, sb1, m2) =>
          let r := v.swap_with_split_buffer_at sb1 p m2
          (Except.ok r.1, r.2.1, r.2.2.1.dtor r.2.2.2)
  else
    let m_ := v.end_ - pos
    -- `mid = std::next(first, count)`; inside the first `if`, `mid = std::next(first, m)`,
    -- the tail `[mid, last)` is constructed at the end and `count = m`
    let st : Option Exn × vector × Mem T × Nat :=
      if count > m_ then
        match v.construct_at_end_range m (s.drop m_) with
        | (e, v1, m1) => (e, v1, m1, m_)
      else (none, v, m, count)
    match st with
    | (some e, v1, m1, _) => (Except.error e, v1, m1)
    | (none, v1, m1, count1) =>
      if count1 > 0 then
        match v1.move_range p (p + m_) v1.end_ m1 with
        | (some e, v2, m2) => (Except.error e, v2, m2)
        | (none, v2, m2) => (Except.ok p, v2, std_copy m2 p (s.take count1))
      else (Except.ok p, v1, m1)

/-- The member `insert(pos, ilist)`. -/
def insert_ilist (v : vector) (pos : Nat) (ilist : List T) (m : Mem T) :
    Except Exn Nat × vector × Mem T :=
  v.insert_range pos ilist m

/-- The member `resize(count)`. -/
def resize [Inhabited T] (v : vector) (count : Nat) (m : Mem T) : Option Exn × vector × Mem T :=
  let cur_size := v.size
  if count ≤ cur_size then
    let r := v.destruct_at_end (v.begin_ + count) m
    (none, r.1, r.2)
  else
    if count > v.capacity then
      match v.recommend_cap count with
      | Except.error e => (some e, v, m)
      | Except.ok c =>
        match split_buffer.ctor c cur_size m with
        | (Except.error e, m1) => (some e, v, m1)
        | (Except.ok sb, m1) =>
          match sb.construct_at_end_n m1 (count - cur_size) with
          | (some e, sb1, m2) => (some e, v, sb1.dtor m2)
          | (none, sb1, m2) =>
            let r := v.swap_with_split_buffer sb1 m2
            (none, r.1, sb1.dtor r.2)
    else v.construct_at_end_n m (count - cur_size)

/-- The member `resize(count, value)`. -/
def resize_value (v : vector) (count : Nat) (value : T) (m : Mem T) :
    Option Exn × vector × Mem T :=
  let cur_size := v.size
  if count ≤ cur_size then
    let r := v.destruct_at_end (v.begin_ + count) m
    (none, r.1, r.2)
  else
    if count > v.capacity then
      match v.recommend_cap count with
      | Except.error e => (some e, v, m)
      | Except.ok c =>
        match split_buffer.ctor c cur_size m with
        | (Except.error e, m1) => (some e, v, m1)
        | (Except.ok sb, m1) =>
          match sb.construct_at_end_fill m1 value (count - cur_size) with
          | (some e, sb1, m2) => (some e, v, sb1.dtor m2)
          | (none, sb1, m2) =>
            let r := v.swap_with_split_buffer sb1 m2
            (none, r.1, sb1.dtor r.2)
    else v.construct_at_end_fill m value (count - cur_size)

/-- The member `assign(count, value)`. -/
def assign_fill (v : vector) (count : Nat) (value : T) (m : Mem T) :
    Option Exn × vector × Mem T :=
  let cur_size := v.size
  let m0 := std_fill_n m v.begin_ (some value) (min cur_size count)
  if count > v.capacity then
    match v.recommend_cap count with
    | Except.error e => (some e, v, m0)
    | Except.ok c =>
      match split_buffer.ctor c cur_size m0 with
      | (Except.error e, m1) => (some e, v, m1)
      | (Except.ok sb, m1) =>
        match sb.construct_at_end_fill m1 value (count - cur_size) with
        | (some e, sb1, m2) => (some e, v, sb1.dtor m2)
        | (none, sb1, m2) =>
          let r := v.swap_with_split_buffer sb1 m2
          (none, r.1, sb1.dtor r.2)
  else
    if count > cur_size then v.construct_at_end_fill m0 value (count - cur_size)
    else
      let r := v.destruct_at_end (v.begin_ + count) m0
      (none, r.1, r.2)

/-- The first loop of the single-pass `assign`: while `cur != end_` and input is left,
`*cur = *first`.  Returns `cur`, the input not yet read, and the memory. -/
def assign_input_loop (v : vector) (m : Mem T) (cur : Nat) : List T → Nat × List T × Mem T
  | [] => (cur, [], m)
  | x :: xs =>
    if cur ≠ v.end_ then assign_input_loop v (m.store cur (some x)) (cur + 1) xs
    else (cur, x :: xs, m)

/-- The member `assign(first, last)` for a single-pass range. -/
def assign_input (v : vector) (s : List T) (m : Mem T) : Option Exn × vector × Mem T :=
  let r := assign_input_loop v m v.begin_ s
  if r.1 = v.end_ then v.emplace_back_each r.2.2 r.2.1
  else
    let r1 := v.destruct_at_end r.1 r.2.2
    (none, r1.1, r1.2)

/-- The member `assign(first, last)` for a multi-pass range. -/
def assign_range (v : vector) (s : List T) (m : Mem T) : Option Exn × vector × Mem T :=
  let count := s.length
  if count > v.capacity then
    let r := v.deallocate_vector m
    match r.1.recommend_cap count with
    | Except.error e => (some e, r.1, r.2)
    | Except.ok c =>
      match r.1.allocate_vector c r.2 with
      | (some e, v1, m1) => (some e, v1, m1)
      | (none, v1, m1) => v1.construct_at_end_range m1 s
  else
    let cur_size := v.size
    if count > cur_size then
      -- `mid = first + count`
      let m1 := std_copy m v.begin_ (s.take count)
      v.construct_at_end_range m1 (s.drop count)
    else
      let m1 := std_copy m v.begin_ s
      let r := v.destruct_at_end (v.begin_ + count) m1
      (none, r.1, r.2)

/-- The member `assign(ilist)`. -/
def assign_ilist (v : vector) (ilist : List T) (m : Mem T) : Option Exn × vector × Mem T :=
  v.assign_range ilist m

end vector

/-- The allocator of the examples: `std::allocator<int>`, whose `max_size()` is
`SIZE_MAX / sizeof(int)`. -/
def stdAlloc : Allocator := { id := 0, max_size := (2 ^ 64 - 1) / 4 }

end tgp

namespace tgp

/-! ## Concrete vectors and calls -/

/-- The vector built by `vector(first, last)` from a multi-pass range over `xs`, with the
memory it lives in: size and capacity are both the length of `xs`. -/
def build (xs : List Nat) : vector × Mem Nat :=
  (vector.ctor_range xs stdAlloc (Mem.empty Nat)).2

/-- A vector holding `xs` with `k` unused slots behind them: built from `xs` followed by `k`
more values, which `erase(begin() + |xs|, end())` then removes. -/
def buildSpare (xs : List Nat) (k : Nat) : vector × Mem Nat :=
  let r := build (xs ++ List.replicate k 0)
  (r.1.erase_range (r.1.begin_ + xs.length) r.1.end_ r.2).2

/-- The call `emplace_back(5)` on `[1,2,3,4]` with capacity 4. -/
def run_append_full : Option Exn × vector × Mem Nat :=
  (build [1, 2, 3, 4]).1.emplace_back 5 (build [1, 2, 3, 4]).2

/-- The single-pass constructor on a range that yields `[7]`. -/
def run_ctor_input : Option Exn × vector × Mem Nat :=
  vector.ctor_input [7] stdAlloc (Mem.empty Nat)

/-- The call `insert(begin(), {9})` on `[1,2,3]` with capacity 4. -/
def run_insert_front : Except Exn Nat × vector × Mem Nat :=
  (buildSpare [1, 2, 3] 1).1.insert_range (buildSpare [1, 2, 3] 1).1.begin_ [9]
    (buildSpare [1, 2, 3] 1).2

/-- The call `insert(begin() + 1, {9})` on `[1,2,3,4,5]` with capacity 10. -/
def run_insert_short : Except Exn Nat × vector × Mem Nat :=
  (buildSpare [1, 2, 3, 4, 5] 5).1.insert_range ((buildSpare [1, 2, 3, 4, 5] 5).1.begin_ + 1) [9]
    (buildSpare [1, 2, 3, 4, 5] 5).2

/-- The call `insert(begin() + 2, {3,4})` on `[1,2,5]` with capacity 7. -/
def run_insert_scenario : Except Exn Nat × vector × Mem Nat :=
  (buildSpare [1, 2, 5] 4).1.insert_ilist ((buildSpare [1, 2, 5] 4).1.begin_ + 2) [3, 4]
    (buildSpare [1, 2, 5] 4).2

/-- The call `assign(first, last)` over the multi-pass range `[7,8,9]` on `[1,2]` with
capacity 4. -/
def run_assign_extend : Option Exn × vector × Mem Nat :=
  (buildSpare [1, 2] 2).1.assign_range [7, 8, 9] (buildSpare [1, 2] 2).2

/-- The call `insert(begin() + 1, 2, 9)` on `[1,2,3,4]` with capacity 4. -/
def run_insert_fill_grow : Except Exn Nat × vector × Mem Nat :=
  (build [1, 2, 3, 4]).1.insert_fill ((build [1, 2, 3, 4]).1.begin_ + 1) 2 9 (build [1, 2, 3, 4]).2

/-- The call `insert(begin() + 1, 1, 9)` on `[1,2,3,4,5]` with capacity 10. -/
def run_insert_fill_staged : Except Exn Nat × vector × Mem Nat :=
  (buildSpare [1, 2, 3, 4, 5] 5).1.insert_fill ((buildSpare [1, 2, 3, 4, 5] 5).1.begin_ + 1) 1 9
    (buildSpare [1, 2, 3, 4, 5] 5).2

/-- The call `insert(begin() + 1, 3, 9)` on `[1,2,3]` with capacity 8. -/
def run_insert_fill_inplace : Except Exn Nat × vector × Mem Nat :=
  (buildSpare [1, 2, 3] 5).1.insert_fill ((buildSpare [1, 2, 3] 5).1.begin_ + 1) 3 9
    (buildSpare [1, 2, 3] 5).2

/-- The call `resize(6, 0)` on `[1,2,3,4]` with capacity 4. -/
def run_resize_grow : Option Exn × vector × Mem Nat :=
  (build [1, 2, 3, 4]).1.resize_value 6 0 (build [1, 2, 3, 4]).2

/-- The call `assign(6, 9)` on `[1,2,3,4]` with capacity 4. -/
def run_assign_fill_grow : Option Exn × vector × Mem Nat :=
  (build [1, 2, 3, 4]).1.assign_fill 6 9 (build [1, 2, 3, 4]).2

/-- The call `assign(2, 9)` on `[1,2,3,4,5]` with capacity 5. -/
def run_assign_fill_scenario : Option Exn × vector × Mem Nat :=
  (build [1, 2, 3, 4, 5]).1.assign_fill 2 9 (build [1, 2, 3, 4, 5]).2

/-- The call `assign(first, last)` over a single-pass range yielding `[7,8,9]` on `[1,2]`
with capacity 2. -/
def run_assign_input : Option Exn × vector × Mem Nat :=
  (build [1, 2]).1.assign_input [7, 8, 9] (build [1, 2]).2

/-- The call `emplace_back(4)` on `[1,2,3]` with capacity 4. -/
def run_append_spare : Option Exn × vector × Mem Nat :=
  (buildSpare [1, 2, 3] 1).1.emplace_back 4 (buildSpare [1, 2, 3] 1).2

/-- The call `assign(first, last)` over the multi-pass range `[7]` on `[1,2,3]` with
capacity 3. -/
def run_assign_truncate : Option Exn × vector × Mem Nat :=
  (build [1, 2, 3]).1.assign_range [7] (build [1, 2, 3]).2

/-- The call `assign(first, last)` over the multi-pass range `[7,8,9]` on `[1,2]` with
capacity 2. -/
def run_assign_realloc : Option Exn × vector × Mem Nat :=
  (build [1, 2]).1.assign_range [7, 8, 9] (build [1, 2]).2

/-- The call `resize(2, 0)` on `[1,2,3,4]` with capacity 4. -/
def run_resize_shrink : Option Exn × vector × Mem Nat :=
  (build [1, 2, 3, 4]).1.resize_value 2 0 (build [1, 2, 3, 4]).2

/-- The call `resize(5, 0)` on `[1,2,3]` with capacity 6. -/
def run_resize_within : Option Exn × vector × Mem Nat :=
  (buildSpare [1, 2, 3] 3).1.resize_value 5 0 (buildSpare [1, 2, 3] 3).2

/-- The call `assign(first, last)` over a single-pass range yielding `[7]` on `[1,2,3]`
with capacity 3. -/
def run_assign_input_short : Option Exn × vector × Mem Nat :=
  (build [1, 2, 3]).1.assign_input [7] (build [1, 2, 3]).2

/-- The call `assign(first, last)` over a single-pass range yielding `[7,8,9]` on `[1,2]`
with capacity 4. -/
def run_assign_input_within : Option Exn × vector × Mem Nat :=
  (buildSpare [1, 2] 2).1.assign_input [7, 8, 9] (buildSpare [1, 2] 2).2

/-- Whether every cell of the vector's storage `[begin_, cap_)` has been released. -/
def vector.released (v : vector) (m : Mem Nat) : Bool :=
  (List.range v.capacity).all (fun k => decide (m.cells (v.begin_ + k) = Cell.free))

end tgp

namespace tgp

/-! ## Capacity members and copy assignment -/

/-- The allocator traits that the assignment operators and `swap` consult. -/
structure Traits where
  propagate_on_container_copy_assignment : Bool
  propagate_on_container_move_assignment : Bool
  propagate_on_container_swap : Bool
  is_always_equal : Bool
deriving DecidableEq, Repr

/-- The traits of `std::allocator`. -/
def stdTraits : Traits :=
  { propagate_on_container_copy_assignment := false,
    propagate_on_container_move_assignment := true,
    propagate_on_container_swap := false,
    is_always_equal := true }

namespace vector

variable {T : Type}

/-- The member `reserve(new_cap)`. -/
def reserve (v : vector) (new_cap : Nat) (m : Mem T) : Option Exn × vector × Mem T :=
  if new_cap > v.capacity then
    if new_cap > v.max_size then (some Exn.length_error, v, m)
    else
      match split_buffer.ctor new_cap v.size m with
      | (Except.error e, m1) => (some e, v, m1)
      | (Except.ok sb, m1) =>
        let r := v.swap_with_split_buffer sb m1
        (none, r.1, sb.dtor r.2)
  else (none, v, m)

/-- The member `shrink_to_fit()`.  Whatever is thrown inside its `try` block is caught and
dropped, so the member never throws. -/
def shrink_to_fit (v : vector) (m : Mem T) : vector × Mem T :=
  if v.capacity > v.size then
    match split_buffer.ctor v.size v.size m with
    | (Except.error _, m1) => (v, m1)
    | (Except.ok sb, m1) =>
      let r := v.swap_with_split_buffer sb m1
      (r.1, sb.dtor r.2)
  else (v, m)

/-- The copy assignment `operator=(const vector& other)`; `same` says whether `other` is
this very object.  The source range `[other.begin_, other.end_)` lies in storage that the
assignment does not write, so its values are read up front; a source cell without a live
element is an invalid access, at which the model stops the call. -/
def copy_assign (tr : Traits) (v other : vector) (same : Bool) (m : Mem T) :
    Option Exn × vector × Mem T :=
  if same then (none, v, m)
  else
    let r : vector × Mem T :=
      if tr.propagate_on_container_copy_assignment = true ∧ v.alloc_.id ≠ other.alloc_.id then
        let d := v.deallocate_vector m
        ({ d.1 with alloc_ := other.alloc_ }, d.2)
      else (v, m)
    match other.elements r.2 with
    | some s => r.1.assign_range s r.2
    | none => (none, r.1, r.2.bad)

/-- A run of `emplace_back` calls over the values of a list, counting the calls that found
`end_ == cap_` and so took the reallocating branch.  Returns that count with the outcome. -/
def emplace_back_count (v : vector) (m : Mem T) : List T → Nat × Option Exn × vector × Mem T
  | [] => (0, none, v, m)
  | x :: xs =>
    match v.emplace_back x m with
    | (some e, v1, m1) => ((if v.end_ = v.cap_ then 1 else 0), some e, v1, m1)
    | (none, v1, m1) =>
      let r := emplace_back_count v1 m1 xs
      ((if v.end_ = v.cap_ then 1 else 0) + r.1, r.2)

end vector

/-! ## Notions used to state the results -/

/-- No allocation failure and no constructor failure is scheduled. -/
def Mem.noFailure {T : Type} (m : Mem T) : Prop := m.allocs = none ∧ m.ctors = none

/-- The common core of the six `construct_at_end` loops: construct the values of a list at
successive addresses from `a` on, stopping at the first constructor that throws.  Returns
the exception if any, the address reached, and the memory. -/
def Mem.construct_list {T : Type} (m : Mem T) (a : Nat) : List T → Option Exn × Nat × Mem T
  | [] => (none, a, m)
  | x :: xs =>
    match m.construct a (some x) with
    | (some e, m1) => (some e, a, m1)
    | (none, m1) => Mem.construct_list m1 (a + 1) xs

/-- The memory right after a successful `allocate(n)`, apart from the allocation schedule:
the `n` cells at `brk` are raw and `brk` has moved past them. -/
def Mem.grown {T : Type} (m : Mem T) (n : Nat) : Mem T :=
  { m.setRange m.brk n Cell.raw with brk := m.brk + n + 1 }

/-- The least power of two that is at least `n`, and `0` for `n = 0`. -/
def growthCap (n : Nat) : Nat := if n = 0 then 0 else 2 ^ Nat.clog 2 n

/-- The number `⌈log2 n⌉ + 1` of the growth claim, and `0` for `n = 0`. -/
def growthCount (n : Nat) : Nat := if n = 0 then 0 else Nat.clog 2 n + 1

/-- An allocator whose `max_size()` is 4. -/
def smallAlloc : Allocator := { id := 0, max_size := 4 }

/-- The vector `a = [1,2]` with capacity 4 and, in the same memory, `b = [7,8,9]`. -/
def twoVectors : vector × vector × Mem Nat :=
  ((buildSpare [1, 2] 2).1, (vector.ctor_range [7, 8, 9] stdAlloc (buildSpare [1, 2] 2).2).2)

/-- The assignment `a = b` for `a = [1,2]` with capacity 4 and `b = [7,8,9]`. -/
def run_copy_assign : Option Exn × vector × Mem Nat :=
  vector.copy_assign stdTraits twoVectors.1 twoVectors.2.1 false twoVectors.2.2

/-- The call `reserve(8)` on `[1,2,3,4]` with capacity 4. -/
def run_reserve_8 : Option Exn × vector × Mem Nat :=
  (build [1, 2, 3, 4]).1.reserve 8 (build [1, 2, 3, 4]).2

/-- The call `reserve(3)` on `[1,2,3,4]` with capacity 4. -/
def run_reserve_3 : Option Exn × vector × Mem Nat :=
  (build [1, 2, 3, 4]).1.reserve 3 (build [1, 2, 3, 4]).2

/-- The call `shrink_to_fit()` on `[1,2,3]` with capacity 4. -/
def run_shrink : vector × Mem Nat :=
  (buildSpare [1, 2, 3] 1).1.shrink_to_fit (buildSpare [1, 2, 3] 1).2

/-- A second `shrink_to_fit()` right after the first. -/
def run_shrink_twice : vector × Mem Nat :=
  run_shrink.1.shrink_to_fit run_shrink.2

/-- The call `resize(6)` on `[1,2,3]` with capacity 6, when the second element
construction of the call throws. -/
def run_resize_ctor_fails : Option Exn × vector × Mem Nat :=
  (buildSpare [1, 2, 3] 3).1.resize 6 { (buildSpare [1, 2, 3] 3).2 with ctors := some 1 }

/-- The call `resize(9)` on `[1,2,3]` with capacity 6 (a reallocation), when the second
element construction of the call throws. -/
def run_resize_grow_ctor_fails : Option Exn × vector × Mem Nat :=
  (buildSpare [1, 2, 3] 3).1.resize 9 { (buildSpare [1, 2, 3] 3).2 with ctors := some 1 }

/-- The call `assign(5, 9)` on `[1,2,3]` with capacity 3 under an allocator whose
`max_size()` is 4. -/
def run_assign_fill_too_long : Option Exn × vector × Mem Nat :=
  (vector.ctor_range [1, 2, 3] smallAlloc (Mem.empty Nat)).2.1.assign_fill 5 9
    (vector.ctor_range [1, 2, 3] smallAlloc (Mem.empty Nat)).2.2

/-- The call `assign(first, last)` over the multi-pass range `[7,8,9,10]` on `[1,2,3]` with
capacity 3, when the allocator fails. -/
def run_assign_range_no_memory : Option Exn × vector × Mem Nat :=
  (build [1, 2, 3]).1.assign_range [7, 8, 9, 10] { (build [1, 2, 3]).2 with allocs := some 0 }

/-- The call `shrink_to_fit()` on `[1,2,3]` with capacity 4, when the allocator fails. -/
def run_shrink_no_memory : vector × Mem Nat :=
  (buildSpare [1, 2, 3] 1).1.shrink_to_fit { (buildSpare [1, 2, 3] 1).2 with allocs := some 0 }

/-- The assignment `a = b` for `a = [1,2]` with capacity 2 and `b = [7,8,9]`. -/
def run_copy_assign_grow : Option Exn × vector × Mem Nat :=
  vector.copy_assign stdTraits (build [1, 2]).1
    (vector.ctor_range [7, 8, 9] stdAlloc (build [1, 2]).2).2.1 false
    (vector.ctor_range [7, 8, 9] stdAlloc (build [1, 2]).2).2.2

/-- The assignment `a = a` for `a = [1,2,3]`. -/
def run_copy_assign_self : Option Exn × vector × Mem Nat :=
  vector.copy_assign stdTraits (build [1, 2, 3]).1 (build [1, 2, 3]).1 true (build [1, 2, 3]).2

/-- The call `insert(begin() + 1, 2 ^ 64 - 1, 9)` on `[1,2]` with capacity 4. -/
def run_insert_fill_overflow : Except Exn Nat × vector × Mem Nat :=
  (buildSpare [1, 2] 2).1.insert_fill ((buildSpare [1, 2] 2).1.begin_ + 1) (2 ^ 64 - 1) 9
    (buildSpare [1, 2] 2).2

/-- The call `insert(begin() + 1, max_size(), 9)` on `[1,2]` with capacity 4. -/
def run_insert_fill_too_long : Except Exn Nat × vector × Mem Nat :=
  (buildSpare [1, 2] 2).1.insert_fill ((buildSpare [1, 2] 2).1.begin_ + 1)
    (buildSpare [1, 2] 2).1.max_size 9 (buildSpare [1, 2] 2).2

/-- The call `reserve(max_size() + 1)` on `[1,2,3,4]`. -/
def run_reserve_too_long : Option Exn × vector × Mem Nat :=
  (build [1, 2, 3, 4]).1.reserve ((build [1, 2, 3, 4]).1.max_size + 1) (build [1, 2, 3, 4]).2

/-- The call `resize(max_size() + 1)` on `[1,2,3,4]`. -/
def run_resize_too_long : Option Exn × vector × Mem Nat :=
  (build [1, 2, 3, 4]).1.resize ((build [1, 2, 3, 4]).1.max_size + 1) (build [1, 2, 3, 4]).2

/-- The call `resize(max_size() + 1, 9)` on `[1,2,3,4]`. -/
def run_resize_value_too_long : Option Exn × vector × Mem Nat :=
  (build [1, 2, 3, 4]).1.resize_value ((build [1, 2, 3, 4]).1.max_size + 1) 9
    (build [1, 2, 3, 4]).2

/-- Five `push_back` calls on the empty vector, with the number of reallocations. -/
def run_five_appends : Nat × Option Exn × vector × Mem Nat :=
  (vector.ctor stdAlloc).emplace_back_count (Mem.empty Nat) [1, 2, 3, 4, 5]

end tgp


namespace tgp

/-! ## Element access, swap, move assignment and the single-element insertions -/

/-- The construction of a temporary `value_type{args...}`: it consumes the constructor
schedule like every other construction and touches no cell. -/
def Mem.construct_temp {T : Type} (m : Mem T) : Option Exn × Mem T :=
  match m.ctors with
  | some 0 => (some Exn.ctor_error, m)
  | some (k + 1) => (none, { m with ctors := some k })
  | none => (none, m)

namespace vector

variable {T : Type}

/-- The member `operator[](pos)`: the reference `begin_[pos]`, as the address it denotes. -/
def subscript (v : vector) (pos : Nat) : Nat := v.begin_ + pos

/-- The member `at(pos)`: throws `out_of_range` for `pos >= size()`, otherwise returns the
reference `begin_[pos]`. -/
def at_ (v : vector) (pos : Nat) : Except Exn Nat :=
  if pos ≥ v.size then Except.error Exn.out_of_range
  else Except.ok (v.begin_ + pos)

/-- The member `swap(other)`; returns this vector and `other` after the call. -/
def swap (tr : Traits) (v other : vector) : vector × vector :=
  if tr.propagate_on_container_swap = true then
    ({ begin_ := other.begin_, end_ := other.end_, cap_ := other.cap_, alloc_ := other.alloc_ },
     { begin_ := v.begin_, end_ := v.end_, cap_ := v.cap_, alloc_ := v.alloc_ })
  else
    ({ begin_ := other.begin_, end_ := other.end_, cap_ := other.cap_, alloc_ := v.alloc_ },
     { begin_ := v.begin_, end_ := v.end_, cap_ := v.cap_, alloc_ := other.alloc_ })

/-- The move assignment `operator=(vector&& other)` for two distinct objects; returns the
exception if any, this vector, `other`, and the memory.  In the fallback branch the source
range is read up front, as in `copy_assign`. -/
def move_assign (tr : Traits) (v other : vector) (m : Mem T) :
    Option Exn × vector × vector × Mem T :=
  if v.alloc_.id = other.alloc_.id ∨ tr.propagate_on_container_move_assignment = true then
    (none,
     { begin_ := other.begin_, end_ := other.end_, cap_ := other.cap_, alloc_ := other.alloc_ },
     { other with begin_ := 0, end_ := 0, cap_ := 0 }, m)
  else
    match other.elements m with
    | some s =>
      let r := v.assign_range s m
      (r.1, r.2.1, other, r.2.2)
    | none => (none, v, other, m.bad)

/-- The member `insert(pos, const value_type& value)`.  Its calls `sb.construct_at_end(value)`
pass one argument, and the only one-argument overload of `split_buffer::construct_at_end` is
`construct_at_end(size_type n)`: `value` is converted to `size_type` (`conv`) and that many
elements are value-initialised. -/
def insert_value [Inhabited T] (conv : T → Nat) (v : vector) (pos : Nat) (value : T)
    (m : Mem T) : Except Exn Nat × vector × Mem T :=
  let p := v.begin_ + (pos - v.begin_)
  if v.end_ = v.cap_ then
    match v.recommend_cap (v.size + 1) with
    | Except.error e => (Except.error e, v, m)
    | Except.ok c =>
      match split_buffer.ctor c (p - v.begin_) m with
      | (Except.error e, m1) => (Except.error e, v, m1)
      | (Except.ok sb, m1) =>
        match sb.construct_at_end_n m1 (conv value) with
        | (some e, sb1, m2) => (Except.error e, v, sb1.dtor m2)
        | (none, sb1, m2) =>
          let r := v.swap_with_split_buffer_at sb1 p m2
          (Except.ok r.1, r.2.1, r.2.2.1.dtor r.2.2.2)
  else
    if p = v.end_ then
      match v.construct_one_at_end (some value) m with
      | (some e, v1, m1) => (Except.error e, v1, m1)
      | (none, v1, m1) => (Except.ok p, v1, m1)
    else
      match split_buffer.ctor v.capacity (p - v.begin_) m with
      | (Except.error e, m1) => (Except.error e, v, m1)
      | (Except.ok sb, m1) =>
        match sb.construct_at_end_n m1 (conv value) with
        | (some e, sb1, m2) => (Except.error e, v, sb1.dtor m2)
        | (none, sb1, m2) =>
          let r := v.swap_with_split_buffer_at sb1 p m2
          (Except.ok r.1, r.2.1, r.2.2.1.dtor r.2.2.2)

/-- The member `insert(pos, value_type&& value)`.  On reallocation it calls
`sb.construct_at_end(std::move(value))`, which again is `construct_at_end(size_type n)`. -/
def insert_rvalue [Inhabited T] (conv : T → Nat) (v : vector) (pos : Nat) (value : T)
    (m : Mem T) : Except Exn Nat × vector × Mem T :=
  let p := v.begin_ + (pos - v.begin_)
  if v.end_ = v.cap_ then
    match v.recommend_cap (v.size + 1) with
    | Except.error e => (Except.error e, v, m)
    | Except.ok c =>
      match split_buffer.ctor c (p - v.begin_) m with
      | (Except.error e, m1) => (Except.error e, v, m1)
      | (Except.ok sb, m1) =>
        match sb.construct_at_end_n m1 (conv value) with
        | (some e, sb1, m2) => (Except.error e, v, sb1.dtor m2)
        | (none, sb1, m2) =>
          let r := v.swap_with_split_buffer_at sb1 p m2
          (Except.ok r.1, r.2.1, r.2.2.1.dtor r.2.2.2)
  else
    if p = v.end_ then
      match v.construct_one_at_end (some value) m with
      | (some e, v1, m1) => (Except.error e, v1, m1)
      | (none, v1, m1) => (Except.ok p, v1, m1)
    else
      match v.move_range p v.end_ (p + 1) m with
      | (some e, v1, m1) => (Except.error e, v1, m1)
      | (none, v1, m1) => (Except.ok p, v1, m1.store p (some value))

/-- The member `emplace(pos, args...)`, with `x` the value that `args...` construct. -/
def emplace (v : vector) (pos : Nat) (x : T) (m : Mem T) : Except Exn Nat × vector × Mem T :=
  let p := v.begin_ + (pos - v.begin_)
  if v.end_ = v.cap_ then
    match v.recommend_cap (v.size + 1) with
    | Except.error e => (Except.error e, v, m)
    | Except.ok c =>
      match split_buffer.ctor c (p - v.begin_) m with
      | (Except.error e, m1) => (Except.error e, v, m1)
      | (Except.ok sb, m1) =>
        match sb.emplace_back x m1 with
        | (some e, sb1, m2) => (Except.error e, v, sb1.dtor m2)
        | (none, sb1, m2) =>
          let r := v.swap_with_split_buffer_at sb1 p m2
          (Except.ok r.1, r.2.1, r.2.2.1.dtor r.2.2.2)
  else
    if p = v.end_ then
      match v.construct_one_at_end (some x) m with
      | (some e, v1, m1) => (Except.error e, v1, m1)
      | (none, v1, m1) => (Except.ok p, v1, m1)
    else
      match v.move_range p v.end_ (p + 1) m with
      | (some e, v1, m1) => (Except.error e, v1, m1)
      | (none, v1, m1) =>
        match m1.construct_temp with
        | (some e, m2) => (Except.error e, v1, m2)
        | (none, m2) => (Except.ok p, v1, m2.store p (some x))

end vector

/-! ## Concrete buffers and calls -/

/-- The buffer that `split_buffer(cap, g, alloc)` constructs in `m`, with the memory after
the construction (all pointers null if the allocation fails). -/
def stagedBuffer (cap g : Nat) (m : Mem Nat) : split_buffer × Mem Nat :=
  match split_buffer.ctor cap g m with
  | (Except.ok sb, m1) => (sb, m1)
  | (Except.error _, m1) => ({ first_ := 0, begin_ := 0, end_ := 0, cap_ := 0 }, m1)

/-- The buffer `(10, 5)` of the tests after `construct_at_end(first, last)` over
`[1,2,3]`. -/
def bufferWith123 : Option Exn × split_buffer × Mem Nat :=
  (stagedBuffer 10 5 (Mem.empty Nat)).1.construct_at_end_range
    (stagedBuffer 10 5 (Mem.empty Nat)).2 [1, 2, 3]

/-- The buffer `(10, 5)` of the tests after `emplace_front(10)`. -/
def bufferFront10 : Option Exn × split_buffer × Mem Nat :=
  (stagedBuffer 10 5 (Mem.empty Nat)).1.emplace_front 10 (stagedBuffer 10 5 (Mem.empty Nat)).2

/-- The buffer `(10, 5)` holding `[1,2,3]` after `clear()`. -/
def bufferCleared : split_buffer × Mem Nat :=
  bufferWith123.2.1.clear bufferWith123.2.2

/-- The hand-off inside `reserve(8)` on `[1,2,3,4]`: the staging buffer `(8, 4)` is built
and `swap_with_split_buffer(sb)` runs; the buffer's destructor has not run yet. -/
def run_handoff : vector × Mem Nat :=
  (build [1, 2, 3, 4]).1.swap_with_split_buffer (stagedBuffer 8 4 (build [1, 2, 3, 4]).2).1
    (stagedBuffer 8 4 (build [1, 2, 3, 4]).2).2

/-- The staging buffer `(8, 1)` of `emplace(begin() + 1, 9)` on `[1,2,3,4]` after
`emplace_back(9)`. -/
def handoffBufferAt : Option Exn × split_buffer × Mem Nat :=
  (stagedBuffer 8 1 (build [1, 2, 3, 4]).2).1.emplace_back 9
    (stagedBuffer 8 1 (build [1, 2, 3, 4]).2).2

/-- The hand-off inside `emplace(begin() + 1, 9)` on `[1,2,3,4]`:
`swap_with_split_buffer(sb, p)` has run; the buffer's destructor has not run yet. -/
def run_handoff_at : Nat × vector × split_buffer × Mem Nat :=
  (build [1, 2, 3, 4]).1.swap_with_split_buffer_at handoffBufferAt.2.1
    ((build [1, 2, 3, 4]).1.begin_ + 1) handoffBufferAt.2.2

/-- The call `insert(begin() + 1, value)` with `const int& value = 9` on `[1,2,3]` with
capacity 4. -/
def run_insert_const : Except Exn Nat × vector × Mem Nat :=
  (buildSpare [1, 2, 3] 1).1.insert_value id ((buildSpare [1, 2, 3] 1).1.begin_ + 1) 9
    (buildSpare [1, 2, 3] 1).2

/-- The call `insert(begin() + 1, 9)` with an rvalue on `[1,2,3]` with capacity 4. -/
def run_insert_rvalue : Except Exn Nat × vector × Mem Nat :=
  (buildSpare [1, 2, 3] 1).1.insert_rvalue id ((buildSpare [1, 2, 3] 1).1.begin_ + 1) 9
    (buildSpare [1, 2, 3] 1).2

/-- The call `emplace(begin() + 1, 9)` on `[1,2,3]` with capacity 4. -/
def run_emplace : Except Exn Nat × vector × Mem Nat :=
  (buildSpare [1, 2, 3] 1).1.emplace ((buildSpare [1, 2, 3] 1).1.begin_ + 1) 9
    (buildSpare [1, 2, 3] 1).2

/-- The call `insert(begin() + 1, value)` with `const int& value = 0` on `[1,2,3]` with
capacity 4. -/
def run_insert_const_zero : Except Exn Nat × vector × Mem Nat :=
  (buildSpare [1, 2, 3] 1).1.insert_value id ((buildSpare [1, 2, 3] 1).1.begin_ + 1) 0
    (buildSpare [1, 2, 3] 1).2

/-- The move assignment `a = std::move(b)` for `a = [1,2]` with capacity 4 and
`b = [7,8,9]`. -/
def run_move_assign : Option Exn × vector × vector × Mem Nat :=
  vector.move_assign stdTraits twoVectors.1 twoVectors.2.1 twoVectors.2.2

/-- The staging buffer `(4, 1)` of `insert(begin() + 1, value)` with `const int& value = 9`
on `[1,2,3]` with capacity 4, after its `sb.construct_at_end(value)`. -/
def insertStaging : Option Exn × split_buffer × Mem Nat :=
  (stagedBuffer 4 1 (buildSpare [1, 2, 3] 1).2).1.construct_at_end_n
    (stagedBuffer 4 1 (buildSpare [1, 2, 3] 1).2).2 (id 9)

end tgp

namespace tgp

/-! ## Single-pass range insertion -/

/-- Assign the values of a list to successive cells from `d` on; a value that could not be
read (`none`) makes the assignment an invalid access. -/
def Mem.store_each {T : Type} (m : Mem T) (d : Nat) : List (Option T) → Mem T
  | [] => m
  | x :: xs => Mem.store_each (m.store d x) (d + 1) xs

/-- `std::rotate(first, middle, last)`, by its effect: the element at `middle` becomes the
first of the range and the one before `middle` the last, so cell `first + t` receives the
value that cell `first + (t + (middle - first)) % (last - first)` held.  Nothing is done
when `first = middle` or `middle = last`. -/
def std_rotate {T : Type} (m : Mem T) (first middle last : Nat) : Mem T :=
  if first = middle ∨ middle = last then m
  else
    m.store_each first
      ((List.range (last - first)).map
        (fun t => m.load (first + (t + (middle - first)) % (last - first))))

namespace vector

variable {T : Type}

/-- The member `insert(pos, first, last)` for a single-pass range: `emplace_back` every
value, then `std::rotate(begin() + n, begin() + cur_size, end())`; returns
`begin() + n`. -/
def insert_input (v : vector) (pos : Nat) (s : List T) (m : Mem T) :
    Except Exn Nat × vector × Mem T :=
  let n := pos - v.begin_
  let cur_size := v.size
  match v.emplace_back_each m s with
  | (some e, v1, m1) => (Except.error e, v1, m1)
  | (none, v1, m1) =>
    (Except.ok (v1.begin_ + n), v1,
      std_rotate m1 (v1.begin_ + n) (v1.begin_ + cur_size) v1.end_)

end vector

/-- The single-pass call `insert(begin() + 1, first, last)` over `[7,8]` on `[1,2,3]` with
capacity 5: no append reallocates. -/
def run_insert_input_room : Except Exn Nat × vector × Mem Nat :=
  (buildSpare [1, 2, 3] 2).1.insert_input ((buildSpare [1, 2, 3] 2).1.begin_ + 1) [7, 8]
    (buildSpare [1, 2, 3] 2).2

/-- The single-pass call `insert(begin() + 1, first, last)` over `[7]` on `[1,2,3,4]` with
capacity 4: the append reallocates. -/
def run_insert_input_full : Except Exn Nat × vector × Mem Nat :=
  (build [1, 2, 3, 4]).1.insert_input ((build [1, 2, 3, 4]).1.begin_ + 1) [7]
    (build [1, 2, 3, 4]).2

/-- The single-pass call `insert(begin() + 1, first, last)` over `[7,8]` on `[1,2,3]` with
capacity 4: the first append fits, the second reallocates. -/
def run_insert_input_second : Except Exn Nat × vector × Mem Nat :=
  (buildSpare [1, 2, 3] 1).1.insert_input ((buildSpare [1, 2, 3] 1).1.begin_ + 1) [7, 8]
    (buildSpare [1, 2, 3] 1).2

/-- The single-pass call `insert(end(), first, last)` over `[7,8]` on `[1,2,3]` with
capacity 5. -/
def run_insert_input_end : Except Exn Nat × vector × Mem Nat :=
  (buildSpare [1, 2, 3] 2).1.insert_input (buildSpare [1, 2, 3] 2).1.end_ [7, 8]
    (buildSpare [1, 2, 3] 2).2

end tgp

namespace tgp

/-! ## Runs of appends from the empty vector -/

/-- One `push_back` on the empty vector, with the number of reallocations. -/
def run_one_append : Nat × Option Exn × vector × Mem Nat :=
  (vector.ctor stdAlloc).emplace_back_count (Mem.empty Nat) [1]

/-- Two `push_back` calls on the empty vector, with the number of reallocations. -/
def run_two_appends : Nat × Option Exn × vector × Mem Nat :=
  (vector.ctor stdAlloc).emplace_back_count (Mem.empty Nat) [1, 2]

end tgp
namespace tgp

/-! ## Facts about the memory primitives -/

section MemLemmas

variable {T : Type}

theorem Mem.set_cells (m : Mem T) (a : Nat) (c : Cell T) (b : Nat) :
    (m.set a c).cells b = if b = a then c else m.cells b := rfl

theorem Mem.set_fault (m : Mem T) (a : Nat) (c : Cell T) : (m.set a c).fault = m.fault := rfl

theorem Mem.load_of_live {m : Mem T} {a : Nat} {x : T} (h : m.cells a = Cell.live x) :
    m.load a = some x := by
  simp [Mem.load, h]

theorem Mem.destroy_of_live {m : Mem T} {a : Nat} {x : T} (h : m.cells a = Cell.live x) :
    m.destroy a = m.set a Cell.raw := by
  simp [Mem.destroy, h]

/-- Reading `n` cells gives a list exactly when the list has length `n` and each cell
holds the matching element. -/
theorem Mem.read_eq_some_iff (n : Nat) : ∀ (m : Mem T) (a : Nat) (l : List T),
    m.read a n = some l ↔ l.length = n ∧ ∀ t, t < n → m.load (a + t) = l[t]? := by
  induction n with
  | zero =>
    intro m a l
    cases l with
    | nil => simp [Mem.read]
    | cons x xs => simp [Mem.read]
  | succ n ih =>
    intro m a l
    cases l with
    | nil =>
      simp only [Mem.read]
      constructor
      · intro h
        split at h <;> simp at h
      · intro h
        simp at h
    | cons x xs =>
      simp only [Mem.read]
      constructor
      · intro h
        split at h
        · rename_i y ys hy hys
          simp only [Option.some.injEq, List.cons.injEq] at h
          obtain ⟨rfl, rfl⟩ := h
          obtain ⟨hl, hp⟩ := (ih m (a + 1) ys).1 hys
          refine ⟨by simp [hl], ?_⟩
          intro t ht
          cases t with
          | zero => simpa using hy
          | succ t =>
            have := hp t (by omega)
            simpa [Nat.add_assoc, Nat.add_comm 1 t] using this
        · simp at h
      · rintro ⟨hl, hp⟩
        have h0 : m.load a = some x := by simpa using hp 0 (by omega)
        have hr : m.read (a + 1) n = some xs := by
          refine (ih m (a + 1) xs).2 ⟨by simpa using hl, ?_⟩
          intro t ht
          have := hp (t + 1) (by omega)
          simpa [Nat.add_assoc, Nat.add_comm 1 t] using this
        simp [h0, hr]

/-- Destroying the last `k` elements of a run of live elements turns exactly those cells
raw. -/
theorem vector.destruct_at_end_loop_spec (k : Nat) : ∀ (m : Mem T) (e : Nat), k ≤ e →
    (∀ c, e - k ≤ c → c < e → ∃ x, m.cells c = Cell.live x) →
    (vector.destruct_at_end_loop m e k).fault = m.fault ∧
    ∀ c, (vector.destruct_at_end_loop m e k).cells c =
      if e - k ≤ c ∧ c < e then Cell.raw else m.cells c := by
  induction k with
  | zero =>
    intro m e _ _
    refine ⟨rfl, ?_⟩
    intro c
    have h0 : ¬ (e - 0 ≤ c ∧ c < e) := by omega
    rw [if_neg h0]
    rfl
  | succ k ih =>
    intro m e he hlive
    obtain ⟨x, hx⟩ := hlive (e - 1) (by omega) (by omega)
    have hstep : vector.destruct_at_end_loop m e (k + 1)
        = vector.destruct_at_end_loop (m.set (e - 1) Cell.raw) (e - 1) k := by
      simp [vector.destruct_at_end_loop, Mem.destroy_of_live hx]
    have hlive1 : ∀ c, e - 1 - k ≤ c → c < e - 1 →
        ∃ z, (m.set (e - 1) Cell.raw).cells c = Cell.live z := by
      intro c h1 h2
      have hne : c ≠ e - 1 := by omega
      simpa [Mem.set_cells, hne] using hlive c (by omega) (by omega)
    obtain ⟨hf, hc⟩ := ih (m.set (e - 1) Cell.raw) (e - 1) (by omega) hlive1
    rw [hstep]
    refine ⟨by rw [hf, Mem.set_fault], ?_⟩
    intro c
    rw [hc c, Mem.set_cells]
    by_cases h1 : e - 1 - k ≤ c ∧ c < e - 1
    · have h2 : e - (k + 1) ≤ c ∧ c < e := by omega
      rw [if_pos h1, if_pos h2]
    · rw [if_neg h1]
      by_cases h3 : c = e - 1
      · have h2 : e - (k + 1) ≤ c ∧ c < e := by omega
        rw [if_pos h3, if_pos h2]
      · have h2 : ¬ (e - (k + 1) ≤ c ∧ c < e) := by omega
        rw [if_neg h3, if_neg h2]

/-- The pointer order that `invariants()` checks. -/
theorem vector.invariants_le {v : vector} (h : v.invariants = true) :
    v.begin_ ≤ v.end_ ∧ v.end_ ≤ v.cap_ := by
  unfold vector.invariants at h
  split at h
  · split at h
    · simp at h
    · rename_i h0 h1
      omega
  · split at h
    · simp at h
    · split at h
      · simp at h
      · omega

end MemLemmas

end tgp

namespace tgp

section EraseProof

variable {T : Type}

theorem Mem.load_congr {m1 m2 : Mem T} {a b : Nat} (h : m1.cells a = m2.cells b) :
    m1.load a = m2.load b := by
  simp [Mem.load, h]

theorem Mem.live_of_load {m : Mem T} {a : Nat} {x : T} (h : m.load a = some x) :
    m.cells a = Cell.live x := by
  unfold Mem.load at h
  split at h
  · rename_i y hy
    simp only [Option.some.injEq] at h
    rw [hy, h]
  · simp at h

/-- Every cell of a vector whose elements can be read holds a live element. -/
theorem vector.live_of_elements {v : vector} {m : Mem T} {xs : List T}
    (hxs : v.elements m = some xs) :
    ∀ c, v.begin_ ≤ c → c < v.begin_ + v.size → ∃ x, m.cells c = Cell.live x := by
  obtain ⟨hl, hp⟩ := (Mem.read_eq_some_iff v.size m v.begin_ xs).1 hxs
  intro c h1 h2
  have ht : c - v.begin_ < v.size := by omega
  have := hp (c - v.begin_) ht
  have hc : v.begin_ + (c - v.begin_) = c := by omega
  rw [hc, List.getElem?_eq_getElem (by omega)] at this
  exact ⟨_, Mem.live_of_load this⟩

end EraseProof

end tgp

namespace tgp

/-- C1 (append), evaluated at the scenario of the specification.  `[1,2,3,4]` fills its
capacity 4; `emplace_back(5)` returns normally with size 5 and capacity 8, but the
staging buffer's destructor has released the storage that the vector adopted: no element
can be read and every cell of `[begin_, cap_)` is outside any allocation.  With a free
slot (`emplace_back(4)` on `[1,2,3]`, capacity 4) the result is `[1,2,3,4]` in the same
storage. -/
theorem vector.emplace_back_full_releases_storage :
    (build [1, 2, 3, 4]).1.elements (build [1, 2, 3, 4]).2 = some [1, 2, 3, 4] ∧
    (build [1, 2, 3, 4]).1.capacity = 4 ∧
    run_append_full.1 = none ∧
    run_append_full.2.1.size = 5 ∧
    run_append_full.2.1.capacity = 8 ∧
    run_append_full.2.1.elements run_append_full.2.2 = none ∧
    run_append_full.2.1.released run_append_full.2.2 = true ∧
    run_append_spare.1 = none ∧
    run_append_spare.2.1.elements run_append_spare.2.2 = some [1, 2, 3, 4] ∧
    run_append_spare.2.1.begin_ = (buildSpare [1, 2, 3] 1).1.begin_ ∧
    run_append_spare.2.1.capacity = 4 := by
  decide

/-- C2 (round trip), evaluated at a sequence of length 1.  The multi-pass constructor over
`[7]` gives a vector that iterates as `[7]`; the single-pass constructor over the same
sequence returns normally with size 1, but its storage has been released and no element
can be read. -/
theorem vector.ctor_input_releases_storage :
    (build [7]).1.size = 1 ∧
    (build [7]).1.elements (build [7]).2 = some [7] ∧
    run_ctor_input.1 = none ∧
    run_ctor_input.2.1.size = 1 ∧
    run_ctor_input.2.1.elements run_ctor_input.2.2 = none ∧
    run_ctor_input.2.1.released run_ctor_input.2.2 = true := by
  decide

/-- C3 (invariant), evaluated at `insert(begin(), {9})` on `[1,2,3]` with capacity 4.  The
vector satisfies `invariants()` and the range fits the capacity, yet after the call
`end_` is two past `cap_`, `invariants()` is false, and the call wrote outside the
allocation. -/
theorem vector.insert_range_breaks_invariants :
    (buildSpare [1, 2, 3] 1).1.invariants = true ∧
    (buildSpare [1, 2, 3] 1).1.elements (buildSpare [1, 2, 3] 1).2 = some [1, 2, 3] ∧
    (buildSpare [1, 2, 3] 1).1.capacity = 4 ∧
    (buildSpare [1, 2, 3] 1).2.fault = false ∧
    run_insert_front.1.toOption = some (buildSpare [1, 2, 3] 1).1.begin_ ∧
    run_insert_front.2.1.end_ = run_insert_front.2.1.cap_ + 2 ∧
    run_insert_front.2.1.invariants = false ∧
    run_insert_front.2.2.fault = true := by
  decide

/-- C4 (multi-pass insert without growth), evaluated at `insert(begin() + 1, {9})` on
`[1,2,3,4,5]` with capacity 10.  The call returns `begin() + 1` without reallocating, but
the vector then holds `[1,9,3,4,5,2,3,4,5]` with size 9, not `[1,9,2,3,4,5]` with size 6.
The scenario of the specification, where the inserted range is longer than the tail
behind the position, does give `[1,2,3,4,5]`. -/
theorem vector.insert_range_short_duplicates_tail :
    (buildSpare [1, 2, 3, 4, 5] 5).1.elements (buildSpare [1, 2, 3, 4, 5] 5).2
      = some [1, 2, 3, 4, 5] ∧
    (buildSpare [1, 2, 3, 4, 5] 5).1.capacity = 10 ∧
    run_insert_short.1.toOption = some ((buildSpare [1, 2, 3, 4, 5] 5).1.begin_ + 1) ∧
    run_insert_short.2.1.begin_ = (buildSpare [1, 2, 3, 4, 5] 5).1.begin_ ∧
    run_insert_short.2.1.capacity = 10 ∧
    run_insert_short.2.1.size = 9 ∧
    run_insert_short.2.1.elements run_insert_short.2.2 = some [1, 9, 3, 4, 5, 2, 3, 4, 5] ∧
    run_insert_scenario.2.1.elements run_insert_scenario.2.2 = some [1, 2, 3, 4, 5] ∧
    run_insert_scenario.2.1.capacity = 7 := by
  decide

/-- C5 (multi-pass assign), evaluated at the case `size < |s| ≤ capacity`.  Assigning the
range `[7,8,9]` to `[1,2]` with capacity 4 returns normally and leaves size 2 and elements
`[7,8]`: the third value is written behind `end_`, which never advances.  The cases
`|s| ≤ size` (`[7]` onto `[1,2,3]`) and `|s| > capacity` (`[7,8,9]` onto `[1,2]` with
capacity 2) give exactly the assigned sequence. -/
theorem vector.assign_range_extend_keeps_size :
    (buildSpare [1, 2] 2).1.elements (buildSpare [1, 2] 2).2 = some [1, 2] ∧
    (buildSpare [1, 2] 2).1.capacity = 4 ∧
    run_assign_extend.1 = none ∧
    run_assign_extend.2.1.size = 2 ∧
    run_assign_extend.2.1.capacity = 4 ∧
    run_assign_extend.2.1.elements run_assign_extend.2.2 = some [7, 8] ∧
    run_assign_extend.2.2.load (run_assign_extend.2.1.end_) = some 9 ∧
    run_assign_truncate.2.1.elements run_assign_truncate.2.2 = some [7] ∧
    run_assign_realloc.2.1.elements run_assign_realloc.2.2 = some [7, 8, 9] := by
  decide

/-- C7 (fill insert), evaluated on each of its three paths.  With growth
(`insert(begin() + 1, 2, 9)` on `[1,2,3,4]`, capacity 4) and through the same-capacity
staging buffer (`insert(begin() + 1, 1, 9)` on `[1,2,3,4,5]`, capacity 10) the call returns
index 1 and size `size() + n`, but the adopted storage has been released and no element
can be read.  The in-place path (`insert(begin() + 1, 3, 9)` on `[1,2,3]`, capacity 8)
gives `[1,9,9,9,2,3]`. -/
theorem vector.insert_fill_staging_releases_storage :
    run_insert_fill_grow.1.toOption = some (run_insert_fill_grow.2.1.begin_ + 1) ∧
    run_insert_fill_grow.2.1.size = 6 ∧
    run_insert_fill_grow.2.1.elements run_insert_fill_grow.2.2 = none ∧
    run_insert_fill_grow.2.1.released run_insert_fill_grow.2.2 = true ∧
    (buildSpare [1, 2, 3, 4, 5] 5).1.capacity = 10 ∧
    run_insert_fill_staged.1.toOption = some (run_insert_fill_staged.2.1.begin_ + 1) ∧
    run_insert_fill_staged.2.1.size = 6 ∧
    run_insert_fill_staged.2.1.capacity = 10 ∧
    run_insert_fill_staged.2.1.elements run_insert_fill_staged.2.2 = none ∧
    run_insert_fill_staged.2.1.released run_insert_fill_staged.2.2 = true ∧
    run_insert_fill_inplace.2.1.elements run_insert_fill_inplace.2.2
      = some [1, 9, 9, 9, 2, 3] := by
  decide

/-- C8 (resize), evaluated at growth beyond the capacity.  `resize(6, 0)` on `[1,2,3,4]`
with capacity 4 returns normally with size 6 and capacity 8, but the old elements are
not preserved: the adopted storage has been released and no element can be read.
Shrinking (`resize(2, 0)`) and growing within the capacity (`resize(5, 0)` on `[1,2,3]`
with capacity 6) give `[1,2]` and `[1,2,3,0,0]` with the capacity unchanged. -/
theorem vector.resize_grow_releases_storage :
    (build [1, 2, 3, 4]).1.elements (build [1, 2, 3, 4]).2 = some [1, 2, 3, 4] ∧
    run_resize_grow.1 = none ∧
    run_resize_grow.2.1.size = 6 ∧
    run_resize_grow.2.1.capacity = 8 ∧
    run_resize_grow.2.1.elements run_resize_grow.2.2 = none ∧
    run_resize_grow.2.1.released run_resize_grow.2.2 = true ∧
    run_resize_shrink.2.1.elements run_resize_shrink.2.2 = some [1, 2] ∧
    run_resize_shrink.2.1.capacity = 4 ∧
    run_resize_within.2.1.elements run_resize_within.2.2 = some [1, 2, 3, 0, 0] ∧
    run_resize_within.2.1.capacity = 6 := by
  decide

/-- C9 (fill assign), evaluated at a count beyond the capacity.  `assign(6, 9)` on
`[1,2,3,4]` with capacity 4 returns normally with size 6, but the adopted storage has been
released and no element can be read.  The scenario of the specification, `assign(2, 9)`
on `[1,2,3,4,5]`, gives `[9,9]` with the capacity unchanged. -/
theorem vector.assign_fill_grow_releases_storage :
    run_assign_fill_grow.1 = none ∧
    run_assign_fill_grow.2.1.size = 6 ∧
    run_assign_fill_grow.2.1.elements run_assign_fill_grow.2.2 = none ∧
    run_assign_fill_grow.2.1.released run_assign_fill_grow.2.2 = true ∧
    run_assign_fill_scenario.2.1.elements run_assign_fill_scenario.2.2 = some [9, 9] ∧
    run_assign_fill_scenario.2.1.capacity = (build [1, 2, 3, 4, 5]).1.capacity := by
  decide

/-- C10 (single-pass assign), evaluated at an input longer than the capacity.  Assigning
a single-pass range that yields `[7,8,9]` to `[1,2]` with capacity 2 returns normally
with size 3, but the append of the third value reallocates and the adopted storage has
been released: no element can be read.  Inputs that fit the capacity are assigned
as claimed: `[7]` onto `[1,2,3]` gives `[7]`, and `[7,8,9]` onto `[1,2]` with capacity 4
gives `[7,8,9]`. -/
theorem vector.assign_input_grow_releases_storage :
    (build [1, 2]).1.elements (build [1, 2]).2 = some [1, 2] ∧
    (build [1, 2]).1.capacity = 2 ∧
    run_assign_input.1 = none ∧
    run_assign_input.2.1.size = 3 ∧
    run_assign_input.2.1.elements run_assign_input.2.2 = none ∧
    run_assign_input.2.1.released run_assign_input.2.2 = true ∧
    run_assign_input_short.2.1.elements run_assign_input_short.2.2 = some [7] ∧
    run_assign_input_within.2.1.elements run_assign_input_within.2.2 = some [7, 8, 9] ∧
    run_assign_input_within.2.1.capacity = 4 := by
  decide

end tgp

namespace tgp

/-! ## Failure schedules and the allocation pointer -/

section Schedules

variable {T : Type}

theorem Mem.store_sched (m : Mem T) (a : Nat) (x : Option T) :
    (m.store a x).allocs = m.allocs ∧ (m.store a x).ctors = m.ctors ∧
    (m.store a x).brk = m.brk := by
  unfold Mem.store
  cases x with
  | none => exact ⟨rfl, rfl, rfl⟩
  | some y =>
    simp only
    cases m.cells a <;> exact ⟨rfl, rfl, rfl⟩

theorem Mem.destroy_sched (m : Mem T) (a : Nat) :
    (m.destroy a).allocs = m.allocs ∧ (m.destroy a).ctors = m.ctors ∧
    (m.destroy a).brk = m.brk := by
  unfold Mem.destroy
  cases m.cells a <;> exact ⟨rfl, rfl, rfl⟩

theorem Mem.deallocate_sched (m : Mem T) (p n : Nat) :
    (m.deallocate p n).allocs = m.allocs ∧ (m.deallocate p n).ctors = m.ctors ∧
    (m.deallocate p n).brk = m.brk := by
  unfold Mem.deallocate
  split
  · exact ⟨rfl, rfl, rfl⟩
  · split <;> exact ⟨rfl, rfl, rfl⟩

theorem Mem.noFailure_store {m : Mem T} (h : m.noFailure) (a : Nat) (x : Option T) :
    (m.store a x).noFailure := by
  obtain ⟨h1, h2, _⟩ := Mem.store_sched m a x
  exact ⟨h1.trans h.1, h2.trans h.2⟩

theorem Mem.noFailure_destroy {m : Mem T} (h : m.noFailure) (a : Nat) :
    (m.destroy a).noFailure := by
  obtain ⟨h1, h2, _⟩ := Mem.destroy_sched m a
  exact ⟨h1.trans h.1, h2.trans h.2⟩

theorem Mem.noFailure_deallocate {m : Mem T} (h : m.noFailure) (p n : Nat) :
    (m.deallocate p n).noFailure := by
  obtain ⟨h1, h2, _⟩ := Mem.deallocate_sched m p n
  exact ⟨h1.trans h.1, h2.trans h.2⟩

theorem relocate_noFailure (n : Nat) : ∀ (m : Mem T) (first result : Nat), m.noFailure →
    (relocate m first result n).noFailure := by
  induction n with
  | zero => intro m _ _ h; exact h
  | succ n ih =>
    intro m first result h
    exact ih _ _ _ (Mem.noFailure_destroy (Mem.noFailure_store h _ _) _)

theorem std_copy_noFailure (l : List T) : ∀ (m : Mem T) (d : Nat), m.noFailure →
    (std_copy m d l).noFailure := by
  induction l with
  | nil => intro m _ h; exact h
  | cons x xs ih =>
    intro m d h
    exact ih _ _ (Mem.noFailure_store h _ _)

theorem std_move_backward_noFailure (n : Nat) : ∀ (m : Mem T) (last d_last : Nat),
    m.noFailure → (std_move_backward m last d_last n).noFailure := by
  induction n with
  | zero => intro m _ _ h; exact h
  | succ n ih =>
    intro m last d_last h
    exact ih _ _ _ (Mem.noFailure_store h _ _)

theorem vector.destruct_at_end_loop_noFailure (n : Nat) : ∀ (m : Mem T) (e : Nat),
    m.noFailure → (vector.destruct_at_end_loop m e n).noFailure := by
  induction n with
  | zero => intro m _ h; exact h
  | succ n ih =>
    intro m e h
    exact ih _ _ (Mem.noFailure_destroy h _)

theorem split_buffer.clear_loop_noFailure (n : Nat) : ∀ (sb : split_buffer) (m : Mem T),
    m.noFailure → (split_buffer.clear_loop sb m n).2.noFailure := by
  induction n with
  | zero => intro _ m h; exact h
  | succ n ih =>
    intro sb m h
    exact ih _ _ (Mem.noFailure_destroy h _)

theorem split_buffer.dtor_noFailure (sb : split_buffer) {m : Mem T} (h : m.noFailure) :
    (sb.dtor m).noFailure := by
  unfold split_buffer.dtor
  split
  · exact Mem.noFailure_deallocate (split_buffer.clear_loop_noFailure _ _ _ h) _ _
  · exact h

/-- With no failure scheduled, construction stores the element and does not throw. -/
theorem Mem.construct_of_noFailure {m : Mem T} (h : m.noFailure) (a : Nat) (x : Option T) :
    m.construct a x = (none, m.store a x) := by
  unfold Mem.construct
  rw [h.2]

/-- With no failure scheduled, allocation hands out the block at `brk`. -/
theorem Mem.allocate_of_noFailure {m : Mem T} (h : m.noFailure) (n : Nat) :
    m.allocate n
      = (Except.ok m.brk, { m.setRange m.brk n Cell.raw with brk := m.brk + n + 1 }) := by
  unfold Mem.allocate
  rw [h.1]

theorem split_buffer.ctor_of_noFailure {m : Mem T} (h : m.noFailure) (cap g : Nat) :
    split_buffer.ctor cap g m
      = (Except.ok { first_ := m.brk, begin_ := m.brk + g, end_ := m.brk + g,
                     cap_ := m.brk + cap },
         { m.setRange m.brk cap Cell.raw with brk := m.brk + cap + 1 }) := by
  unfold split_buffer.ctor
  rw [Mem.allocate_of_noFailure h]

theorem Mem.noFailure_afterAllocate {m : Mem T} (h : m.noFailure) (n : Nat) :
    ({ m.setRange m.brk n Cell.raw with brk := m.brk + n + 1 } : Mem T).noFailure := h

end Schedules

end tgp

namespace tgp

/-! ## The construction loops -/

section ConstructLoops

variable {T : Type}

theorem split_buffer.buffer_range_eq (l : List T) :
    ∀ (sb : split_buffer) (m : Mem T),
    sb.construct_at_end_range m l
      = ((m.construct_list sb.end_ l).1,
         { sb with end_ := (m.construct_list sb.end_ l).2.1 },
         (m.construct_list sb.end_ l).2.2) := by
  induction l with
  | nil => intro sb m; rfl
  | cons x xs ih =>
    intro sb m
    unfold split_buffer.construct_at_end_range Mem.construct_list
    rcases hc : m.construct sb.end_ (some x) with ⟨e, m1⟩
    cases e with
    | some e => rfl
    | none =>
      simp only
      rw [ih]

theorem split_buffer.buffer_fill_eq (n : Nat) :
    ∀ (sb : split_buffer) (m : Mem T) (x : T),
    sb.construct_at_end_fill m x n = sb.construct_at_end_range m (List.replicate n x) := by
  induction n with
  | zero => intro sb m x; rfl
  | succ n ih =>
    intro sb m x
    unfold split_buffer.construct_at_end_fill
    rw [List.replicate_succ]
    unfold split_buffer.construct_at_end_range
    rcases hc : m.construct sb.end_ (some x) with ⟨e, m1⟩
    cases e with
    | some e => rfl
    | none =>
      simp only
      rw [ih]

theorem split_buffer.buffer_n_eq [Inhabited T] (n : Nat) :
    ∀ (sb : split_buffer) (m : Mem T),
    sb.construct_at_end_n m n = sb.construct_at_end_range m (List.replicate n default) := by
  induction n with
  | zero => intro sb m; rfl
  | succ n ih =>
    intro sb m
    unfold split_buffer.construct_at_end_n
    rw [List.replicate_succ]
    unfold split_buffer.construct_at_end_range
    rcases hc : m.construct sb.end_ (some default) with ⟨e, m1⟩
    cases e with
    | some e => rfl
    | none =>
      simp only
      rw [ih]

theorem vector.construct_at_end_range_eq (l : List T) :
    ∀ (v : vector) (m : Mem T),
    v.construct_at_end_range m l
      = ((m.construct_list v.end_ l).1,
         { v with end_ := (m.construct_list v.end_ l).2.1 },
         (m.construct_list v.end_ l).2.2) := by
  induction l with
  | nil => intro v m; rfl
  | cons x xs ih =>
    intro v m
    unfold vector.construct_at_end_range Mem.construct_list
    rcases hc : m.construct v.end_ (some x) with ⟨e, m1⟩
    cases e with
    | some e => rfl
    | none =>
      simp only
      rw [ih]

theorem vector.construct_at_end_fill_eq (n : Nat) :
    ∀ (v : vector) (m : Mem T) (x : T),
    v.construct_at_end_fill m x n = v.construct_at_end_range m (List.replicate n x) := by
  induction n with
  | zero => intro v m x; rfl
  | succ n ih =>
    intro v m x
    unfold vector.construct_at_end_fill
    rw [List.replicate_succ]
    unfold vector.construct_at_end_range
    rcases hc : m.construct v.end_ (some x) with ⟨e, m1⟩
    cases e with
    | some e => rfl
    | none =>
      simp only
      rw [ih]

theorem vector.construct_at_end_n_eq [Inhabited T] (n : Nat) :
    ∀ (v : vector) (m : Mem T),
    v.construct_at_end_n m n = v.construct_at_end_range m (List.replicate n default) := by
  induction n with
  | zero => intro v m; rfl
  | succ n ih =>
    intro v m
    unfold vector.construct_at_end_n
    rw [List.replicate_succ]
    unfold vector.construct_at_end_range
    rcases hc : m.construct v.end_ (some default) with ⟨e, m1⟩
    cases e with
    | some e => rfl
    | none =>
      simp only
      rw [ih]

/-- With no failure scheduled the construction loop runs to its end. -/
theorem Mem.construct_list_of_noFailure (l : List T) : ∀ (m : Mem T) (a : Nat), m.noFailure →
    (m.construct_list a l).1 = none ∧ (m.construct_list a l).2.1 = a + l.length ∧
    (m.construct_list a l).2.2.noFailure ∧ (m.construct_list a l).2.2.brk = m.brk := by
  induction l with
  | nil => intro m a h; exact ⟨rfl, rfl, h, rfl⟩
  | cons x xs ih =>
    intro m a h
    unfold Mem.construct_list
    rw [Mem.construct_of_noFailure h]
    simp only
    obtain ⟨h1, h2, h3, h4⟩ := ih (m.store a (some x)) (a + 1) (Mem.noFailure_store h _ _)
    refine ⟨h1, ?_, h3, ?_⟩
    · rw [h2, List.length_cons]; omega
    · rw [h4]; exact (Mem.store_sched m a (some x)).2.2

theorem Mem.store_of_not_free {m : Mem T} {a : Nat} (h : m.cells a ≠ Cell.free) (y : T) :
    m.store a (some y) = m.set a (Cell.live y) := by
  cases hc : m.cells a with
  | free => exact absurd hc h
  | raw => simp [Mem.store, hc]
  | live z => simp [Mem.store, hc]

/-- When the constructor schedule lets `k` constructions succeed and the list is longer,
the loop throws after constructing exactly the first `k` values, each in its cell. -/
theorem Mem.construct_list_fail (l : List T) : ∀ (m : Mem T) (a k : Nat),
    m.ctors = some k → k < l.length → (∀ t, t < k → m.cells (a + t) ≠ Cell.free) →
    (m.construct_list a l).1 = some Exn.ctor_error ∧
    (m.construct_list a l).2.1 = a + k ∧
    (m.construct_list a l).2.2.fault = m.fault ∧
    (m.construct_list a l).2.2.brk = m.brk ∧
    (m.construct_list a l).2.2.allocs = m.allocs ∧
    (∀ b, a ≤ b → b < a + k → (m.construct_list a l).2.2.load b = l[b - a]?) ∧
    (∀ b, ¬ (a ≤ b ∧ b < a + k) → (m.construct_list a l).2.2.cells b = m.cells b) := by
  induction l with
  | nil => intro m a k _ hk _; simp at hk
  | cons x xs ih =>
    intro m a k hc hk hfree
    cases k with
    | zero =>
      have hstep : m.construct_list a (x :: xs) = (some Exn.ctor_error, a, m) := by
        unfold Mem.construct_list Mem.construct
        rw [hc]
      rw [hstep]
      refine ⟨rfl, rfl, rfl, rfl, rfl, ?_, ?_⟩
      · intro b h1 h2; omega
      · intro b _; rfl
    | succ k =>
      have hnf : m.cells a ≠ Cell.free := by simpa using hfree 0 (by omega)
      have hstep : m.construct_list a (x :: xs)
          = Mem.construct_list { m.set a (Cell.live x) with ctors := some k } (a + 1) xs := by
        conv_lhs => unfold Mem.construct_list Mem.construct
        rw [hc]
        simp only
        rw [Mem.store_of_not_free hnf]
      have hfree1 : ∀ t, t < k →
          ({ m.set a (Cell.live x) with ctors := some k } : Mem T).cells (a + 1 + t)
            ≠ Cell.free := by
        intro t ht
        have hne : a + 1 + t ≠ a := by omega
        have := hfree (t + 1) (by omega)
        have he : a + (t + 1) = a + 1 + t := by omega
        rw [he] at this
        show (m.set a (Cell.live x)).cells (a + 1 + t) ≠ Cell.free
        rw [Mem.set_cells, if_neg hne]
        exact this
      obtain ⟨h1, h2, h3, h4, h5, h6, h7⟩ :=
        ih { m.set a (Cell.live x) with ctors := some k } (a + 1) k rfl
          (by simpa using hk) hfree1
      rw [hstep]
      refine ⟨h1, ?_, h3, h4, h5, ?_, ?_⟩
      · rw [h2]; omega
      · intro b hb1 hb2
        by_cases hba : b = a
        · subst hba
          rw [Mem.load_congr (h7 b (by omega))]
          have : ({ m.set b (Cell.live x) with ctors := some k } : Mem T).cells b
              = Cell.live x := by
            show (m.set b (Cell.live x)).cells b = Cell.live x
            rw [Mem.set_cells, if_pos rfl]
          rw [Mem.load_of_live this]
          simp
        · rw [h6 b (by omega) (by omega)]
          have he : b - a = (b - (a + 1)) + 1 := by omega
          rw [he, List.getElem?_cons_succ]
      · intro b hb
        have hne : b ≠ a := by omega
        rw [h7 b (by omega)]
        show (m.set a (Cell.live x)).cells b = m.cells b
        rw [Mem.set_cells, if_neg hne]

end ConstructLoops

end tgp

namespace tgp

/-- C13 (growth policy bounds).  For a vector whose capacity does not exceed `max_size()`:
`recommend_cap(k)` throws `length_error` when `k > max_size()` and otherwise returns some
`r` with `k ≤ r`, `capacity() ≤ r` and `r ≤ max_size()`, where `r = max_size()` if
`capacity() > max_size() / 2` and `r = max(2 * capacity(), k)` if not.  The member is
`const`: it is a function of the vector alone and returns nothing but the number or the
exception. -/
theorem vector.recommend_cap_bounds (v : vector) (k : Nat) (hcap : v.capacity ≤ v.max_size) :
    (k > v.max_size → v.recommend_cap k = Except.error Exn.length_error) ∧
    (k ≤ v.max_size → ∃ r, v.recommend_cap k = Except.ok r ∧
      k ≤ r ∧ v.capacity ≤ r ∧ r ≤ v.max_size ∧
      (v.capacity > v.max_size / 2 → r = v.max_size) ∧
      (v.capacity ≤ v.max_size / 2 → r = max (2 * v.capacity) k)) := by
  constructor
  · intro hk
    unfold vector.recommend_cap
    simp only [if_pos hk]
  · intro hk
    have hnk : ¬ (k > v.max_size) := by omega
    by_cases hhalf : v.capacity > v.max_size / 2
    · refine ⟨v.max_size, ?_, hk, hcap, Nat.le_refl _, fun _ => rfl, fun h => by omega⟩
      unfold vector.recommend_cap
      simp only [if_neg hnk, if_pos hhalf]
    · refine ⟨max (v.capacity * 2) k, ?_, ?_, ?_, ?_, fun h => absurd h hhalf, ?_⟩
      · unfold vector.recommend_cap
        simp only [if_neg hnk, if_neg hhalf]
      · exact Nat.le_max_right _ _
      · have : v.capacity ≤ v.capacity * 2 := by omega
        exact Nat.le_trans this (Nat.le_max_left _ _)
      · have h2 : v.capacity * 2 ≤ v.max_size := by omega
        exact Nat.max_le.2 ⟨h2, hk⟩
      · intro _
        rw [Nat.mul_comm]

/-- Witness for C13: `[1,2,3,4]` with capacity 4 under `std::allocator<int>` and the
request 5, for which the recommendation is 8. -/
theorem vector.recommend_cap_bounds_witness :
    (build [1, 2, 3, 4]).1.capacity ≤ (build [1, 2, 3, 4]).1.max_size ∧
    (5 ≤ (build [1, 2, 3, 4]).1.max_size → ∃ r,
      (build [1, 2, 3, 4]).1.recommend_cap 5 = Except.ok r ∧
      5 ≤ r ∧ (build [1, 2, 3, 4]).1.capacity ≤ r ∧ r ≤ (build [1, 2, 3, 4]).1.max_size ∧
      ((build [1, 2, 3, 4]).1.capacity > (build [1, 2, 3, 4]).1.max_size / 2 →
        r = (build [1, 2, 3, 4]).1.max_size) ∧
      ((build [1, 2, 3, 4]).1.capacity ≤ (build [1, 2, 3, 4]).1.max_size / 2 →
        r = max (2 * (build [1, 2, 3, 4]).1.capacity) 5)) ∧
    ((build [1, 2, 3, 4]).1.recommend_cap 5).toOption = some 8 :=
  ⟨by decide, (vector.recommend_cap_bounds (build [1, 2, 3, 4]).1 5 (by decide)).2, by decide⟩

/-- C20 (shrink_to_fit swallows an allocation failure).  For every vector with
`capacity() > size()`, when the allocator refuses the next allocation, `shrink_to_fit()`
returns normally (the member has no exception to report: its `catch (...)` is empty) and
both the vector — pointers, hence size and capacity — and the whole memory, hence the
elements, are exactly as before. -/
theorem vector.shrink_to_fit_swallows_bad_alloc {T : Type} (v : vector) (m : Mem T)
    (hgt : v.capacity > v.size) (hfail : m.allocs = some 0) :
    v.shrink_to_fit m = (v, m) ∧
    (v.shrink_to_fit m).1.size = v.size ∧
    (v.shrink_to_fit m).1.capacity = v.capacity ∧
    (v.shrink_to_fit m).1.elements (v.shrink_to_fit m).2 = v.elements m := by
  have h : v.shrink_to_fit m = (v, m) := by
    unfold vector.shrink_to_fit split_buffer.ctor Mem.allocate
    rw [if_pos hgt, hfail]
  rw [h]
  exact ⟨rfl, rfl, rfl, rfl⟩

/-- Witness for C20: `[1,2,3]` with capacity 4 and an allocator that fails. -/
theorem vector.shrink_to_fit_swallows_bad_alloc_witness :
    (buildSpare [1, 2, 3] 1).1.capacity > (buildSpare [1, 2, 3] 1).1.size ∧
    run_shrink_no_memory.1 = (buildSpare [1, 2, 3] 1).1 ∧
    run_shrink_no_memory.1.elements run_shrink_no_memory.2 = some [1, 2, 3] ∧
    run_shrink_no_memory.1.capacity = 4 := by
  have h := vector.shrink_to_fit_swallows_bad_alloc (buildSpare [1, 2, 3] 1).1
    { (buildSpare [1, 2, 3] 1).2 with allocs := some 0 } (by decide) rfl
  refine ⟨by decide, ?_, ?_, ?_⟩
  · unfold run_shrink_no_memory
    rw [h.1]
  · exact h.2.2.2.trans (by decide)
  · exact h.2.2.1.trans (by decide)

end tgp

namespace tgp

/-! ## Pointer values after the growing operations -/

section Growth

variable {T : Type}

theorem vector.construct_at_end_range_ok (l : List T) (v : vector) {m : Mem T}
    (h : m.noFailure) :
    v.construct_at_end_range m l
      = (none, { v with end_ := v.end_ + l.length }, (m.construct_list v.end_ l).2.2) ∧
    (m.construct_list v.end_ l).2.2.noFailure := by
  obtain ⟨h1, h2, h3, _⟩ := Mem.construct_list_of_noFailure l m v.end_ h
  refine ⟨?_, h3⟩
  rw [vector.construct_at_end_range_eq, h1, h2]

theorem vector.construct_at_end_fill_ok (n : Nat) (x : T) (v : vector) {m : Mem T}
    (h : m.noFailure) :
    v.construct_at_end_fill m x n
      = (none, { v with end_ := v.end_ + n },
          (m.construct_list v.end_ (List.replicate n x)).2.2) ∧
    (m.construct_list v.end_ (List.replicate n x)).2.2.noFailure := by
  have := vector.construct_at_end_range_ok (List.replicate n x) v h
  rw [List.length_replicate] at this
  rw [vector.construct_at_end_fill_eq]
  exact this

/-- The reallocating branch of `emplace_back`: the vector ends up on the block handed out
at `brk`, one element longer, with the recommended capacity. -/
theorem vector.emplace_back_grow (v : vector) (x : T) {m : Mem T} {c : Nat}
    (hnf : m.noFailure) (hfull : v.end_ = v.cap_)
    (hc : v.recommend_cap (v.size + 1) = Except.ok c) :
    (v.emplace_back x m).1 = none ∧
    (v.emplace_back x m).2.1
      = { begin_ := m.brk, end_ := m.brk + v.size + 1, cap_ := m.brk + c, alloc_ := v.alloc_ } ∧
    (v.emplace_back x m).2.2.noFailure := by
  have hnf1 := Mem.noFailure_afterAllocate hnf c
  unfold vector.emplace_back
  rw [if_pos hfull, hc]
  simp only
  rw [split_buffer.ctor_of_noFailure hnf]
  simp only
  unfold split_buffer.emplace_back
  rw [Mem.construct_of_noFailure hnf1]
  simp only [vector.swap_with_split_buffer]
  refine ⟨trivial, trivial, ?_⟩
  exact split_buffer.dtor_noFailure _
    (Mem.noFailure_deallocate (relocate_noFailure _ _ _ _ (Mem.noFailure_store hnf1 _ _)) _ _)

/-- The in-place branch of `emplace_back`. -/
theorem vector.emplace_back_inplace (v : vector) (x : T) {m : Mem T}
    (hnf : m.noFailure) (hroom : v.end_ ≠ v.cap_) :
    (v.emplace_back x m).1 = none ∧
    (v.emplace_back x m).2.1 = { v with end_ := v.end_ + 1 } ∧
    (v.emplace_back x m).2.2.noFailure := by
  unfold vector.emplace_back vector.construct_one_at_end
  rw [if_neg hroom, Mem.construct_of_noFailure hnf]
  exact ⟨rfl, rfl, Mem.noFailure_store hnf _ _⟩

end Growth

end tgp

namespace tgp

/-! ## Successive appends -/

section Appends

variable {T : Type}

theorem growthCap_ge (n : Nat) : n ≤ growthCap n := by
  unfold growthCap
  split
  · omega
  · exact Nat.le_pow_clog (by omega) n

theorem growthCap_succ_of_full {s : Nat} (h : s = growthCap s) :
    growthCap (s + 1) = max (growthCap s * 2) (s + 1) ∧
    growthCount (s + 1) = growthCount s + 1 := by
  by_cases hs : s = 0
  · subst hs
    simp [growthCap, growthCount, Nat.clog_one_right]
  · have hcap : growthCap s = 2 ^ Nat.clog 2 s := by simp [growthCap, hs]
    have hpos : 1 ≤ s := by omega
    have hclog : Nat.clog 2 (s + 1) = Nat.clog 2 s + 1 := by
      apply Nat.le_antisymm
      · apply (Nat.le_pow_iff_clog_le (by omega)).1
        rw [Nat.pow_succ, ← hcap, ← h]
        omega
      · apply (Nat.pow_lt_iff_lt_clog (by omega)).1
        rw [← hcap, ← h]
        omega
    constructor
    · have h1 : growthCap (s + 1) = 2 ^ (Nat.clog 2 s + 1) := by
        simp [growthCap, hclog]
      rw [h1, Nat.pow_succ, ← hcap, ← h]
      omega
    · simp [growthCount, hs, hclog]

theorem growthCap_succ_of_room {s : Nat} (h : s ≠ growthCap s) :
    growthCap (s + 1) = growthCap s ∧ growthCount (s + 1) = growthCount s := by
  have hge := growthCap_ge s
  have hs : s ≠ 0 := by
    intro h0
    apply h
    subst h0
    simp [growthCap]
  have hcap : growthCap s = 2 ^ Nat.clog 2 s := by simp [growthCap, hs]
  have hclog : Nat.clog 2 (s + 1) = Nat.clog 2 s := by
    apply Nat.le_antisymm
    · apply (Nat.le_pow_iff_clog_le (by omega)).1
      rw [← hcap]
      omega
    · exact Nat.clog_mono_right 2 (by omega)
  constructor
  · simp [growthCap, hclog, hs]
  · simp [growthCount, hclog, hs]

theorem vector.emplace_back_count_cons {v v1 : vector} {m m1 : Mem T} {x : T} (xs : List T)
    (h : v.emplace_back x m = (none, v1, m1)) :
    v.emplace_back_count m (x :: xs)
      = ((if v.end_ = v.cap_ then 1 else 0) + (v1.emplace_back_count m1 xs).1,
         (v1.emplace_back_count m1 xs).2) := by
  conv_lhs => unfold vector.emplace_back_count
  rw [h]

/-- The counting run is the plain run of `emplace_back` calls with a counter beside it. -/
theorem vector.emplace_back_count_snd (xs : List T) : ∀ (v : vector) (m : Mem T),
    (v.emplace_back_count m xs).2 = v.emplace_back_each m xs := by
  induction xs with
  | nil => intro v m; rfl
  | cons x xs ih =>
    intro v m
    unfold vector.emplace_back_count vector.emplace_back_each
    rcases hc : v.emplace_back x m with ⟨e, v1, m1⟩
    cases e with
    | some e => rfl
    | none =>
      simp only
      rw [ih]

/-- The state of a run of appends that started on a vector of size `s` whose capacity is
the least power of two at or above `s`. -/
theorem vector.emplace_back_count_run (xs : List T) : ∀ (v : vector) (m : Mem T) (s : Nat),
    m.noFailure → v.end_ = v.begin_ + s → v.cap_ = v.begin_ + growthCap s →
    2 * (s + xs.length) ≤ v.max_size →
    (v.emplace_back_count m xs).2.1 = none ∧
    (v.emplace_back_count m xs).1 + growthCount s = growthCount (s + xs.length) ∧
    (v.emplace_back_count m xs).2.2.1.end_
      = (v.emplace_back_count m xs).2.2.1.begin_ + (s + xs.length) ∧
    (v.emplace_back_count m xs).2.2.1.cap_
      = (v.emplace_back_count m xs).2.2.1.begin_ + growthCap (s + xs.length) := by
  induction xs with
  | nil =>
    intro v m s _ he hc _
    exact ⟨rfl, by simp [vector.emplace_back_count], he, hc⟩
  | cons x xs ih =>
    intro v m s hnf he hc hmax
    have hmax1 : 2 * (s + (xs.length + 1)) ≤ v.alloc_.max_size := hmax
    have hsize : v.size = s := by unfold vector.size; omega
    have hcapv : v.capacity = growthCap s := by unfold vector.capacity; omega
    have hge := growthCap_ge s
    have e1 : s + (x :: xs).length = s + 1 + xs.length := by
      simp only [List.length_cons]; omega
    rw [e1]
    by_cases hfull : v.end_ = v.cap_
    · have hs : s = growthCap s := by omega
      obtain ⟨hg1, hg2⟩ := growthCap_succ_of_full hs
      have hrc : v.recommend_cap (v.size + 1) = Except.ok (growthCap (s + 1)) := by
        have h1 : ¬ (v.size + 1 > v.max_size) := by
          show ¬ (v.size + 1 > v.alloc_.max_size)
          omega
        have h2 : ¬ (v.capacity > v.max_size / 2) := by
          show ¬ (v.capacity > v.alloc_.max_size / 2)
          omega
        unfold vector.recommend_cap
        simp only [if_neg h1, if_neg h2]
        rw [hcapv, hsize, hg1]
      obtain ⟨r1, r2, r3⟩ := vector.emplace_back_grow v x hnf hfull hrc
      have heq : v.emplace_back x m
          = (none, { begin_ := m.brk, end_ := m.brk + v.size + 1,
                     cap_ := m.brk + growthCap (s + 1), alloc_ := v.alloc_ },
             (v.emplace_back x m).2.2) := by
        rw [← r1, ← r2]
      have hend1 : m.brk + v.size + 1 = m.brk + (s + 1) := by omega
      have hmax2 : 2 * (s + 1 + xs.length) ≤ v.alloc_.max_size := by omega
      obtain ⟨i1, i2, i3, i4⟩ := ih
        { begin_ := m.brk, end_ := m.brk + v.size + 1,
          cap_ := m.brk + growthCap (s + 1), alloc_ := v.alloc_ }
        (v.emplace_back x m).2.2 (s + 1) r3 hend1 rfl hmax2
      rw [vector.emplace_back_count_cons xs heq, if_pos hfull]
      refine ⟨i1, ?_, i3, i4⟩
      show 1 + _ + growthCount s = _
      omega
    · have hs : s ≠ growthCap s := by omega
      obtain ⟨hg1, hg2⟩ := growthCap_succ_of_room hs
      obtain ⟨r1, r2, r3⟩ := vector.emplace_back_inplace v x hnf hfull
      have heq : v.emplace_back x m
          = (none, { v with end_ := v.end_ + 1 }, (v.emplace_back x m).2.2) := by
        rw [← r1, ← r2]
      have hend1 : v.end_ + 1 = v.begin_ + (s + 1) := by omega
      have hcap1 : v.cap_ = v.begin_ + growthCap (s + 1) := by omega
      have hmax2 : 2 * (s + 1 + xs.length) ≤ v.alloc_.max_size := by omega
      obtain ⟨i1, i2, i3, i4⟩ := ih { v with end_ := v.end_ + 1 }
        (v.emplace_back x m).2.2 (s + 1) r3 hend1 hcap1 hmax2
      rw [vector.emplace_back_count_cons xs heq, if_neg hfull]
      refine ⟨i1, ?_, i3, i4⟩
      show 0 + _ + growthCount s = _
      omega

end Appends

/-- The pointer arithmetic of a run of appends.  Start from the empty vector (no
allocation, capacity 0) and append the `n ≥ 1` values of `xs` one by one, with
`2 * n ≤ max_size()` and no allocation or constructor failure.  In the model every call
returns; exactly `⌈log2 n⌉ + 1` of them find `end_ == cap_` and take the reallocating
branch; `end_ - begin_` is then `n` and `cap_ - begin_` is `2 ^ ⌈log2 n⌉`; and the append
made after `k` earlier ones takes the reallocating branch exactly when `k` is `0` or a
power of two.  This is a statement about the values of `begin_`, `end_`, `cap_` only: it
does not say that the run makes no invalid access, and from the second reallocation on it
does make one. -/
theorem vector.appends_reallocate_logarithmically {T : Type} (alloc : Allocator) (m : Mem T)
    (xs : List T) (hm : m.noFailure) (hn : 1 ≤ xs.length)
    (hmax : 2 * xs.length ≤ alloc.max_size) :
    ((vector.ctor alloc).emplace_back_count m xs).2 = (vector.ctor alloc).emplace_back_each m xs ∧
    ((vector.ctor alloc).emplace_back_count m xs).2.1 = none ∧
    ((vector.ctor alloc).emplace_back_count m xs).1 = Nat.clog 2 xs.length + 1 ∧
    ((vector.ctor alloc).emplace_back_count m xs).2.2.1.size = xs.length ∧
    ((vector.ctor alloc).emplace_back_count m xs).2.2.1.capacity = 2 ^ Nat.clog 2 xs.length ∧
    xs.length ≤ 2 ^ Nat.clog 2 xs.length ∧
    (∀ j, xs.length ≤ 2 ^ j → 2 ^ Nat.clog 2 xs.length ≤ 2 ^ j) ∧
    (∀ k, k < xs.length →
      ((((vector.ctor alloc).emplace_back_count m (xs.take k)).2.2.1.end_
          = ((vector.ctor alloc).emplace_back_count m (xs.take k)).2.2.1.cap_) ↔
        (k = 0 ∨ ∃ j, k = 2 ^ j))) := by
  have hne : xs.length ≠ 0 := by omega
  obtain ⟨h1, h2, h3, h4⟩ := vector.emplace_back_count_run xs (vector.ctor alloc) m 0 hm rfl rfl
    (by simpa [vector.max_size, vector.ctor] using hmax)
  simp only [Nat.zero_add] at h2 h3 h4
  refine ⟨vector.emplace_back_count_snd xs _ m, h1, ?_, ?_, ?_, Nat.le_pow_clog (by omega) _,
    ?_, ?_⟩
  · simpa [growthCount, hne] using h2
  · unfold vector.size; omega
  · unfold vector.capacity
    rw [h4]
    simp [growthCap, hne]
  · intro j hj
    exact Nat.pow_le_pow_right (by omega) ((Nat.le_pow_iff_clog_le (by omega)).1 hj)
  · intro k hk
    have hlen : (xs.take k).length = k := by
      rw [List.length_take]; omega
    obtain ⟨_, _, g3, g4⟩ := vector.emplace_back_count_run (xs.take k) (vector.ctor alloc) m 0 hm
      rfl rfl (by rw [hlen]; simp only [vector.max_size, vector.ctor]; omega)
    rw [hlen] at g3 g4
    simp only [Nat.zero_add] at g3 g4
    rw [g3, g4]
    constructor
    · intro h
      have hk0 : k = growthCap k := by omega
      by_cases hz : k = 0
      · exact Or.inl hz
      · right
        refine ⟨Nat.clog 2 k, ?_⟩
        simpa [growthCap, hz] using hk0
    · intro h
      rcases h with h | ⟨j, hj⟩
      · subst h
        simp [growthCap]
      · have hz : k ≠ 0 := by
          rw [hj]; exact Nat.pos_iff_ne_zero.1 (Nat.two_pow_pos j)
        have : growthCap k = k := by
          simp only [growthCap, if_neg hz]
          rw [hj, Nat.clog_pow 2 j (by omega)]
        omega

/-- The pointer arithmetic of five appends to the empty vector under
`std::allocator<int>`: 4 calls take the reallocating branch (`⌈log2 5⌉ + 1`), and the
pointers end with `end_ - begin_ = 5` and `cap_ - begin_ = 8`. -/
theorem vector.appends_reallocate_logarithmically_witness :
    (Mem.empty Nat).noFailure ∧ 1 ≤ [1, 2, 3, 4, 5].length ∧
    2 * [1, 2, 3, 4, 5].length ≤ stdAlloc.max_size ∧
    run_five_appends.1 = Nat.clog 2 [1, 2, 3, 4, 5].length + 1 ∧
    run_five_appends.1 = 4 ∧
    run_five_appends.2.2.1.size = 5 ∧
    run_five_appends.2.2.1.capacity = 8 := by
  have h := vector.appends_reallocate_logarithmically stdAlloc (Mem.empty Nat) [1, 2, 3, 4, 5]
    ⟨rfl, rfl⟩ (by decide) (by decide)
  exact ⟨⟨rfl, rfl⟩, by decide, by decide, h.2.2.1, by decide, by decide, by decide⟩

end tgp

namespace tgp

section GrowthCapacity

variable {T : Type}

theorem vector.deallocate_vector_pointers (v : vector) (m : Mem T)
    (hinv : v.invariants = true) :
    (v.deallocate_vector m).1 = vector.ctor v.alloc_ ∧
    (m.noFailure → (v.deallocate_vector m).2.noFailure) := by
  unfold vector.deallocate_vector
  by_cases hb : v.begin_ = 0
  · have hz : v.end_ = 0 ∧ v.cap_ = 0 := by
      unfold vector.invariants at hinv
      rw [if_pos hb] at hinv
      by_contra hne
      have : v.end_ ≠ 0 ∨ v.cap_ ≠ 0 := by omega
      simp [this] at hinv
    have hnb : ¬ (v.begin_ ≠ 0) := by omega
    rw [if_neg hnb]
    refine ⟨?_, fun h => h⟩
    cases v
    simp only [vector.ctor] at *
    simp [hb, hz.1, hz.2]
  · rw [if_pos hb]
    refine ⟨rfl, fun h => ?_⟩
    exact Mem.noFailure_deallocate (vector.destruct_at_end_loop_noFailure _ _ _ h) _ _

end GrowthCapacity

end tgp

namespace tgp

theorem vector.recommend_cap_ok (v : vector) {k : Nat} (hk : k ≤ v.max_size) :
    ∃ c, v.recommend_cap k = Except.ok c := by
  have hnk : ¬ (k > v.max_size) := by omega
  unfold vector.recommend_cap
  simp only [if_neg hnk]
  split
  · exact ⟨_, rfl⟩
  · exact ⟨_, rfl⟩

theorem wrap_of_lt {n : Nat} (h : n < 2 ^ 64) : wrap n = n := Nat.mod_eq_of_lt h

end tgp

namespace tgp

/-! ## A constructor that throws -/

section CtorFailure

variable {T : Type}

theorem split_buffer.ctor_of_allocs_none {m : Mem T} (h : m.allocs = none) (cap g : Nat) :
    split_buffer.ctor cap g m
      = (Except.ok { first_ := m.brk, begin_ := m.brk + g, end_ := m.brk + g,
                     cap_ := m.brk + cap }, m.grown cap) := by
  unfold split_buffer.ctor Mem.allocate
  rw [h]
  rfl

theorem Mem.grown_cells (m : Mem T) (n a : Nat) :
    (m.grown n).cells a = if m.brk ≤ a ∧ a < m.brk + n then Cell.raw else m.cells a := rfl

theorem Mem.anyFree_eq_false (n : Nat) : ∀ (m : Mem T) (a : Nat),
    (∀ t, t < n → m.cells (a + t) ≠ Cell.free) → m.anyFree a n = false := by
  induction n with
  | zero => intro m a _; rfl
  | succ n ih =>
    intro m a h
    have h0 : m.cells a ≠ Cell.free := by simpa using h 0 (by omega)
    have hr : m.anyFree (a + 1) n = false := by
      apply ih
      intro t ht
      have := h (t + 1) (by omega)
      have he : a + (t + 1) = a + 1 + t := by omega
      rw [he] at this
      exact this
    unfold Mem.anyFree
    rw [hr]
    cases hc : m.cells a with
    | free => exact absurd hc h0
    | raw => rfl
    | live x => rfl

theorem Mem.allRaw_cells (n : Nat) : ∀ (m : Mem T) (a : Nat), m.allRaw a n = true →
    ∀ t, t < n → m.cells (a + t) = Cell.raw := by
  induction n with
  | zero => intro m a _ t ht; omega
  | succ n ih =>
    intro m a h t ht
    unfold Mem.allRaw at h
    rw [Bool.and_eq_true] at h
    obtain ⟨h0, hr⟩ := h
    cases t with
    | zero =>
      cases hc : m.cells a with
      | free => rw [hc] at h0; simp at h0
      | raw => simpa using hc
      | live x => rw [hc] at h0; simp at h0
    | succ t =>
      have := ih m (a + 1) hr t (by omega)
      have he : a + (t + 1) = a + 1 + t := by omega
      rw [he]
      exact this

/-- The loop of `split_buffer::clear()` over live elements destroys exactly them. -/
theorem split_buffer.clear_loop_spec (k : Nat) : ∀ (sb : split_buffer) (m : Mem T),
    (∀ t, t < k → ∃ x, m.cells (sb.begin_ + t) = Cell.live x) →
    (split_buffer.clear_loop sb m k).1 = { sb with begin_ := sb.begin_ + k } ∧
    (split_buffer.clear_loop sb m k).2.fault = m.fault ∧
    ∀ a, (split_buffer.clear_loop sb m k).2.cells a =
      if sb.begin_ ≤ a ∧ a < sb.begin_ + k then Cell.raw else m.cells a := by
  induction k with
  | zero =>
    intro sb m _
    refine ⟨rfl, rfl, ?_⟩
    intro a
    have h0 : ¬ (sb.begin_ ≤ a ∧ a < sb.begin_ + 0) := by omega
    rw [if_neg h0]
    rfl
  | succ k ih =>
    intro sb m hlive
    obtain ⟨x, hx⟩ := hlive 0 (by omega)
    rw [Nat.add_zero] at hx
    have hstep : split_buffer.clear_loop sb m (k + 1)
        = split_buffer.clear_loop { sb with begin_ := sb.begin_ + 1 }
            (m.set sb.begin_ Cell.raw) k := by
      conv_lhs => unfold split_buffer.clear_loop
      rw [Mem.destroy_of_live hx]
    have hlive1 : ∀ t, t < k →
        ∃ z, (m.set sb.begin_ Cell.raw).cells (sb.begin_ + 1 + t) = Cell.live z := by
      intro t ht
      have hne : sb.begin_ + 1 + t ≠ sb.begin_ := by omega
      obtain ⟨z, hz⟩ := hlive (t + 1) (by omega)
      have he : sb.begin_ + (t + 1) = sb.begin_ + 1 + t := by omega
      rw [he] at hz
      exact ⟨z, by rw [Mem.set_cells, if_neg hne, hz]⟩
    obtain ⟨h1, h2, h3⟩ := ih { sb with begin_ := sb.begin_ + 1 } (m.set sb.begin_ Cell.raw)
      hlive1
    rw [hstep]
    refine ⟨?_, ?_, ?_⟩
    · rw [h1]
      simp only [Nat.add_assoc, Nat.add_comm 1 k]
    · rw [h2, Mem.set_fault]
    · intro a
      rw [h3 a, Mem.set_cells]
      simp only
      by_cases c1 : sb.begin_ + 1 ≤ a ∧ a < sb.begin_ + 1 + k
      · have c2 : sb.begin_ ≤ a ∧ a < sb.begin_ + (k + 1) := by omega
        rw [if_pos c1, if_pos c2]
      · rw [if_neg c1]
        by_cases c3 : a = sb.begin_
        · have c2 : sb.begin_ ≤ a ∧ a < sb.begin_ + (k + 1) := by omega
          rw [if_pos c3, if_pos c2]
        · have c2 : ¬ (sb.begin_ ≤ a ∧ a < sb.begin_ + (k + 1)) := by omega
          rw [if_neg c3, if_neg c2]

theorem vector.recommend_cap_ge {v : vector} {k c : Nat} (h : v.recommend_cap k = Except.ok c) :
    k ≤ c := by
  unfold vector.recommend_cap at h
  simp only at h
  split at h
  · cases h
  · split at h
    · injection h with h
      omega
    · injection h with h
      rw [← h]
      exact Nat.le_max_right _ _

/-- A staging buffer whose population throws: the buffer is allocated at `brk`, the first
`k` values are constructed, the `(k+1)`-th construction throws, and the buffer's destructor
destroys the `k` elements and releases the block.  Every cell is then as it was before the
buffer was created, and no access was invalid. -/
theorem split_buffer.staged_failure (m : Mem T) (c g : Nat) (l : List T) (k : Nat)
    (hb : 0 < m.brk) (hfree : ∀ t, t < c → m.cells (m.brk + t) = Cell.free)
    (hct : m.ctors = some k) (hk : k < l.length) (hroom : g + k ≤ c) :
    ∃ (sb1 : split_buffer) (m2 : Mem T),
      split_buffer.construct_at_end_range
          { first_ := m.brk, begin_ := m.brk + g, end_ := m.brk + g, cap_ := m.brk + c }
          (m.grown c) l
        = (some Exn.ctor_error, sb1, m2) ∧
      (∀ a, (sb1.dtor m2).cells a = m.cells a) ∧ (sb1.dtor m2).fault = m.fault := by
  have hnonfree : ∀ t, t < k → (m.grown c).cells (m.brk + g + t) ≠ Cell.free := by
    intro t ht
    have hin : m.brk ≤ m.brk + g + t ∧ m.brk + g + t < m.brk + c := by omega
    rw [Mem.grown_cells, if_pos hin]
    exact fun h => by cases h
  obtain ⟨r1, r2, r3, r4, r5, r6, r7⟩ := Mem.construct_list_fail l
    (m.grown c) (m.brk + g) k hct hk hnonfree
  -- name the memory after the failed population
  obtain ⟨m2, hm2⟩ : ∃ m2, m2 = ((m.grown c).construct_list (m.brk + g) l).2.2 := ⟨_, rfl⟩
  rw [← hm2] at r3 r6 r7
  refine ⟨{ first_ := m.brk, begin_ := m.brk + g, end_ := m.brk + g + k, cap_ := m.brk + c },
    m2, ?_, ?_⟩
  · rw [split_buffer.buffer_range_eq, r1, r2, hm2]
  · have hlive : ∀ t, t < k → ∃ x, m2.cells (m.brk + g + t) = Cell.live x := by
      intro t ht
      have h := r6 (m.brk + g + t) (by omega) (by omega)
      have he : m.brk + g + t - (m.brk + g) = t := by omega
      rw [he, List.getElem?_eq_getElem (by omega)] at h
      exact ⟨_, Mem.live_of_load h⟩
    obtain ⟨c1, c2, c3⟩ := split_buffer.clear_loop_spec k
      ({ first_ := m.brk, begin_ := m.brk + g, end_ := m.brk + g + k, cap_ := m.brk + c } :
        split_buffer) m2 hlive
    obtain ⟨m3, hm3⟩ : ∃ m3, m3 = (split_buffer.clear_loop
      ({ first_ := m.brk, begin_ := m.brk + g, end_ := m.brk + g + k, cap_ := m.brk + c } :
        split_buffer) m2 k).2 := ⟨_, rfl⟩
    rw [← hm3] at c2 c3
    have hk' : m.brk + g + k - (m.brk + g) = k := by omega
    have hfirst : ¬ (m.brk = 0) := by omega
    have hcl : ∀ a, m3.cells a
        = if m.brk ≤ a ∧ a < m.brk + c then Cell.raw else m.cells a := by
      intro a
      rw [c3 a]
      simp only
      by_cases d1 : m.brk + g ≤ a ∧ a < m.brk + g + k
      · have d2 : m.brk ≤ a ∧ a < m.brk + c := by omega
        rw [if_pos d1, if_pos d2]
      · rw [if_neg d1, r7 a d1, Mem.grown_cells]
    have hany : m3.anyFree m.brk c = false := by
      apply Mem.anyFree_eq_false
      intro t ht
      have hin : m.brk ≤ m.brk + t ∧ m.brk + t < m.brk + c := by omega
      rw [hcl, if_pos hin]
      exact fun h => by cases h
    have hdtor : (split_buffer.dtor
          ({ first_ := m.brk, begin_ := m.brk + g, end_ := m.brk + g + k, cap_ := m.brk + c } :
            split_buffer) m2)
        = m3.setRange m.brk c Cell.free := by
      unfold split_buffer.dtor split_buffer.clear
      simp only [hk', c1, split_buffer.capacity, Mem.deallocate, ← hm3]
      have hcc : m.brk + c - m.brk = c := by omega
      rw [hcc, hany]
      simp [hfirst]
    rw [hdtor]
    refine ⟨?_, ?_⟩
    · intro a
      show (if m.brk ≤ a ∧ a < m.brk + c then Cell.free else m3.cells a) = m.cells a
      by_cases d2 : m.brk ≤ a ∧ a < m.brk + c
      · rw [if_pos d2]
        have := hfree (a - m.brk) (by omega)
        have he : m.brk + (a - m.brk) = a := by omega
        rw [he] at this
        exact this.symm
      · rw [if_neg d2, hcl, if_neg d2]
    · show m3.fault = m.fault
      rw [c2, r3]
      rfl

/-- Construction at the end of the vector that throws after `k` elements: the `k` elements
stay behind the old ones and `end_` has advanced by `k`. -/
theorem vector.construct_in_place_fail (v : vector) (m : Mem T) (xs l : List T) (k : Nat)
    (hinv : v.invariants = true) (hxs : v.elements m = some xs)
    (hct : m.ctors = some k) (hk : k < l.length)
    (hroom : ∀ t, t < k → m.cells (v.end_ + t) ≠ Cell.free) :
    (v.construct_at_end_range m l).1 = some Exn.ctor_error ∧
    (v.construct_at_end_range m l).2.1 = { v with end_ := v.end_ + k } ∧
    (v.construct_at_end_range m l).2.1.elements (v.construct_at_end_range m l).2.2
      = some (xs ++ l.take k) ∧
    (v.construct_at_end_range m l).2.2.fault = m.fault := by
  obtain ⟨hbe, hec⟩ := vector.invariants_le hinv
  obtain ⟨hl, hp⟩ := (Mem.read_eq_some_iff v.size m v.begin_ xs).1 hxs
  obtain ⟨r1, r2, r3, r4, r5, r6, r7⟩ := Mem.construct_list_fail l m v.end_ k hct hk hroom
  rw [vector.construct_at_end_range_eq, r1, r2]
  refine ⟨rfl, rfl, ?_, r3⟩
  have hsz : v.end_ = v.begin_ + v.size := by unfold vector.size; omega
  have hsize : ({ v with end_ := v.end_ + k } : vector).size = v.size + k := by
    simp only [vector.size]; omega
  simp only [vector.elements, hsize]
  refine (Mem.read_eq_some_iff _ _ _ _).2 ⟨?_, ?_⟩
  · simp only [List.length_append, List.length_take, hl]
    omega
  · intro t ht
    by_cases hts : t < v.size
    · have hout : ¬ (v.end_ ≤ v.begin_ + t ∧ v.begin_ + t < v.end_ + k) := by omega
      rw [Mem.load_congr (r7 _ hout), hp t hts, List.getElem?_append_left (by omega)]
    · have e1 := r6 (v.begin_ + t) (by omega) (by omega)
      rw [e1, List.getElem?_append_right (by omega), hl]
      have he : v.begin_ + t - v.end_ = t - v.size := by omega
      rw [he, List.getElem?_take_of_lt (by omega)]

end CtorFailure

end tgp

namespace tgp

theorem Mem.read_congr_cells {T : Type} {m1 m2 : Mem T} (h : ∀ a, m1.cells a = m2.cells a)
    (n : Nat) : ∀ a, m1.read a n = m2.read a n := by
  induction n with
  | zero => intro a; rfl
  | succ n ih =>
    intro a
    unfold Mem.read
    rw [Mem.load_congr (h a), ih (a + 1)]

/-- Counterexample for C17: `resize(6)` on `[1,2,3]` with capacity 6 has three elements to
construct within the existing capacity.  When the second of these constructions throws,
the exception reaches the caller, but the first new element stays: the size is 4, not 3,
and the elements are `[1,2,3,0]`. -/
theorem vector.resize_in_place_keeps_constructed :
    (buildSpare [1, 2, 3] 3).1.elements (buildSpare [1, 2, 3] 3).2 = some [1, 2, 3] ∧
    (buildSpare [1, 2, 3] 3).1.size = 3 ∧
    (buildSpare [1, 2, 3] 3).1.capacity = 6 ∧
    run_resize_ctor_fails.1 = some Exn.ctor_error ∧
    run_resize_ctor_fails.2.1.size = 4 ∧
    run_resize_ctor_fails.2.1.capacity = 6 ∧
    run_resize_ctor_fails.2.1.elements run_resize_ctor_fails.2.2 = some [1, 2, 3, 0] ∧
    run_resize_ctor_fails.2.1.size ≠ (buildSpare [1, 2, 3] 3).1.size := by
  decide

/-- C17 as amended (a constructor that throws).  Take a vector that satisfies
`invariants()` and holds `xs`, with raw spare slots, an allocator that does not fail, and
constructors of which the first `k` succeed and the next throws.

When `resize(count)`, `resize(count, value)` or `insert(pos, count, value)` builds the new
elements in a staging buffer — on reallocation, and for `insert` also in the
same-capacity buffer — and `k` is less than the number of elements to construct there,
`ctor_error` reaches the caller, the vector's pointers are unchanged, and every cell of the
memory is as before the call: size, capacity and elements are the pre-call ones.

When the call constructs directly behind `end_` within the existing capacity,
`ctor_error` reaches the caller and the capacity and the old elements are unchanged, but
the `k` elements constructed before the failure remain: the size has grown by `k`, so
the vector is as before the call only for `k = 0`. -/
theorem vector.ctor_failure_effect {T : Type} [Inhabited T] (v : vector) (m : Mem T)
    (xs : List T) (k : Nat)
    (hinv : v.invariants = true) (hxs : v.elements m = some xs)
    (hal : m.allocs = none) (hct : m.ctors = some k) (hb : 0 < m.brk)
    (hraw : m.allRaw v.end_ (v.cap_ - v.end_) = true) :
    (∀ count c : Nat, count > v.capacity → k < count - v.size →
      v.recommend_cap count = Except.ok c → (∀ t, t < c → m.cells (m.brk + t) = Cell.free) →
      (v.resize count m).1 = some Exn.ctor_error ∧ (v.resize count m).2.1 = v ∧
      (v.resize count m).2.1.elements (v.resize count m).2.2 = some xs ∧
      (∀ a, (v.resize count m).2.2.cells a = m.cells a) ∧
      (v.resize count m).2.2.fault = m.fault) ∧
    (∀ (count c : Nat) (x : T), count > v.capacity → k < count - v.size →
      v.recommend_cap count = Except.ok c → (∀ t, t < c → m.cells (m.brk + t) = Cell.free) →
      (v.resize_value count x m).1 = some Exn.ctor_error ∧ (v.resize_value count x m).2.1 = v ∧
      (v.resize_value count x m).2.1.elements (v.resize_value count x m).2.2 = some xs ∧
      (∀ a, (v.resize_value count x m).2.2.cells a = m.cells a) ∧
      (v.resize_value count x m).2.2.fault = m.fault) ∧
    (∀ (pos count c : Nat) (x : T), v.begin_ ≤ pos → pos ≤ v.end_ →
      count + v.size < 2 ^ 64 → count + v.size > v.capacity → k < count →
      v.recommend_cap (count + v.size) = Except.ok c →
      (∀ t, t < c → m.cells (m.brk + t) = Cell.free) →
      (v.insert_fill pos count x m).1 = Except.error Exn.ctor_error ∧ (v.insert_fill pos count x m).2.1 = v ∧
      (v.insert_fill pos count x m).2.1.elements (v.insert_fill pos count x m).2.2 = some xs ∧
      (∀ a, (v.insert_fill pos count x m).2.2.cells a = m.cells a) ∧
      (v.insert_fill pos count x m).2.2.fault = m.fault) ∧
    (∀ (pos count : Nat) (x : T), v.begin_ ≤ pos → pos ≤ v.end_ →
      count + v.size ≤ v.capacity → v.capacity < 2 ^ 64 → 0 < count → count ≤ v.end_ - pos →
      k < count → (∀ t, t < v.capacity → m.cells (m.brk + t) = Cell.free) →
      (v.insert_fill pos count x m).1 = Except.error Exn.ctor_error ∧ (v.insert_fill pos count x m).2.1 = v ∧
      (v.insert_fill pos count x m).2.1.elements (v.insert_fill pos count x m).2.2 = some xs ∧
      (∀ a, (v.insert_fill pos count x m).2.2.cells a = m.cells a) ∧
      (v.insert_fill pos count x m).2.2.fault = m.fault) ∧
    (∀ count : Nat, v.size < count → count ≤ v.capacity → k < count - v.size →
      (v.resize count m).1 = some Exn.ctor_error ∧
      (v.resize count m).2.1 = { v with end_ := v.end_ + k } ∧
      (v.resize count m).2.1.size = v.size + k ∧
      (v.resize count m).2.1.capacity = v.capacity ∧
      (v.resize count m).2.1.elements (v.resize count m).2.2
        = some (xs ++ List.replicate k default) ∧
      (v.resize count m).2.2.fault = m.fault) ∧
    (∀ (count : Nat) (x : T), v.size < count → count ≤ v.capacity → k < count - v.size →
      (v.resize_value count x m).1 = some Exn.ctor_error ∧
      (v.resize_value count x m).2.1 = { v with end_ := v.end_ + k } ∧
      (v.resize_value count x m).2.1.size = v.size + k ∧
      (v.resize_value count x m).2.1.capacity = v.capacity ∧
      (v.resize_value count x m).2.1.elements (v.resize_value count x m).2.2
        = some (xs ++ List.replicate k x) ∧
      (v.resize_value count x m).2.2.fault = m.fault) ∧
    (∀ (pos count : Nat) (x : T), v.begin_ ≤ pos → pos ≤ v.end_ →
      count + v.size ≤ v.capacity → v.capacity < 2 ^ 64 → count > v.end_ - pos →
      k < count - (v.end_ - pos) →
      (v.insert_fill pos count x m).1 = Except.error Exn.ctor_error ∧
      (v.insert_fill pos count x m).2.1 = { v with end_ := v.end_ + k } ∧
      (v.insert_fill pos count x m).2.1.size = v.size + k ∧
      (v.insert_fill pos count x m).2.1.capacity = v.capacity ∧
      (v.insert_fill pos count x m).2.1.elements (v.insert_fill pos count x m).2.2
        = some (xs ++ List.replicate k x) ∧
      (v.insert_fill pos count x m).2.2.fault = m.fault) := by
  obtain ⟨hbe, hec⟩ := vector.invariants_le hinv
  have hsizecap : v.size ≤ v.capacity := by unfold vector.size vector.capacity; omega
  have hspare : ∀ t, t < v.cap_ - v.end_ → m.cells (v.end_ + t) ≠ Cell.free := by
    intro t ht
    rw [Mem.allRaw_cells _ m v.end_ hraw t ht]
    exact fun h => by cases h
  -- what a staged failure leaves behind
  have staged : ∀ (c g : Nat) (l : List T), k < l.length → g + k ≤ c →
      (∀ t, t < c → m.cells (m.brk + t) = Cell.free) →
      ∃ (sb1 : split_buffer) (m2 : Mem T),
        split_buffer.construct_at_end_range
            { first_ := m.brk, begin_ := m.brk + g, end_ := m.brk + g, cap_ := m.brk + c }
            (m.grown c) l = (some Exn.ctor_error, sb1, m2) ∧
        v.elements (sb1.dtor m2) = some xs ∧
        (∀ a, (sb1.dtor m2).cells a = m.cells a) ∧ (sb1.dtor m2).fault = m.fault := by
    intro c g l hk hroom hfree
    obtain ⟨sb1, m2, e1, e2, e3⟩ := split_buffer.staged_failure m c g l k hb hfree hct hk hroom
    refine ⟨sb1, m2, e1, ?_, e2, e3⟩
    unfold vector.elements
    rw [Mem.read_congr_cells e2]
    exact hxs
  -- what an in-place failure leaves behind
  have inplace : ∀ (l : List T) (x : T), l = List.replicate l.length x → k < l.length →
      v.end_ + k ≤ v.cap_ →
      (v.construct_at_end_range m l).1 = some Exn.ctor_error ∧
      (v.construct_at_end_range m l).2.1 = { v with end_ := v.end_ + k } ∧
      (v.construct_at_end_range m l).2.1.elements (v.construct_at_end_range m l).2.2
        = some (xs ++ List.replicate k x) ∧
      (v.construct_at_end_range m l).2.2.fault = m.fault := by
    intro l x hl hk hroom
    obtain ⟨i1, i2, i3, i4⟩ := vector.construct_in_place_fail v m xs l k hinv hxs hct hk
      (fun t ht => hspare t (by omega))
    refine ⟨i1, i2, ?_, i4⟩
    rw [i3, hl, List.take_replicate, Nat.min_eq_left (Nat.le_of_lt hk)]
  refine ⟨?_, ?_, ?_, ?_, ?_, ?_, ?_⟩
  · intro count c h1 hk hc hfree
    have hsz : ¬ (count ≤ v.size) := by omega
    have hcge := vector.recommend_cap_ge hc
    obtain ⟨sb1, m2, e1, e2, e3, e4⟩ := staged c v.size (List.replicate (count - v.size) default)
      (by rw [List.length_replicate]; exact hk) (by omega) hfree
    have hcall : v.resize count m = (some Exn.ctor_error, v, sb1.dtor m2) := by
      unfold vector.resize
      simp only [if_neg hsz, if_pos h1, hc]
      rw [split_buffer.ctor_of_allocs_none hal]
      simp only
      rw [split_buffer.buffer_n_eq, e1]
    rw [hcall]
    exact ⟨rfl, rfl, e2, e3, e4⟩
  · intro count c x h1 hk hc hfree
    have hsz : ¬ (count ≤ v.size) := by omega
    have hcge := vector.recommend_cap_ge hc
    obtain ⟨sb1, m2, e1, e2, e3, e4⟩ := staged c v.size (List.replicate (count - v.size) x)
      (by rw [List.length_replicate]; exact hk) (by omega) hfree
    have hcall : v.resize_value count x m = (some Exn.ctor_error, v, sb1.dtor m2) := by
      unfold vector.resize_value
      simp only [if_neg hsz, if_pos h1, hc]
      rw [split_buffer.ctor_of_allocs_none hal]
      simp only
      rw [split_buffer.buffer_fill_eq, e1]
    rw [hcall]
    exact ⟨rfl, rfl, e2, e3, e4⟩
  · intro pos count c x hp1 hp2 hlt h1 hk hc hfree
    have hw : wrap (count + v.size) = count + v.size := wrap_of_lt hlt
    have h0 : count > 0 := by omega
    have hcge := vector.recommend_cap_ge hc
    have hg : v.begin_ + (pos - v.begin_) - v.begin_ ≤ v.size := by
      unfold vector.size; omega
    obtain ⟨sb1, m2, e1, e2, e3, e4⟩ := staged c (v.begin_ + (pos - v.begin_) - v.begin_)
      (List.replicate count x) (by rw [List.length_replicate]; exact hk) (by omega) hfree
    have hcall : v.insert_fill pos count x m
        = (Except.error Exn.ctor_error, v, sb1.dtor m2) := by
      unfold vector.insert_fill
      simp only [if_pos h0, hw, if_pos h1, hc]
      rw [split_buffer.ctor_of_allocs_none hal]
      simp only
      rw [split_buffer.buffer_fill_eq, e1]
    rw [hcall]
    exact ⟨rfl, rfl, e2, e3, e4⟩
  · intro pos count x hp1 hp2 hle hcaplt h0 hcn hk hfree
    have hw : wrap (count + v.size) = count + v.size := wrap_of_lt (by omega)
    have h1 : ¬ (count + v.size > v.capacity) := by omega
    have hn : ¬ (count > v.end_ - (v.begin_ + (pos - v.begin_))) := by omega
    have hg : v.begin_ + (pos - v.begin_) - v.begin_ + count ≤ v.size := by
      unfold vector.size; omega
    obtain ⟨sb1, m2, e1, e2, e3, e4⟩ := staged v.capacity (v.begin_ + (pos - v.begin_) - v.begin_)
      (List.replicate count x) (by rw [List.length_replicate]; exact hk) (by omega) hfree
    have hcall : v.insert_fill pos count x m
        = (Except.error Exn.ctor_error, v, sb1.dtor m2) := by
      unfold vector.insert_fill
      simp only [if_pos h0, hw, if_neg h1, if_neg hn]
      rw [split_buffer.ctor_of_allocs_none hal]
      simp only
      rw [split_buffer.buffer_fill_eq, e1]
    rw [hcall]
    exact ⟨rfl, rfl, e2, e3, e4⟩
  · intro count h1 h2 hk
    have hsz : ¬ (count ≤ v.size) := by omega
    have hcap : ¬ (count > v.capacity) := by omega
    have hroom : v.end_ + k ≤ v.cap_ := by
      unfold vector.size vector.capacity at *; omega
    obtain ⟨i1, i2, i3, i4⟩ := inplace (List.replicate (count - v.size) default) default
      (by rw [List.length_replicate]) (by rw [List.length_replicate]; exact hk) hroom
    have hcall : v.resize count m
        = v.construct_at_end_range m (List.replicate (count - v.size) default) := by
      unfold vector.resize
      simp only [if_neg hsz, if_neg hcap]
      rw [vector.construct_at_end_n_eq]
    rw [hcall]
    refine ⟨i1, i2, ?_, ?_, i3, i4⟩
    · rw [i2]; simp only [vector.size]; omega
    · rw [i2]; rfl
  · intro count x h1 h2 hk
    have hsz : ¬ (count ≤ v.size) := by omega
    have hcap : ¬ (count > v.capacity) := by omega
    have hroom : v.end_ + k ≤ v.cap_ := by
      unfold vector.size vector.capacity at *; omega
    obtain ⟨i1, i2, i3, i4⟩ := inplace (List.replicate (count - v.size) x) x
      (by rw [List.length_replicate]) (by rw [List.length_replicate]; exact hk) hroom
    have hcall : v.resize_value count x m
        = v.construct_at_end_range m (List.replicate (count - v.size) x) := by
      unfold vector.resize_value
      simp only [if_neg hsz, if_neg hcap]
      rw [vector.construct_at_end_fill_eq]
    rw [hcall]
    refine ⟨i1, i2, ?_, ?_, i3, i4⟩
    · rw [i2]; simp only [vector.size]; omega
    · rw [i2]; rfl
  · intro pos count x hp1 hp2 hle hcaplt hcn hk
    have hw : wrap (count + v.size) = count + v.size := wrap_of_lt (by omega)
    have h0 : count > 0 := by omega
    have h1 : ¬ (count + v.size > v.capacity) := by omega
    have hp : v.begin_ + (pos - v.begin_) = pos := by omega
    have hroom : v.end_ + k ≤ v.cap_ := by
      unfold vector.size vector.capacity at *; omega
    obtain ⟨i1, i2, i3, i4⟩ := inplace (List.replicate (count - (v.end_ - pos)) x) x
      (by rw [List.length_replicate]) (by rw [List.length_replicate]; exact hk) hroom
    rw [← vector.construct_at_end_fill_eq] at i1 i2 i3 i4
    rcases hr : v.construct_at_end_fill m x (count - (v.end_ - pos)) with ⟨e, v1, m1⟩
    rw [hr] at i1 i2 i3 i4
    simp only at i1 i2 i3 i4
    have hcall : v.insert_fill pos count x m = (Except.error Exn.ctor_error, v1, m1) := by
      unfold vector.insert_fill
      simp only [if_pos h0, hw, if_neg h1, hp, if_pos hcn, hr, i1]
    rw [hcall]
    refine ⟨rfl, i2, ?_, ?_, i3, i4⟩
    · show v1.size = _
      rw [i2]; simp only [vector.size]; omega
    · show v1.capacity = _
      rw [i2]; rfl

/-- Witness for C17 as amended: `[1,2,3]` with capacity 6 and a second construction that
throws.  `resize(6)` within the capacity ends with size 4 and elements `[1,2,3,0]`. -/
theorem vector.ctor_failure_effect_witness :
    (buildSpare [1, 2, 3] 3).1.invariants = true ∧
    (buildSpare [1, 2, 3] 3).1.elements { (buildSpare [1, 2, 3] 3).2 with ctors := some 1 }
      = some [1, 2, 3] ∧
    ({ (buildSpare [1, 2, 3] 3).2 with ctors := some 1 } : Mem Nat).allRaw
      (buildSpare [1, 2, 3] 3).1.end_
      ((buildSpare [1, 2, 3] 3).1.cap_ - (buildSpare [1, 2, 3] 3).1.end_) = true ∧
    run_resize_ctor_fails.1 = some Exn.ctor_error ∧
    run_resize_ctor_fails.2.1.size = (buildSpare [1, 2, 3] 3).1.size + 1 ∧
    run_resize_ctor_fails.2.1.elements run_resize_ctor_fails.2.2
      = some ([1, 2, 3] ++ List.replicate 1 default) := by
  have h := vector.ctor_failure_effect (buildSpare [1, 2, 3] 3).1
    { (buildSpare [1, 2, 3] 3).2 with ctors := some 1 } [1, 2, 3] 1
    (by decide) (by decide) rfl rfl (by decide) (by decide)
  obtain ⟨_, _, _, _, h5, _, _⟩ := h
  obtain ⟨g1, _, g3, _, g5, _⟩ := h5 6 (by decide) (by decide) (by decide)
  exact ⟨by decide, by decide, by decide, g1, g3, g5⟩

end tgp

namespace tgp

section AssignFailure

variable {T : Type}

theorem std_fill_n_sched (n : Nat) : ∀ (m : Mem T) (p : Nat) (x : Option T),
    (std_fill_n m p x n).allocs = m.allocs ∧ (std_fill_n m p x n).ctors = m.ctors ∧
    (std_fill_n m p x n).brk = m.brk := by
  induction n with
  | zero => intro m _ _; exact ⟨rfl, rfl, rfl⟩
  | succ n ih =>
    intro m p x
    obtain ⟨h1, h2, h3⟩ := ih (m.store p x) (p + 1) x
    obtain ⟨s1, s2, s3⟩ := Mem.store_sched m p x
    exact ⟨h1.trans s1, h2.trans s2, h3.trans s3⟩

/-- Filling `n` allocated cells assigns the value to each of them and touches nothing
else. -/
theorem std_fill_n_spec (n : Nat) : ∀ (m : Mem T) (p : Nat) (x : T),
    (∀ t, t < n → m.cells (p + t) ≠ Cell.free) →
    (std_fill_n m p (some x) n).fault = m.fault ∧
    ∀ a, (std_fill_n m p (some x) n).cells a =
      if p ≤ a ∧ a < p + n then Cell.live x else m.cells a := by
  induction n with
  | zero =>
    intro m p x _
    refine ⟨rfl, ?_⟩
    intro a
    have h0 : ¬ (p ≤ a ∧ a < p + 0) := by omega
    rw [if_neg h0]
    rfl
  | succ n ih =>
    intro m p x h
    have h0 : m.cells p ≠ Cell.free := by simpa using h 0 (by omega)
    have hstep : std_fill_n m p (some x) (n + 1)
        = std_fill_n (m.set p (Cell.live x)) (p + 1) (some x) n := by
      conv_lhs => unfold std_fill_n
      rw [Mem.store_of_not_free h0]
    have h1 : ∀ t, t < n → (m.set p (Cell.live x)).cells (p + 1 + t) ≠ Cell.free := by
      intro t ht
      have hne : p + 1 + t ≠ p := by omega
      have := h (t + 1) (by omega)
      have he : p + (t + 1) = p + 1 + t := by omega
      rw [he] at this
      rw [Mem.set_cells, if_neg hne]
      exact this
    obtain ⟨i1, i2⟩ := ih (m.set p (Cell.live x)) (p + 1) x h1
    rw [hstep]
    refine ⟨by rw [i1, Mem.set_fault], ?_⟩
    intro a
    rw [i2 a, Mem.set_cells]
    by_cases c1 : p + 1 ≤ a ∧ a < p + 1 + n
    · have c2 : p ≤ a ∧ a < p + (n + 1) := by omega
      rw [if_pos c1, if_pos c2]
    · rw [if_neg c1]
      by_cases c3 : a = p
      · have c2 : p ≤ a ∧ a < p + (n + 1) := by omega
        rw [if_pos c3, if_pos c2]
      · have c2 : ¬ (p ≤ a ∧ a < p + (n + 1)) := by omega
        rw [if_neg c3, if_neg c2]

/-- Overwriting all elements of a vector with one value. -/
theorem vector.fill_all_elements (v : vector) (m : Mem T) (xs : List T) (x : T)
    (hxs : v.elements m = some xs) :
    v.elements (std_fill_n m v.begin_ (some x) v.size) = some (List.replicate v.size x) ∧
    (std_fill_n m v.begin_ (some x) v.size).fault = m.fault := by
  have hlive := vector.live_of_elements hxs
  have hnf : ∀ t, t < v.size → m.cells (v.begin_ + t) ≠ Cell.free := by
    intro t ht
    obtain ⟨y, hy⟩ := hlive (v.begin_ + t) (by omega) (by omega)
    rw [hy]
    exact fun h => by cases h
  obtain ⟨f1, f2⟩ := std_fill_n_spec v.size m v.begin_ x hnf
  refine ⟨?_, f1⟩
  unfold vector.elements
  refine (Mem.read_eq_some_iff _ _ _ _).2 ⟨by rw [List.length_replicate], ?_⟩
  intro t ht
  have hin : v.begin_ ≤ v.begin_ + t ∧ v.begin_ + t < v.begin_ + v.size := by omega
  have hc := f2 (v.begin_ + t)
  rw [if_pos hin] at hc
  rw [Mem.load_of_live hc, List.getElem?_replicate]
  simp [ht]

/-- After `deallocate_vector()` on a vector with an allocation, every cell of its former
storage is outside any allocation. -/
theorem vector.deallocate_vector_releases (v : vector) (m : Mem T) (hb : v.begin_ ≠ 0) :
    ∀ a, v.begin_ ≤ a → a < v.cap_ → (v.deallocate_vector m).2.cells a = Cell.free := by
  intro a h1 h2
  have hin : v.begin_ ≤ a ∧ a < v.begin_ + (v.cap_ - v.begin_) := by omega
  unfold vector.deallocate_vector
  rw [if_pos hb]
  simp only [vector.clear, vector.destruct_at_end, vector.capacity, Mem.deallocate, if_neg hb]
  split
  · show (if _ then Cell.free else _) = Cell.free
    rw [if_pos hin]
  · show (if _ then Cell.free else _) = Cell.free
    rw [if_pos hin]

end AssignFailure

/-- Counterexample for C18: `assign(5, 9)` on `[1,2,3]` with capacity 3 under an
allocator with `max_size() = 4` needs more than the capacity and more than `max_size()`;
`length_error` reaches the caller, but the elements are `[9,9,9]`, not `[1,2,3]`.  And
assigning the multi-pass range `[7,8,9,10]` to `[1,2,3]` with capacity 3 when the allocator
fails ends in `bad_alloc` with the vector emptied: size 0, capacity 0, storage released. -/
theorem vector.assign_failure_changes_vector :
    (vector.ctor_range [1, 2, 3] smallAlloc (Mem.empty Nat)).2.1.elements
      (vector.ctor_range [1, 2, 3] smallAlloc (Mem.empty Nat)).2.2 = some [1, 2, 3] ∧
    (vector.ctor_range [1, 2, 3] smallAlloc (Mem.empty Nat)).2.1.capacity = 3 ∧
    run_assign_fill_too_long.1 = some Exn.length_error ∧
    run_assign_fill_too_long.2.1.size = 3 ∧
    run_assign_fill_too_long.2.1.capacity = 3 ∧
    run_assign_fill_too_long.2.1.elements run_assign_fill_too_long.2.2 = some [9, 9, 9] ∧
    (build [1, 2, 3]).1.elements (build [1, 2, 3]).2 = some [1, 2, 3] ∧
    run_assign_range_no_memory.1 = some Exn.bad_alloc ∧
    run_assign_range_no_memory.2.1.size = 0 ∧
    run_assign_range_no_memory.2.1.capacity = 0 ∧
    run_assign_range_no_memory.2.1.elements run_assign_range_no_memory.2.2 = some [] ∧
    (build [1, 2, 3]).1.released run_assign_range_no_memory.2.2 = true := by
  decide

end tgp

namespace tgp

section Overflow

variable {T : Type}

theorem vector.move_range_loop_ok (k : Nat) : ∀ (v : vector) (m : Mem T) (p : Nat),
    m.noFailure →
    (vector.move_range_loop v m p k).1 = none ∧
    (vector.move_range_loop v m p k).2.1 = { v with end_ := v.end_ + k } ∧
    (vector.move_range_loop v m p k).2.2.noFailure := by
  induction k with
  | zero => intro v m p h; exact ⟨rfl, rfl, h⟩
  | succ k ih =>
    intro v m p h
    unfold vector.move_range_loop vector.construct_one_at_end
    rw [Mem.construct_of_noFailure h]
    simp only
    obtain ⟨i1, i2, i3⟩ := ih { v with end_ := v.end_ + 1 } (m.store v.end_ (m.load p)) (p + 1)
      (Mem.noFailure_store h _ _)
    refine ⟨i1, ?_, i3⟩
    rw [i2]
    simp only [Nat.add_assoc, Nat.add_comm 1 k]

theorem vector.move_range_to_end_ok (v : vector) (p n : Nat) {m : Mem T} (hnf : m.noFailure) :
    (v.move_range p (p + n) v.end_ m).1 = none ∧
    (v.move_range p (p + n) v.end_ m).2.1 = { v with end_ := v.end_ + n } := by
  obtain ⟨l1, l2, _⟩ := vector.move_range_loop_ok n v m p hnf
  unfold vector.move_range
  simp only [Nat.sub_self, Nat.add_zero, Nat.add_sub_cancel_left]
  rcases hr : vector.move_range_loop v m p n with ⟨e, v1, m1⟩
  rw [hr] at l1 l2
  simp only at l1 l2
  subst l1
  exact ⟨rfl, l2⟩

/-- The pointers after the in-place branch of `insert(pos, count, value)` that is taken
when `count` exceeds the number of elements behind `pos`: `end_` has advanced by `count`. -/
theorem vector.insert_fill_inplace_pointers (v : vector) (pos count : Nat) (x : T) {m : Mem T}
    (hnf : m.noFailure) (h0 : count > 0) (h1 : ¬ (wrap (count + v.size) > v.capacity))
    (hn : count > v.end_ - (v.begin_ + (pos - v.begin_))) :
    (v.insert_fill pos count x m).1.toOption = some (v.begin_ + (pos - v.begin_)) ∧
    (v.insert_fill pos count x m).2.1 = { v with end_ := v.end_ + count } := by
  obtain ⟨p, hp⟩ : ∃ p, p = v.begin_ + (pos - v.begin_) := ⟨_, rfl⟩
  rw [← hp] at hn ⊢
  obtain ⟨c1, c2⟩ := vector.construct_at_end_fill_ok (count - (v.end_ - p)) x v hnf
  obtain ⟨r1, r2⟩ := vector.move_range_to_end_ok
    { v with end_ := v.end_ + (count - (v.end_ - p)) } p (v.end_ - p) c2
  simp only at r1 r2
  rcases hr : vector.move_range { v with end_ := v.end_ + (count - (v.end_ - p)) } p
      (p + (v.end_ - p)) (v.end_ + (count - (v.end_ - p)))
      (m.construct_list v.end_ (List.replicate (count - (v.end_ - p)) x)).2.2 with ⟨e, v1, m1⟩
  rw [hr] at r1 r2
  simp only at r1 r2
  subst r1
  have hend : v.end_ + (count - (v.end_ - p)) + (v.end_ - p) = v.end_ + count := by omega
  rw [hend] at r2
  unfold vector.insert_fill
  simp only [if_pos h0, if_neg h1, ← hp, if_pos hn, c1, hr]
  exact ⟨rfl, r2⟩

end Overflow

/-- C19 (capacity overflow), evaluated.  `reserve`, `resize(n)` and `resize(n, v)` with
`n = max_size() + 1`, and `insert(pos, count, v)` with `count = max_size()`, throw
`length_error` and leave the vector and its elements as they were.  But
`insert(begin() + 1, 2 ^ 64 - 1, 9)` on `[1,2]` with capacity 4, for which
`size() + count` exceeds `max_size()` as well, does not throw: the `size_type` sum
`count + size()` wraps to 1, passes the capacity test, and the call constructs behind
`end_`, which ends `2 ^ 64 - 1` slots further, far past `cap_`. -/
theorem vector.insert_fill_count_overflow :
    run_reserve_too_long.1 = some Exn.length_error ∧
    run_reserve_too_long.2.1 = (build [1, 2, 3, 4]).1 ∧
    run_reserve_too_long.2.1.elements run_reserve_too_long.2.2 = some [1, 2, 3, 4] ∧
    run_resize_too_long.1 = some Exn.length_error ∧
    run_resize_too_long.2.1 = (build [1, 2, 3, 4]).1 ∧
    run_resize_too_long.2.1.elements run_resize_too_long.2.2 = some [1, 2, 3, 4] ∧
    run_resize_value_too_long.1 = some Exn.length_error ∧
    run_resize_value_too_long.2.1 = (build [1, 2, 3, 4]).1 ∧
    run_resize_value_too_long.2.1.elements run_resize_value_too_long.2.2
      = some [1, 2, 3, 4] ∧
    run_insert_fill_too_long.1.toOption = none ∧
    run_insert_fill_too_long.2.1 = (buildSpare [1, 2] 2).1 ∧
    run_insert_fill_too_long.2.1.elements run_insert_fill_too_long.2.2 = some [1, 2] ∧
    (buildSpare [1, 2] 2).1.capacity ≤ (buildSpare [1, 2] 2).1.max_size ∧
    (buildSpare [1, 2] 2).1.size + (2 ^ 64 - 1) > (buildSpare [1, 2] 2).1.max_size ∧
    run_insert_fill_overflow.1.toOption = some ((buildSpare [1, 2] 2).1.begin_ + 1) ∧
    run_insert_fill_overflow.2.1.end_ = (buildSpare [1, 2] 2).1.end_ + (2 ^ 64 - 1) ∧
    run_insert_fill_overflow.2.1.cap_ = (buildSpare [1, 2] 2).1.cap_ ∧
    run_insert_fill_overflow.2.1.invariants = false := by
  obtain ⟨h1, h2⟩ := vector.insert_fill_inplace_pointers (buildSpare [1, 2] 2).1
    ((buildSpare [1, 2] 2).1.begin_ + 1) (2 ^ 64 - 1) (9 : Nat)
    (show (buildSpare [1, 2] 2).2.noFailure from ⟨rfl, rfl⟩)
    (by decide) (by decide) (by decide)
  have e1 : run_insert_fill_overflow.1.toOption
      = some ((buildSpare [1, 2] 2).1.begin_ + 1) := by
    unfold run_insert_fill_overflow
    rw [h1]
    decide
  have e2 : run_insert_fill_overflow.2.1
      = { (buildSpare [1, 2] 2).1 with
          end_ := (buildSpare [1, 2] 2).1.end_ + (2 ^ 64 - 1) } := by
    unfold run_insert_fill_overflow
    rw [h2]
  refine ⟨by decide, by decide, by decide, by decide, by decide, by decide, by decide,
    by decide, by decide, by decide, by decide, by decide, by decide, by decide, e1, ?_, ?_, ?_⟩
  · rw [e2]
  · rw [e2]
  · rw [e2]
    decide

/-- C11 (copy assignment), evaluated.  With `a = [1,2]` at capacity 4 and `b = [7,8,9]`,
`a = b` returns normally and leaves `b` as it was, but `a` has size 2 and elements
`[7,8]`: the assignment delegates to the multi-pass `assign`, whose in-place extension
never advances `end_`.  When `a` must reallocate (`a = [1,2]` at capacity 2) the result is
`[7,8,9]`, and self-assignment changes nothing. -/
theorem vector.copy_assign_extend_keeps_size :
    twoVectors.1.elements twoVectors.2.2 = some [1, 2] ∧
    twoVectors.1.capacity = 4 ∧
    twoVectors.2.1.elements twoVectors.2.2 = some [7, 8, 9] ∧
    run_copy_assign.1 = none ∧
    run_copy_assign.2.1.size = 2 ∧
    run_copy_assign.2.1.elements run_copy_assign.2.2 = some [7, 8] ∧
    twoVectors.2.1.elements run_copy_assign.2.2 = some [7, 8, 9] ∧
    run_copy_assign_grow.2.1.elements run_copy_assign_grow.2.2 = some [7, 8, 9] ∧
    run_copy_assign_self.2.1 = (build [1, 2, 3]).1 ∧
    run_copy_assign_self.2.1.elements run_copy_assign_self.2.2 = some [1, 2, 3] := by
  decide

/-- C15 (reserve), evaluated.  `reserve(8)` on `[1,2,3,4]` with capacity 4 returns
normally with size 4 and capacity 8, but the element sequence is not kept: the staging
buffer's destructor has released the storage that the vector adopted, and no element can
be read.  `reserve(3)`, within the capacity, changes nothing. -/
theorem vector.reserve_releases_storage :
    (build [1, 2, 3, 4]).1.elements (build [1, 2, 3, 4]).2 = some [1, 2, 3, 4] ∧
    run_reserve_8.1 = none ∧
    run_reserve_8.2.1.size = 4 ∧
    run_reserve_8.2.1.capacity = 8 ∧
    run_reserve_8.2.1.elements run_reserve_8.2.2 = none ∧
    run_reserve_8.2.1.released run_reserve_8.2.2 = true ∧
    run_reserve_3.2.1 = (build [1, 2, 3, 4]).1 ∧
    run_reserve_3.2.1.elements run_reserve_3.2.2 = some [1, 2, 3, 4] := by
  decide

/-- C16 (shrink_to_fit), evaluated.  `shrink_to_fit()` on `[1,2,3]` with capacity 4 makes
the capacity equal to the size 3, and a second call changes neither pointer; but the first
call does not keep the element sequence: the staging buffer's destructor has released the
storage that the vector adopted, and no element can be read. -/
theorem vector.shrink_to_fit_releases_storage :
    (buildSpare [1, 2, 3] 1).1.elements (buildSpare [1, 2, 3] 1).2 = some [1, 2, 3] ∧
    (buildSpare [1, 2, 3] 1).1.capacity = 4 ∧
    run_shrink.1.size = 3 ∧
    run_shrink.1.capacity = 3 ∧
    run_shrink.1.elements run_shrink.2 = none ∧
    run_shrink.1.released run_shrink.2 = true ∧
    run_shrink_twice.1 = run_shrink.1 ∧
    run_shrink_twice.1.capacity = run_shrink.1.capacity := by
  decide

end tgp

namespace tgp

variable {T : Type}

/-! ## Element access, swap and move assignment -/

/-- C21 (bounds-checked access).  For a vector holding `xs`: `at(pos)` throws, and what it
throws is `out_of_range`, exactly when `pos ≥ size()`; for `pos < size()` it returns the
reference that `operator[]` yields, and that cell holds the element of index `pos`.  Both
members only read the three pointers: they return neither a vector nor a memory, so
nothing is modified. -/
theorem vector.at_bounds_checked (v : vector) (m : Mem T) (xs : List T) (pos : Nat)
    (hel : v.elements m = some xs) :
    xs.length = v.size ∧
    ((∃ e, v.at_ pos = Except.error e) ↔ pos ≥ v.size) ∧
    (pos ≥ v.size → v.at_ pos = Except.error Exn.out_of_range) ∧
    (pos < v.size → v.at_ pos = Except.ok (v.subscript pos) ∧
      m.load (v.subscript pos) = xs[pos]? ∧ ∃ x, xs[pos]? = some x) := by
  have h := (Mem.read_eq_some_iff v.size m v.begin_ xs).1 hel
  refine ⟨h.1, ?_, ?_, ?_⟩
  · unfold vector.at_
    by_cases hp : pos ≥ v.size
    · rw [if_pos hp]
      exact ⟨fun _ => hp, fun _ => ⟨_, rfl⟩⟩
    · rw [if_neg hp]
      constructor
      · rintro ⟨e, he⟩
        cases he
      · intro h2
        exact absurd h2 hp
  · intro hp
    unfold vector.at_
    rw [if_pos hp]
  · intro hp
    refine ⟨?_, h.2 pos hp, ?_⟩
    · unfold vector.at_ vector.subscript
      rw [if_neg (by omega)]
    · have hl : pos < xs.length := by omega
      exact ⟨xs[pos], List.getElem?_eq_getElem hl⟩

theorem vector.at_bounds_checked_witness :
    [1, 2, 3].length = (build [1, 2, 3]).1.size ∧
    ((∃ e, (build [1, 2, 3]).1.at_ 1 = Except.error e) ↔ 1 ≥ (build [1, 2, 3]).1.size) ∧
    (1 ≥ (build [1, 2, 3]).1.size → (build [1, 2, 3]).1.at_ 1 = Except.error Exn.out_of_range) ∧
    (1 < (build [1, 2, 3]).1.size →
      (build [1, 2, 3]).1.at_ 1 = Except.ok ((build [1, 2, 3]).1.subscript 1) ∧
      (build [1, 2, 3]).2.load ((build [1, 2, 3]).1.subscript 1) = [1, 2, 3][1]? ∧
      ∃ x, [1, 2, 3][1]? = some x) :=
  vector.at_bounds_checked (build [1, 2, 3]).1 (build [1, 2, 3]).2 [1, 2, 3] 1 (by decide)

/-- C22 (swap).  After `a.swap(b)` the vector `a` has the three pointers `b` had and `b`
those `a` had, hence in every memory each has the other's prior element sequence, size and
capacity; `swap` neither takes nor returns the memory, so no element is created, destroyed
or changed; and a second `swap` restores both vectors, allocators included. -/
theorem vector.swap_exchanges (tr : Traits) (a b : vector) (m : Mem T) :
    (a.swap tr b).1.elements m = b.elements m ∧
    (a.swap tr b).2.elements m = a.elements m ∧
    (a.swap tr b).1.size = b.size ∧
    (a.swap tr b).2.size = a.size ∧
    (a.swap tr b).1.capacity = b.capacity ∧
    (a.swap tr b).2.capacity = a.capacity ∧
    (a.swap tr b).1.swap tr (a.swap tr b).2 = (a, b) := by
  unfold vector.swap
  by_cases h : tr.propagate_on_container_swap = true
  · simp only [if_pos h]
    refine ⟨?_, ?_, ?_, ?_, ?_, ?_, ?_⟩ <;> trivial
  · simp only [if_neg h]
    refine ⟨?_, ?_, ?_, ?_, ?_, ?_, ?_⟩ <;> trivial

/-- C23 (move assignment).  When the allocators compare equal or the allocator propagates
on move assignment, `a = std::move(b)` returns normally, leaves the memory as it was, gives
`a` the pointers of `b` (so `a` has the prior element sequence, size and capacity of `b`),
and leaves `b` with three null pointers: size 0, capacity 0, no allocation. -/
theorem vector.move_assign_adopts (tr : Traits) (a b : vector) (m : Mem T)
    (h : a.alloc_.id = b.alloc_.id ∨ tr.propagate_on_container_move_assignment = true) :
    (a.move_assign tr b m).1 = none ∧
    (a.move_assign tr b m).2.2.2 = m ∧
    (a.move_assign tr b m).2.1.elements (a.move_assign tr b m).2.2.2 = b.elements m ∧
    (a.move_assign tr b m).2.1.size = b.size ∧
    (a.move_assign tr b m).2.1.capacity = b.capacity ∧
    (a.move_assign tr b m).2.2.1.begin_ = 0 ∧
    (a.move_assign tr b m).2.2.1.size = 0 ∧
    (a.move_assign tr b m).2.2.1.capacity = 0 ∧
    (a.move_assign tr b m).2.2.1.elements (a.move_assign tr b m).2.2.2 = some [] := by
  unfold vector.move_assign
  rw [if_pos h]
  exact ⟨rfl, rfl, rfl, rfl, rfl, rfl, rfl, rfl, rfl⟩

theorem vector.move_assign_adopts_witness :
    run_move_assign.1 = none ∧
    run_move_assign.2.2.2 = twoVectors.2.2 ∧
    run_move_assign.2.1.elements run_move_assign.2.2.2 = twoVectors.2.1.elements twoVectors.2.2 ∧
    run_move_assign.2.1.size = twoVectors.2.1.size ∧
    run_move_assign.2.1.capacity = twoVectors.2.1.capacity ∧
    run_move_assign.2.2.1.begin_ = 0 ∧
    run_move_assign.2.2.1.size = 0 ∧
    run_move_assign.2.2.1.capacity = 0 ∧
    run_move_assign.2.2.1.elements run_move_assign.2.2.2 = some [] :=
  vector.move_assign_adopts stdTraits twoVectors.1 twoVectors.2.1 twoVectors.2.2
    (Or.inl (by decide))

end tgp

namespace tgp

variable {T : Type}

/-! ## The staging buffer: construction -/

theorem Mem.allRaw_of_cells (n : Nat) : ∀ (m : Mem T) (a : Nat),
    (∀ t, t < n → m.cells (a + t) = Cell.raw) → m.allRaw a n = true := by
  induction n with
  | zero => intro m a _; rfl
  | succ n ih =>
    intro m a h
    unfold Mem.allRaw
    have h0 := h 0 (by omega)
    rw [Nat.add_zero] at h0
    rw [h0]
    simp only [Bool.true_and]
    apply ih
    intro t ht
    have he : a + 1 + t = a + (t + 1) := by omega
    rw [he]
    exact h (t + 1) (by omega)

/-- An allocation that the schedule lets succeed hands out the address `brk` and makes the
`n` cells there raw; nothing else changes but the schedule and `brk`. -/
theorem Mem.allocate_ok {m : Mem T} (h : m.allocs ≠ some 0) (n : Nat) :
    (m.allocate n).1 = Except.ok m.brk ∧
    (∀ a, (m.allocate n).2.cells a
      = if m.brk ≤ a ∧ a < m.brk + n then Cell.raw else m.cells a) ∧
    (m.allocate n).2.fault = m.fault ∧
    (m.allocate n).2.ctors = m.ctors := by
  unfold Mem.allocate
  cases hc : m.allocs with
  | none => exact ⟨rfl, fun _ => rfl, rfl, rfl⟩
  | some k =>
    cases k with
    | zero => exact absurd hc h
    | succ k => exact ⟨rfl, fun _ => rfl, rfl, rfl⟩

theorem split_buffer.buffer_invariants_le {sb : split_buffer} (h : sb.invariants = true) :
    sb.first_ ≤ sb.begin_ ∧ sb.begin_ ≤ sb.end_ ∧ sb.end_ ≤ sb.cap_ := by
  unfold split_buffer.invariants at h
  by_cases h0 : sb.first_ = 0
  · rw [if_pos h0] at h
    by_cases h1 : sb.begin_ ≠ 0 ∨ sb.end_ ≠ 0 ∨ sb.cap_ ≠ 0
    · rw [if_pos h1] at h
      cases h
    · omega
  · rw [if_neg h0] at h
    by_cases h1 : sb.first_ > sb.begin_
    · rw [if_pos h1] at h
      cases h
    · rw [if_neg h1] at h
      by_cases h2 : sb.begin_ > sb.end_
      · rw [if_pos h2] at h
        cases h
      · rw [if_neg h2] at h
        by_cases h3 : sb.end_ > sb.cap_
        · rw [if_pos h3] at h
          cases h
        · omega

theorem split_buffer.invariants_of_le {sb : split_buffer} (h0 : sb.first_ ≠ 0)
    (h1 : sb.first_ ≤ sb.begin_) (h2 : sb.begin_ ≤ sb.end_) (h3 : sb.end_ ≤ sb.cap_) :
    sb.invariants = true := by
  unfold split_buffer.invariants
  rw [if_neg h0, if_neg (by omega), if_neg (by omega), if_neg (by omega)]

/-- C24 (staging-buffer construction).  For a gap `g ≤ c` and an allocation that succeeds,
`split_buffer(c, g, alloc)` returns a buffer with `first_` the fresh non-null address,
`begin_ = end_ = first_ + g` and `cap_ = first_ + c`; its `capacity()` is `c`, its
`invariants()` holds, all `c` cells of its storage are raw (no live element, and the live
region `[begin_, end_)` is empty), and cells outside the storage are untouched. -/
theorem split_buffer.ctor_spec (c g : Nat) (m : Mem T) (hg : g ≤ c)
    (halloc : m.allocs ≠ some 0) (hbrk : 0 < m.brk) :
    (split_buffer.ctor c g m).1
      = Except.ok { first_ := m.brk, begin_ := m.brk + g, end_ := m.brk + g,
                    cap_ := m.brk + c } ∧
    split_buffer.capacity { first_ := m.brk, begin_ := m.brk + g, end_ := m.brk + g,
                            cap_ := m.brk + c } = c ∧
    split_buffer.invariants { first_ := m.brk, begin_ := m.brk + g, end_ := m.brk + g,
                              cap_ := m.brk + c } = true ∧
    (split_buffer.ctor c g m).2.allRaw m.brk c = true ∧
    (split_buffer.ctor c g m).2.read (m.brk + g) (m.brk + g - (m.brk + g)) = some [] ∧
    (∀ a, ¬ (m.brk ≤ a ∧ a < m.brk + c) → (split_buffer.ctor c g m).2.cells a = m.cells a) ∧
    (split_buffer.ctor c g m).2.fault = m.fault := by
  obtain ⟨h1, h2, h3, _⟩ := Mem.allocate_ok halloc c
  have hct : split_buffer.ctor c g m
      = (Except.ok { first_ := m.brk, begin_ := m.brk + g, end_ := m.brk + g,
                     cap_ := m.brk + c }, (m.allocate c).2) := by
    unfold split_buffer.ctor
    rcases hal : m.allocate c with ⟨r, m1⟩
    rw [hal] at h1
    simp only at h1
    subst h1
    rfl
  rw [hct]
  refine ⟨rfl, ?_, ?_, ?_, ?_, ?_, h3⟩
  · show m.brk + c - m.brk = c
    omega
  · apply split_buffer.invariants_of_le
    · show m.brk ≠ 0
      omega
    · show m.brk ≤ m.brk + g
      omega
    · exact Nat.le_refl _
    · show m.brk + g ≤ m.brk + c
      omega
  · apply Mem.allRaw_of_cells
    intro t ht
    show (m.allocate c).2.cells (m.brk + t) = Cell.raw
    rw [h2, if_pos (by omega)]
  · rw [Nat.sub_self]
    rfl
  · intro a ha
    show (m.allocate c).2.cells a = m.cells a
    rw [h2, if_neg ha]

theorem split_buffer.ctor_spec_witness :
    ((split_buffer.ctor 8 4 (Mem.empty Nat)).1
      = Except.ok { first_ := 1, begin_ := 5, end_ := 5, cap_ := 9 } ∧
     (split_buffer.ctor 8 4 (Mem.empty Nat)).2.allRaw 1 8 = true) ∧
    ((split_buffer.ctor 8 8 (Mem.empty Nat)).1
      = Except.ok { first_ := 1, begin_ := 9, end_ := 9, cap_ := 9 } ∧
     (split_buffer.ctor 8 8 (Mem.empty Nat)).2.allRaw 1 8 = true) ∧
    ((split_buffer.ctor 0 0 (Mem.empty Nat)).1
      = Except.ok { first_ := 1, begin_ := 1, end_ := 1, cap_ := 1 } ∧
     (split_buffer.ctor 0 0 (Mem.empty Nat)).2.allRaw 1 0 = true) :=
  ⟨⟨(split_buffer.ctor_spec 8 4 (Mem.empty Nat) (by decide) (by decide) (by decide)).1,
    (split_buffer.ctor_spec 8 4 (Mem.empty Nat) (by decide) (by decide) (by decide)).2.2.2.1⟩,
   ⟨(split_buffer.ctor_spec 8 8 (Mem.empty Nat) (by decide) (by decide) (by decide)).1,
    (split_buffer.ctor_spec 8 8 (Mem.empty Nat) (by decide) (by decide) (by decide)).2.2.2.1⟩,
   ⟨(split_buffer.ctor_spec 0 0 (Mem.empty Nat) (by decide) (by decide) (by decide)).1,
    (split_buffer.ctor_spec 0 0 (Mem.empty Nat) (by decide) (by decide) (by decide)).2.2.2.1⟩⟩

end tgp

namespace tgp

variable {T : Type}

/-! ## The staging buffer: appending and prepending -/

/-- A construction that the schedule lets succeed, at an allocated cell, makes that cell
hold the value and changes no other cell. -/
theorem Mem.construct_ok {m : Mem T} {a : Nat} (x : T) (hc : m.ctors ≠ some 0)
    (hf : m.cells a ≠ Cell.free) :
    (m.construct a (some x)).1 = none ∧
    (∀ b, (m.construct a (some x)).2.cells b = if b = a then Cell.live x else m.cells b) ∧
    (m.construct a (some x)).2.fault = m.fault ∧
    (∀ k, (m.construct a (some x)).2.ctors = some k → m.ctors = some (k + 1)) := by
  unfold Mem.construct
  rw [Mem.store_of_not_free hf]
  cases hk : m.ctors with
  | none =>
    refine ⟨rfl, fun _ => rfl, rfl, ?_⟩
    intro k h
    simp only [Mem.set] at h
    rw [hk] at h
    cases h
  | some k =>
    cases k with
    | zero => exact absurd hk hc
    | succ k =>
      refine ⟨rfl, fun _ => rfl, rfl, ?_⟩
      intro j h
      simp only [Option.some.injEq] at h
      rw [h]

/-- When the constructor schedule allows all of them and the target cells are allocated,
the loop constructs every value of the list in its cell and changes no other cell. -/
theorem Mem.construct_list_ok (l : List T) : ∀ (m : Mem T) (a : Nat),
    (∀ k, m.ctors = some k → l.length ≤ k) →
    (∀ t, t < l.length → m.cells (a + t) ≠ Cell.free) →
    (m.construct_list a l).1 = none ∧
    (m.construct_list a l).2.1 = a + l.length ∧
    (m.construct_list a l).2.2.fault = m.fault ∧
    (∀ b, a ≤ b → b < a + l.length → (m.construct_list a l).2.2.load b = l[b - a]?) ∧
    (∀ b, ¬ (a ≤ b ∧ b < a + l.length) → (m.construct_list a l).2.2.cells b = m.cells b) := by
  induction l with
  | nil =>
    intro m a _ _
    refine ⟨rfl, rfl, rfl, ?_, fun _ _ => rfl⟩
    intro b h1 h2
    simp only [List.length_nil] at h2
    omega
  | cons x xs ih =>
    intro m a hc hfree
    have hc0 : m.ctors ≠ some 0 := by
      intro h
      have := hc 0 h
      simp only [List.length_cons] at this
      omega
    have hnf : m.cells a ≠ Cell.free := by simpa using hfree 0 (by simp)
    obtain ⟨c1, c2, c3, c4⟩ := Mem.construct_ok x hc0 hnf
    have hstep : m.construct_list a (x :: xs)
        = Mem.construct_list (m.construct a (some x)).2 (a + 1) xs := by
      conv_lhs => unfold Mem.construct_list
      rcases hcs : m.construct a (some x) with ⟨e, m1⟩
      rw [hcs] at c1
      simp only at c1
      subst c1
      rfl
    have hc1 : ∀ k, (m.construct a (some x)).2.ctors = some k → xs.length ≤ k := by
      intro k hk
      have := hc (k + 1) (c4 k hk)
      simp only [List.length_cons] at this
      omega
    have hfree1 : ∀ t, t < xs.length →
        (m.construct a (some x)).2.cells (a + 1 + t) ≠ Cell.free := by
      intro t ht
      have hne : a + 1 + t ≠ a := by omega
      rw [c2, if_neg hne]
      have := hfree (t + 1) (by simp only [List.length_cons]; omega)
      have he : a + (t + 1) = a + 1 + t := by omega
      rw [he] at this
      exact this
    obtain ⟨h1, h2, h3, h4, h5⟩ := ih (m.construct a (some x)).2 (a + 1) hc1 hfree1
    rw [hstep]
    refine ⟨h1, ?_, ?_, ?_, ?_⟩
    · rw [h2, List.length_cons]; omega
    · rw [h3, c3]
    · intro b hb1 hb2
      simp only [List.length_cons] at hb2
      by_cases hba : b = a
      · subst hba
        rw [Mem.load_congr (h5 b (by omega))]
        have : (m.construct b (some x)).2.cells b = Cell.live x := by
          rw [c2, if_pos rfl]
        rw [Mem.load_of_live this]
        simp
      · rw [h4 b (by omega) (by omega)]
        have he : b - a = (b - (a + 1)) + 1 := by omega
        rw [he, List.getElem?_cons_succ]
    · intro b hb
      simp only [List.length_cons] at hb
      have hne : b ≠ a := by omega
      rw [h5 b (by omega), c2, if_neg hne]

/-- The range form of `construct_at_end` on a buffer whose live region holds `ys`, when
the constructions succeed and the target cells are allocated. -/
theorem split_buffer.buffer_range_spec (sb : split_buffer) (m : Mem T) (ys s : List T)
    (hle : sb.begin_ ≤ sb.end_)
    (hlive : m.read sb.begin_ (sb.end_ - sb.begin_) = some ys)
    (hown : ∀ t, t < s.length → m.cells (sb.end_ + t) ≠ Cell.free)
    (hctor : ∀ k, m.ctors = some k → s.length ≤ k) :
    (sb.construct_at_end_range m s).1 = none ∧
    (sb.construct_at_end_range m s).2.1 = { sb with end_ := sb.end_ + s.length } ∧
    (sb.construct_at_end_range m s).2.2.read sb.begin_ (sb.end_ - sb.begin_ + s.length)
      = some (ys ++ s) ∧
    (∀ b, ¬ (sb.end_ ≤ b ∧ b < sb.end_ + s.length) →
      (sb.construct_at_end_range m s).2.2.cells b = m.cells b) ∧
    (sb.construct_at_end_range m s).2.2.fault = m.fault := by
  obtain ⟨h1, h2, h3, h4, h5⟩ := Mem.construct_list_ok s m sb.end_ hctor hown
  rw [split_buffer.buffer_range_eq]
  simp only
  refine ⟨h1, ?_, ?_, h5, h3⟩
  · rw [h2]
  · obtain ⟨hl, hld⟩ := (Mem.read_eq_some_iff _ m sb.begin_ ys).1 hlive
    rw [Mem.read_eq_some_iff]
    refine ⟨?_, ?_⟩
    · rw [List.length_append, hl]
    · intro t ht
      by_cases hlt : t < sb.end_ - sb.begin_
      · rw [Mem.load_congr (h5 (sb.begin_ + t) (by omega)), hld t hlt,
          List.getElem?_append_left (by omega)]
      · rw [h4 (sb.begin_ + t) (by omega) (by omega),
          List.getElem?_append_right (by omega)]
        congr 1
        omega

theorem split_buffer.emplace_back_eq (sb : split_buffer) (x : T) (m : Mem T) :
    sb.emplace_back x m = sb.construct_at_end_range m [x] := by
  unfold split_buffer.emplace_back split_buffer.construct_at_end_range
  rcases m.construct sb.end_ (some x) with ⟨e, m1⟩
  cases e with
  | none => rfl
  | some e => rfl

end tgp

namespace tgp

variable {T : Type}

/-- C25 (staging-buffer append).  Take a buffer that satisfies `invariants()`, owns the
cells of `[first_, cap_)` and holds `ys` in its live region, a count `n` with
`end_ + n ≤ cap_`, and constructors that do not throw during the call.  Then
`construct_at_end(n)`, `construct_at_end(n, value)` and `construct_at_end(first, last)`
over a range `s` of length `n` return normally with `end_` advanced by exactly `n` and
`first_`, `begin_`, `cap_` unchanged; every cell outside `[end_, end_ + n)` is unchanged;
and the live region then holds `ys` followed by, respectively, `n` default values, `n`
copies of `value`, and `s`.  For `n ≥ 1`, `emplace_back(x)` does the same with the one
new element `x`. -/
theorem split_buffer.append_spec [Inhabited T] (sb : split_buffer) (m : Mem T)
    (ys s : List T) (n : Nat) (value x : T)
    (hinv : sb.invariants = true)
    (hlive : m.read sb.begin_ (sb.end_ - sb.begin_) = some ys)
    (hown : ∀ a, sb.first_ ≤ a → a < sb.cap_ → m.cells a ≠ Cell.free)
    (hroom : sb.end_ + n ≤ sb.cap_)
    (hctor : ∀ k, m.ctors = some k → n ≤ k)
    (hs : s.length = n) :
    ((sb.construct_at_end_n m n).1 = none ∧
     (sb.construct_at_end_n m n).2.1 = { sb with end_ := sb.end_ + n } ∧
     (sb.construct_at_end_n m n).2.2.read sb.begin_ (sb.end_ - sb.begin_ + n)
       = some (ys ++ List.replicate n default) ∧
     (∀ b, ¬ (sb.end_ ≤ b ∧ b < sb.end_ + n) →
       (sb.construct_at_end_n m n).2.2.cells b = m.cells b) ∧
     (sb.construct_at_end_n m n).2.2.fault = m.fault) ∧
    ((sb.construct_at_end_fill m value n).1 = none ∧
     (sb.construct_at_end_fill m value n).2.1 = { sb with end_ := sb.end_ + n } ∧
     (sb.construct_at_end_fill m value n).2.2.read sb.begin_ (sb.end_ - sb.begin_ + n)
       = some (ys ++ List.replicate n value) ∧
     (∀ b, ¬ (sb.end_ ≤ b ∧ b < sb.end_ + n) →
       (sb.construct_at_end_fill m value n).2.2.cells b = m.cells b) ∧
     (sb.construct_at_end_fill m value n).2.2.fault = m.fault) ∧
    ((sb.construct_at_end_range m s).1 = none ∧
     (sb.construct_at_end_range m s).2.1 = { sb with end_ := sb.end_ + n } ∧
     (sb.construct_at_end_range m s).2.2.read sb.begin_ (sb.end_ - sb.begin_ + n)
       = some (ys ++ s) ∧
     (∀ b, ¬ (sb.end_ ≤ b ∧ b < sb.end_ + n) →
       (sb.construct_at_end_range m s).2.2.cells b = m.cells b) ∧
     (sb.construct_at_end_range m s).2.2.fault = m.fault) ∧
    (1 ≤ n →
     (sb.emplace_back x m).1 = none ∧
     (sb.emplace_back x m).2.1 = { sb with end_ := sb.end_ + 1 } ∧
     (sb.emplace_back x m).2.2.read sb.begin_ (sb.end_ - sb.begin_ + 1) = some (ys ++ [x]) ∧
     (∀ b, b ≠ sb.end_ → (sb.emplace_back x m).2.2.cells b = m.cells b) ∧
     (sb.emplace_back x m).2.2.fault = m.fault) := by
  obtain ⟨i1, i2, _⟩ := split_buffer.buffer_invariants_le hinv
  have key : ∀ l : List T, l.length ≤ n →
      (sb.construct_at_end_range m l).1 = none ∧
      (sb.construct_at_end_range m l).2.1 = { sb with end_ := sb.end_ + l.length } ∧
      (sb.construct_at_end_range m l).2.2.read sb.begin_ (sb.end_ - sb.begin_ + l.length)
        = some (ys ++ l) ∧
      (∀ b, ¬ (sb.end_ ≤ b ∧ b < sb.end_ + l.length) →
        (sb.construct_at_end_range m l).2.2.cells b = m.cells b) ∧
      (sb.construct_at_end_range m l).2.2.fault = m.fault := by
    intro l hl
    apply split_buffer.buffer_range_spec sb m ys l i2 hlive
    · intro t ht
      exact hown _ (by omega) (by omega)
    · intro k hk
      have := hctor k hk
      omega
  refine ⟨?_, ?_, ?_, ?_⟩
  · have h := key (List.replicate n default) (by rw [List.length_replicate])
    rw [List.length_replicate] at h
    rw [split_buffer.buffer_n_eq]
    exact h
  · have h := key (List.replicate n value) (by rw [List.length_replicate])
    rw [List.length_replicate] at h
    rw [split_buffer.buffer_fill_eq]
    exact h
  · have h := key s (by omega)
    rw [hs] at h
    exact h
  · intro hn
    have h := key [x] (by simpa using hn)
    rw [split_buffer.emplace_back_eq]
    obtain ⟨h1, h2, h3, h4, h5⟩ := h
    refine ⟨h1, h2, h3, ?_, h5⟩
    intro b hb
    apply h4
    simp only [List.length_singleton]
    omega

theorem split_buffer.append_spec_witness :
    (bufferWith123.1 = none ∧
     bufferWith123.2.1 = { (stagedBuffer 10 5 (Mem.empty Nat)).1 with
       end_ := (stagedBuffer 10 5 (Mem.empty Nat)).1.end_ + 3 } ∧
     bufferWith123.2.2.read (stagedBuffer 10 5 (Mem.empty Nat)).1.begin_
       ((stagedBuffer 10 5 (Mem.empty Nat)).1.end_
         - (stagedBuffer 10 5 (Mem.empty Nat)).1.begin_ + 3) = some ([] ++ [1, 2, 3]) ∧
     (∀ b, ¬ ((stagedBuffer 10 5 (Mem.empty Nat)).1.end_ ≤ b ∧
         b < (stagedBuffer 10 5 (Mem.empty Nat)).1.end_ + 3) →
       bufferWith123.2.2.cells b = (stagedBuffer 10 5 (Mem.empty Nat)).2.cells b) ∧
     bufferWith123.2.2.fault = (stagedBuffer 10 5 (Mem.empty Nat)).2.fault) :=
  (split_buffer.append_spec (stagedBuffer 10 5 (Mem.empty Nat)).1
    (stagedBuffer 10 5 (Mem.empty Nat)).2 [] [1, 2, 3] 3 0 0 (by decide) (by decide)
    (by
      intro a h1 h2
      have h1 : 1 ≤ a := h1
      have h2 : a < 11 := h2
      interval_cases a <;> decide)
    (by decide) (by intro k hk; cases hk) (by decide)).2.2.1

/-- C26 (staging-buffer front emplace).  Take a buffer that satisfies `invariants()`, owns
the cells of `[first_, cap_)`, holds `ys` in its live region and has `begin_ > first_`, and
a constructor that does not throw.  Then `emplace_front(x)` returns normally with `begin_`
decremented by exactly one and `first_`, `end_`, `cap_` unchanged; the cell at the new
`begin_` holds `x`; every other cell is unchanged; and the live region, one element longer,
holds `x` followed by `ys`. -/
theorem split_buffer.emplace_front_spec (sb : split_buffer) (m : Mem T) (ys : List T) (x : T)
    (hinv : sb.invariants = true)
    (hlive : m.read sb.begin_ (sb.end_ - sb.begin_) = some ys)
    (hown : ∀ a, sb.first_ ≤ a → a < sb.cap_ → m.cells a ≠ Cell.free)
    (hgap : sb.begin_ > sb.first_)
    (hctor : m.ctors ≠ some 0) :
    (sb.emplace_front x m).1 = none ∧
    (sb.emplace_front x m).2.1 = { sb with begin_ := sb.begin_ - 1 } ∧
    (sb.emplace_front x m).2.1.end_ - (sb.emplace_front x m).2.1.begin_
      = sb.end_ - sb.begin_ + 1 ∧
    (sb.emplace_front x m).2.2.load (sb.begin_ - 1) = some x ∧
    (sb.emplace_front x m).2.2.read (sb.begin_ - 1) (sb.end_ - sb.begin_ + 1)
      = some (x :: ys) ∧
    (∀ b, b ≠ sb.begin_ - 1 → (sb.emplace_front x m).2.2.cells b = m.cells b) ∧
    (sb.emplace_front x m).2.2.fault = m.fault := by
  obtain ⟨i1, i2, i3⟩ := split_buffer.buffer_invariants_le hinv
  have hnf : m.cells (sb.begin_ - 1) ≠ Cell.free := hown _ (by omega) (by omega)
  obtain ⟨c1, c2, c3, _⟩ := Mem.construct_ok x hctor hnf
  have hst : sb.emplace_front x m
      = (none, { sb with begin_ := sb.begin_ - 1 }, (m.construct (sb.begin_ - 1) (some x)).2) := by
    unfold split_buffer.emplace_front
    rcases hcs : m.construct (sb.begin_ - 1) (some x) with ⟨e, m1⟩
    rw [hcs] at c1
    simp only at c1
    subst c1
    rfl
  rw [hst]
  have hload : (m.construct (sb.begin_ - 1) (some x)).2.load (sb.begin_ - 1) = some x :=
    Mem.load_of_live (by rw [c2, if_pos rfl])
  refine ⟨rfl, rfl, ?_, hload, ?_, ?_, c3⟩
  · show sb.end_ - (sb.begin_ - 1) = sb.end_ - sb.begin_ + 1
    omega
  · obtain ⟨hl, hld⟩ := (Mem.read_eq_some_iff _ m sb.begin_ ys).1 hlive
    show (m.construct (sb.begin_ - 1) (some x)).2.read (sb.begin_ - 1)
      (sb.end_ - sb.begin_ + 1) = some (x :: ys)
    rw [Mem.read_eq_some_iff]
    refine ⟨by rw [List.length_cons, hl], ?_⟩
    intro t ht
    cases t with
    | zero =>
      rw [Nat.add_zero, hload]
      simp
    | succ t =>
      have hne : sb.begin_ - 1 + (t + 1) ≠ sb.begin_ - 1 := by omega
      have hc : (m.construct (sb.begin_ - 1) (some x)).2.cells (sb.begin_ - 1 + (t + 1))
          = m.cells (sb.begin_ + t) := by
        rw [c2, if_neg hne]
        congr 1
        omega
      rw [Mem.load_congr hc, hld t (by omega), List.getElem?_cons_succ]
  · intro b hb
    show (m.construct (sb.begin_ - 1) (some x)).2.cells b = m.cells b
    rw [c2, if_neg hb]

theorem split_buffer.emplace_front_spec_witness :
    bufferFront10.1 = none ∧
    bufferFront10.2.1 = { (stagedBuffer 10 5 (Mem.empty Nat)).1 with
      begin_ := (stagedBuffer 10 5 (Mem.empty Nat)).1.begin_ - 1 } ∧
    bufferFront10.2.1.end_ - bufferFront10.2.1.begin_
      = (stagedBuffer 10 5 (Mem.empty Nat)).1.end_
        - (stagedBuffer 10 5 (Mem.empty Nat)).1.begin_ + 1 ∧
    bufferFront10.2.2.load ((stagedBuffer 10 5 (Mem.empty Nat)).1.begin_ - 1) = some 10 ∧
    bufferFront10.2.2.read ((stagedBuffer 10 5 (Mem.empty Nat)).1.begin_ - 1)
      ((stagedBuffer 10 5 (Mem.empty Nat)).1.end_
        - (stagedBuffer 10 5 (Mem.empty Nat)).1.begin_ + 1) = some [10] ∧
    (∀ b, b ≠ (stagedBuffer 10 5 (Mem.empty Nat)).1.begin_ - 1 →
      bufferFront10.2.2.cells b = (stagedBuffer 10 5 (Mem.empty Nat)).2.cells b) ∧
    bufferFront10.2.2.fault = (stagedBuffer 10 5 (Mem.empty Nat)).2.fault :=
  split_buffer.emplace_front_spec (stagedBuffer 10 5 (Mem.empty Nat)).1
    (stagedBuffer 10 5 (Mem.empty Nat)).2 [] 10 (by decide) (by decide)
    (by
      intro a h1 h2
      have h1 : 1 ≤ a := h1
      have h2 : a < 11 := h2
      interval_cases a <;> decide)
    (by decide) (by decide)

end tgp

namespace tgp

variable {T : Type}

/-! ## The staging buffer: invariant and clear -/

theorem split_buffer.invariants_iff (sb : split_buffer) :
    sb.invariants = true ↔
      (sb.first_ = 0 ∧ sb.begin_ = 0 ∧ sb.end_ = 0 ∧ sb.cap_ = 0) ∨
      (sb.first_ ≠ 0 ∧ sb.first_ ≤ sb.begin_ ∧ sb.begin_ ≤ sb.end_ ∧ sb.end_ ≤ sb.cap_) := by
  unfold split_buffer.invariants
  by_cases h0 : sb.first_ = 0
  · rw [if_pos h0]
    by_cases h1 : sb.begin_ ≠ 0 ∨ sb.end_ ≠ 0 ∨ sb.cap_ ≠ 0
    · rw [if_pos h1]
      constructor
      · intro h
        cases h
      · intro h
        omega
    · rw [if_neg h1]
      constructor
      · intro _
        left
        omega
      · intro _
        rfl
  · rw [if_neg h0]
    by_cases h1 : sb.first_ > sb.begin_
    · rw [if_pos h1]
      constructor
      · intro h
        cases h
      · intro h
        omega
    · rw [if_neg h1]
      by_cases h2 : sb.begin_ > sb.end_
      · rw [if_pos h2]
        constructor
        · intro h
          cases h
        · intro h
          omega
      · rw [if_neg h2]
        by_cases h3 : sb.end_ > sb.cap_
        · rw [if_pos h3]
          constructor
          · intro h
            cases h
          · intro h
            omega
        · rw [if_neg h3]
          constructor
          · intro _
            right
            omega
          · intro _
            rfl

/-- Whatever the schedule, the construct loop stops at an address between its start and
its start plus the number of values. -/
theorem Mem.construct_list_addr (l : List T) : ∀ (m : Mem T) (a : Nat),
    a ≤ (m.construct_list a l).2.1 ∧ (m.construct_list a l).2.1 ≤ a + l.length := by
  induction l with
  | nil =>
    intro m a
    exact ⟨Nat.le_refl _, Nat.le_refl _⟩
  | cons x xs ih =>
    intro m a
    unfold Mem.construct_list
    rcases m.construct a (some x) with ⟨e, m1⟩
    cases e with
    | some e =>
      simp only [List.length_cons]
      omega
    | none =>
      simp only [List.length_cons]
      have := ih m1 (a + 1)
      omega

/-- Whatever the memory, the loop of `clear()` advances `begin_` once per round and writes
no other member. -/
theorem split_buffer.clear_loop_pointers (k : Nat) : ∀ (sb : split_buffer) (m : Mem T),
    (split_buffer.clear_loop sb m k).1 = { sb with begin_ := sb.begin_ + k } := by
  induction k with
  | zero => intro sb m; rfl
  | succ k ih =>
    intro sb m
    unfold split_buffer.clear_loop
    rw [ih]
    simp only [Nat.add_assoc, Nat.add_comm 1 k]

/-- Whatever the schedule, the range form of `construct_at_end` writes `end_` only, and
moves it forward by at most the length of the range. -/
theorem split_buffer.buffer_range_pointers (sb : split_buffer) (m : Mem T) (s : List T) :
    (sb.construct_at_end_range m s).2.1.first_ = sb.first_ ∧
    (sb.construct_at_end_range m s).2.1.begin_ = sb.begin_ ∧
    (sb.construct_at_end_range m s).2.1.cap_ = sb.cap_ ∧
    sb.end_ ≤ (sb.construct_at_end_range m s).2.1.end_ ∧
    (sb.construct_at_end_range m s).2.1.end_ ≤ sb.end_ + s.length := by
  rw [split_buffer.buffer_range_eq]
  obtain ⟨h1, h2⟩ := Mem.construct_list_addr s m sb.end_
  exact ⟨rfl, rfl, rfl, h1, h2⟩

theorem split_buffer.buffer_range_invariants (sb : split_buffer) (m : Mem T) (s : List T)
    (hinv : sb.invariants = true) (hroom : sb.end_ + s.length ≤ sb.cap_) :
    (sb.construct_at_end_range m s).2.1.invariants = true := by
  obtain ⟨p1, p2, p3, p4, p5⟩ := split_buffer.buffer_range_pointers sb m s
  rw [split_buffer.invariants_iff] at hinv ⊢
  rw [p1, p2, p3]
  omega

/-- C29 (staging-buffer invariant).  Every operation takes a buffer on which `invariants()`
returns true to one on which it returns true again, whether the operation returns normally
or leaves by an exception: the constructor with `g ≤ c` (for the buffer it constructs), the
three forms of `construct_at_end` and `emplace_back` when the new elements fit below
`cap_`, `emplace_front` when `begin_ > first_`, and `clear`.  And with a null `first_`,
`invariants()` returns true exactly when `begin_`, `end_` and `cap_` are null too. -/
theorem split_buffer.invariants_preserved [Inhabited T] (sb : split_buffer) (m : Mem T)
    (c g n : Nat) (value x : T) (s : List T) (hinv : sb.invariants = true) :
    (g ≤ c → 0 < m.brk →
      ∀ sb0, (split_buffer.ctor c g m).1 = Except.ok sb0 → sb0.invariants = true) ∧
    (sb.end_ + n ≤ sb.cap_ →
      (sb.construct_at_end_n m n).2.1.invariants = true ∧
      (sb.construct_at_end_fill m value n).2.1.invariants = true) ∧
    (sb.end_ + s.length ≤ sb.cap_ → (sb.construct_at_end_range m s).2.1.invariants = true) ∧
    (sb.end_ + 1 ≤ sb.cap_ → (sb.emplace_back x m).2.1.invariants = true) ∧
    (sb.begin_ > sb.first_ → (sb.emplace_front x m).2.1.invariants = true) ∧
    (sb.clear m).1.invariants = true ∧
    (∀ t : split_buffer, t.first_ = 0 →
      (t.invariants = true ↔ t.begin_ = 0 ∧ t.end_ = 0 ∧ t.cap_ = 0)) := by
  refine ⟨?_, ?_, ?_, ?_, ?_, ?_, ?_⟩
  · intro hg hbrk sb0 h0
    unfold split_buffer.ctor at h0
    rcases hal : m.allocate c with ⟨r, m1⟩
    rw [hal] at h0
    have hbase : ∀ a, r = Except.ok a → a = m.brk := by
      intro a ha
      unfold Mem.allocate at hal
      subst ha
      cases hs : m.allocs with
      | none =>
        rw [hs] at hal
        simp only [Prod.mk.injEq, Except.ok.injEq] at hal
        exact hal.1.symm
      | some k =>
        rw [hs] at hal
        cases k with
        | zero => simp at hal
        | succ k =>
          simp only [Prod.mk.injEq, Except.ok.injEq] at hal
          exact hal.1.symm
    cases r with
    | error e => simp at h0
    | ok a =>
      have ha := hbase a rfl
      simp only [Except.ok.injEq] at h0
      subst h0
      apply split_buffer.invariants_of_le
      · show a ≠ 0
        omega
      · show a ≤ a + g
        omega
      · exact Nat.le_refl _
      · show a + g ≤ a + c
        omega
  · intro hroom
    constructor
    · rw [split_buffer.buffer_n_eq]
      exact split_buffer.buffer_range_invariants sb m _ hinv
        (by rw [List.length_replicate]; exact hroom)
    · rw [split_buffer.buffer_fill_eq]
      exact split_buffer.buffer_range_invariants sb m _ hinv
        (by rw [List.length_replicate]; exact hroom)
  · intro hroom
    exact split_buffer.buffer_range_invariants sb m s hinv hroom
  · intro hroom
    rw [split_buffer.emplace_back_eq]
    exact split_buffer.buffer_range_invariants sb m [x] hinv hroom
  · intro hgap
    have hcases : (sb.emplace_front x m).2.1 = sb ∨
        (sb.emplace_front x m).2.1 = { sb with begin_ := sb.begin_ - 1 } := by
      unfold split_buffer.emplace_front
      rcases m.construct (sb.begin_ - 1) (some x) with ⟨e, m1⟩
      cases e with
      | some e => exact Or.inl rfl
      | none => exact Or.inr rfl
    rcases hcases with h | h
    · rw [h]
      exact hinv
    · rw [h]
      rw [split_buffer.invariants_iff] at hinv ⊢
      simp only
      omega
  · unfold split_buffer.clear
    rw [split_buffer.clear_loop_pointers]
    rw [split_buffer.invariants_iff] at hinv ⊢
    simp only
    omega
  · intro t ht
    rw [split_buffer.invariants_iff]
    constructor
    · intro h
      omega
    · intro h
      left
      omega

theorem split_buffer.invariants_preserved_witness :
    (bufferWith123.2.1.end_ + 2 ≤ bufferWith123.2.1.cap_ →
      (bufferWith123.2.1.construct_at_end_n bufferWith123.2.2 2).2.1.invariants = true ∧
      (bufferWith123.2.1.construct_at_end_fill bufferWith123.2.2 7 2).2.1.invariants = true) ∧
    (bufferWith123.2.1.clear bufferWith123.2.2).1.invariants = true :=
  ⟨(split_buffer.invariants_preserved bufferWith123.2.1 bufferWith123.2.2 8 4 2 7 9 [4, 5]
      (by decide)).2.1,
   (split_buffer.invariants_preserved bufferWith123.2.1 bufferWith123.2.2 8 4 2 7 9 [4, 5]
      (by decide)).2.2.2.2.2.1⟩

/-- C30 (staging-buffer clear), the source's behaviour.  On a buffer that satisfies
`invariants()` and holds `ys` in its live region, `clear()` destroys exactly the cells of
`[begin_, end_)` (they are raw afterwards and every other cell is unchanged), leaves no
live element (`begin_ = end_`), and keeps `first_`, `end_` and `cap_`; what moves is
`begin_`, up to `end_`, so `begin_ - first_` grows by the number of elements destroyed. -/
theorem split_buffer.clear_spec (sb : split_buffer) (m : Mem T) (ys : List T)
    (hinv : sb.invariants = true)
    (hlive : m.read sb.begin_ (sb.end_ - sb.begin_) = some ys) :
    (sb.clear m).1 = { sb with begin_ := sb.end_ } ∧
    (sb.clear m).1.begin_ = (sb.clear m).1.end_ ∧
    (sb.clear m).1.begin_ - (sb.clear m).1.first_ = sb.begin_ - sb.first_ + ys.length ∧
    (∀ a, (sb.clear m).2.cells a
      = if sb.begin_ ≤ a ∧ a < sb.end_ then Cell.raw else m.cells a) ∧
    (sb.clear m).2.fault = m.fault := by
  obtain ⟨i1, i2, _⟩ := split_buffer.buffer_invariants_le hinv
  obtain ⟨hl, hld⟩ := (Mem.read_eq_some_iff _ m sb.begin_ ys).1 hlive
  have hcells : ∀ t, t < sb.end_ - sb.begin_ → ∃ z, m.cells (sb.begin_ + t) = Cell.live z := by
    intro t ht
    have h := hld t ht
    rw [List.getElem?_eq_getElem (by omega)] at h
    exact ⟨_, Mem.live_of_load h⟩
  obtain ⟨h1, h2, h3⟩ := split_buffer.clear_loop_spec (sb.end_ - sb.begin_) sb m hcells
  have he : sb.begin_ + (sb.end_ - sb.begin_) = sb.end_ := by omega
  rw [he] at h1 h3
  unfold split_buffer.clear
  rw [h1]
  refine ⟨rfl, rfl, ?_, h3, h2⟩
  show sb.end_ - sb.first_ = sb.begin_ - sb.first_ + ys.length
  omega

theorem split_buffer.clear_spec_witness :
    bufferCleared.1 = { bufferWith123.2.1 with begin_ := bufferWith123.2.1.end_ } ∧
    bufferCleared.1.begin_ = bufferCleared.1.end_ ∧
    bufferCleared.1.begin_ - bufferCleared.1.first_
      = bufferWith123.2.1.begin_ - bufferWith123.2.1.first_ + [1, 2, 3].length ∧
    (∀ a, bufferCleared.2.cells a
      = if bufferWith123.2.1.begin_ ≤ a ∧ a < bufferWith123.2.1.end_ then Cell.raw
        else bufferWith123.2.2.cells a) ∧
    bufferCleared.2.fault = bufferWith123.2.2.fault :=
  split_buffer.clear_spec bufferWith123.2.1 bufferWith123.2.2 [1, 2, 3] (by decide) (by decide)

/-- C30 (staging-buffer clear), the claim as stated fails.  On the buffer `(10, 5)` holding
`[1,2,3]`, `clear()` leaves `begin_ = end_` and keeps `first_` and `cap_`, but the gap
position is not retained: `begin_ - first_` is 5 before the call and 8 after it. -/
theorem split_buffer.clear_moves_gap :
    bufferWith123.2.1.invariants = true ∧
    bufferWith123.2.2.read bufferWith123.2.1.begin_ 3 = some [1, 2, 3] ∧
    bufferWith123.2.1.begin_ - bufferWith123.2.1.first_ = 5 ∧
    bufferCleared.1.begin_ - bufferCleared.1.first_ = 8 ∧
    bufferCleared.1.begin_ = bufferCleared.1.end_ ∧
    bufferCleared.1.first_ = bufferWith123.2.1.first_ ∧
    bufferCleared.1.cap_ = bufferWith123.2.1.cap_ ∧
    bufferCleared.2.allRaw bufferCleared.1.first_ 10 = true := by
  decide

end tgp

namespace tgp

/-! ## The hand-off to the staging buffer and the single-element insertions -/

/-- C27 (ownership hand-off), evaluated.  Inside `reserve(8)` on `[1,2,3,4]`, after
`swap_with_split_buffer(sb)` the vector holds `[1,2,3,4]` in the adopted storage, and the
buffer, which the function never writes, still has its non-null `first_` (the vector's
`begin_`) and its `cap_`: its destructor then releases the adopted storage.  Inside
`emplace(begin() + 1, 9)` on `[1,2,3,4]`, after `swap_with_split_buffer(sb, p)` the vector
holds `[1,9,2,3,4]`, and the buffer's four pointers are the vector's `begin_`, `begin_`,
`end_` and `cap_`: its destructor then destroys the five elements and releases the
storage. -/
theorem vector.handoff_leaves_buffer_set :
    run_handoff.1.elements run_handoff.2 = some [1, 2, 3, 4] ∧
    (stagedBuffer 8 4 (build [1, 2, 3, 4]).2).1.first_ ≠ 0 ∧
    (stagedBuffer 8 4 (build [1, 2, 3, 4]).2).1.first_ = run_handoff.1.begin_ ∧
    (stagedBuffer 8 4 (build [1, 2, 3, 4]).2).1.cap_ = run_handoff.1.cap_ ∧
    run_handoff.1.elements
      ((stagedBuffer 8 4 (build [1, 2, 3, 4]).2).1.dtor run_handoff.2) = none ∧
    run_handoff.1.released
      ((stagedBuffer 8 4 (build [1, 2, 3, 4]).2).1.dtor run_handoff.2) = true ∧
    run_handoff_at.2.1.elements run_handoff_at.2.2.2 = some [1, 9, 2, 3, 4] ∧
    run_handoff_at.2.2.1.first_ ≠ 0 ∧
    run_handoff_at.2.2.1
      = { first_ := run_handoff_at.2.1.begin_, begin_ := run_handoff_at.2.1.begin_,
          end_ := run_handoff_at.2.1.end_, cap_ := run_handoff_at.2.1.cap_ } ∧
    run_handoff_at.2.1.elements (run_handoff_at.2.2.1.dtor run_handoff_at.2.2.2) = none ∧
    run_handoff_at.2.1.released (run_handoff_at.2.2.1.dtor run_handoff_at.2.2.2) = true := by
  decide

/-- C28 (single-element insertion paths), evaluated on `[1,2,3]` with capacity 4, position
1 and value 9.  `insert(pos, T&&)` and `emplace(pos, 9)` shift in place: they return
position 1 and leave `[1,9,2,3]`, size 4, capacity 4.  `insert(pos, const T&)` does not
agree: its staging buffer `(4, 1)` receives `construct_at_end(9)`, nine value-initialised
elements running past `cap_`, and after the hand-off and the buffer's destructor the vector
has size 12 with capacity 4, fails `invariants()`, and no element can be read.  With the
value 0 the buffer receives no element: the size stays 3, and again no element can be
read. -/
theorem vector.insert_paths_differ :
    (buildSpare [1, 2, 3] 1).1.elements (buildSpare [1, 2, 3] 1).2 = some [1, 2, 3] ∧
    (buildSpare [1, 2, 3] 1).1.capacity = 4 ∧
    run_insert_rvalue.1.toOption = some ((buildSpare [1, 2, 3] 1).1.begin_ + 1) ∧
    run_insert_rvalue.2.1.elements run_insert_rvalue.2.2 = some [1, 9, 2, 3] ∧
    run_insert_rvalue.2.1.size = 4 ∧
    run_insert_rvalue.2.1.capacity = 4 ∧
    run_emplace.1.toOption = some ((buildSpare [1, 2, 3] 1).1.begin_ + 1) ∧
    run_emplace.2.1.elements run_emplace.2.2 = some [1, 9, 2, 3] ∧
    run_emplace.2.1.size = 4 ∧
    run_emplace.2.1.capacity = 4 ∧
    insertStaging.2.1.end_ - insertStaging.2.1.begin_ = 9 ∧
    insertStaging.2.1.cap_ - insertStaging.2.1.begin_ = 3 ∧
    run_insert_const.2.1.elements run_insert_const.2.2 = none ∧
    run_insert_const.2.1.size = 12 ∧
    run_insert_const.2.1.capacity = 4 ∧
    run_insert_const.2.1.invariants = false ∧
    run_insert_const.2.2.fault = true ∧
    run_insert_const_zero.2.1.size = 3 ∧
    run_insert_const_zero.2.1.elements run_insert_const_zero.2.2 = none := by
  decide

end tgp

namespace tgp

variable {T : Type}

/-! ## Single-pass range insertion -/

/-- Assigning values that were all read successfully to allocated cells puts each value in
its cell and changes nothing else. -/
theorem Mem.store_each_spec (l : List (Option T)) : ∀ (m : Mem T) (d : Nat),
    (∀ t, t < l.length → ∃ x, l[t]? = some (some x)) →
    (∀ t, t < l.length → m.cells (d + t) ≠ Cell.free) →
    (m.store_each d l).fault = m.fault ∧
    (∀ t, t < l.length → some ((m.store_each d l).load (d + t)) = l[t]?) ∧
    (∀ b, ¬ (d ≤ b ∧ b < d + l.length) → (m.store_each d l).cells b = m.cells b) := by
  induction l with
  | nil =>
    intro m d _ _
    refine ⟨rfl, ?_, fun _ _ => rfl⟩
    intro t ht
    simp only [List.length_nil] at ht
    omega
  | cons y ys ih =>
    intro m d hsome hfree
    obtain ⟨x, hx⟩ := hsome 0 (by simp)
    simp only [List.getElem?_cons_zero, Option.some.injEq] at hx
    subst hx
    have hnf : m.cells d ≠ Cell.free := by simpa using hfree 0 (by simp)
    have hstep : m.store_each d (some x :: ys)
        = Mem.store_each (m.set d (Cell.live x)) (d + 1) ys := by
      conv_lhs => unfold Mem.store_each
      rw [Mem.store_of_not_free hnf]
    have hsome1 : ∀ t, t < ys.length → ∃ z, ys[t]? = some (some z) := by
      intro t ht
      obtain ⟨z, hz⟩ := hsome (t + 1) (by simp only [List.length_cons]; omega)
      rw [List.getElem?_cons_succ] at hz
      exact ⟨z, hz⟩
    have hfree1 : ∀ t, t < ys.length → (m.set d (Cell.live x)).cells (d + 1 + t) ≠ Cell.free := by
      intro t ht
      have hne : d + 1 + t ≠ d := by omega
      rw [Mem.set_cells, if_neg hne]
      have := hfree (t + 1) (by simp only [List.length_cons]; omega)
      have he : d + (t + 1) = d + 1 + t := by omega
      rw [he] at this
      exact this
    obtain ⟨h1, h2, h3⟩ := ih (m.set d (Cell.live x)) (d + 1) hsome1 hfree1
    rw [hstep]
    refine ⟨?_, ?_, ?_⟩
    · rw [h1, Mem.set_fault]
    · intro t ht
      cases t with
      | zero =>
        have hc : ((m.set d (Cell.live x)).store_each (d + 1) ys).cells (d + 0)
            = Cell.live x := by
          show ((m.set d (Cell.live x)).store_each (d + 1) ys).cells d = Cell.live x
          rw [h3 d (by omega), Mem.set_cells, if_pos rfl]
        rw [Mem.load_of_live hc]
        simp
      | succ t =>
        simp only [List.length_cons] at ht
        have he : d + (t + 1) = d + 1 + t := by omega
        rw [he, h2 t (by omega), List.getElem?_cons_succ]
    · intro b hb
      simp only [List.length_cons] at hb
      have hne : b ≠ d := by omega
      rw [h3 b (by omega), Mem.set_cells, if_neg hne]

/-- On a range of live elements `std::rotate` moves the values round and changes nothing
outside the range. -/
theorem std_rotate_spec (m : Mem T) (first middle last : Nat)
    (h1 : first ≤ middle) (h2 : middle ≤ last)
    (hlive : ∀ t, t < last - first → ∃ x, m.cells (first + t) = Cell.live x) :
    (std_rotate m first middle last).fault = m.fault ∧
    (∀ t, t < last - first →
      (std_rotate m first middle last).load (first + t)
        = m.load (first + (t + (middle - first)) % (last - first))) ∧
    (∀ b, ¬ (first ≤ b ∧ b < last) → (std_rotate m first middle last).cells b = m.cells b) := by
  unfold std_rotate
  by_cases hc : first = middle ∨ middle = last
  · rw [if_pos hc]
    refine ⟨rfl, ?_, fun _ _ => rfl⟩
    intro t ht
    rcases hc with hc | hc
    · rw [← hc, Nat.sub_self, Nat.add_zero, Nat.mod_eq_of_lt ht]
    · rw [hc, Nat.add_mod_right, Nat.mod_eq_of_lt ht]
  · rw [if_neg hc]
    have hlen : ((List.range (last - first)).map
        (fun t => m.load (first + (t + (middle - first)) % (last - first)))).length
          = last - first := by
      rw [List.length_map, List.length_range]
    have hpos : 0 < last - first := by omega
    have hget : ∀ t, t < last - first →
        ((List.range (last - first)).map
          (fun t => m.load (first + (t + (middle - first)) % (last - first))))[t]?
          = some (m.load (first + (t + (middle - first)) % (last - first))) := by
      intro t ht
      rw [List.getElem?_map, List.getElem?_range ht]
      rfl
    obtain ⟨r1, r2, r3⟩ := Mem.store_each_spec
      ((List.range (last - first)).map
        (fun t => m.load (first + (t + (middle - first)) % (last - first)))) m first
      (by
        intro t ht
        rw [hlen] at ht
        obtain ⟨x, hx⟩ := hlive ((t + (middle - first)) % (last - first)) (Nat.mod_lt _ hpos)
        exact ⟨x, by rw [hget t ht, Mem.load_of_live hx]⟩)
      (by
        intro t ht
        rw [hlen] at ht
        obtain ⟨x, hx⟩ := hlive t ht
        rw [hx]
        intro h
        cases h)
    rw [hlen] at r2 r3
    refine ⟨r1, ?_, ?_⟩
    · intro t ht
      have := r2 t ht
      rw [hget t ht] at this
      exact Option.some.inj this
    · intro b hb
      exact r3 b (by omega)

/-- While the values fit below `cap_`, the appends of a single-pass range are the
construct loop at `end_`. -/
theorem vector.emplace_back_each_inplace (s : List T) : ∀ (v : vector) (m : Mem T),
    v.end_ + s.length ≤ v.cap_ →
    v.emplace_back_each m s
      = ((m.construct_list v.end_ s).1,
         { v with end_ := (m.construct_list v.end_ s).2.1 },
         (m.construct_list v.end_ s).2.2) := by
  induction s with
  | nil => intro v m _; rfl
  | cons x xs ih =>
    intro v m h
    simp only [List.length_cons] at h
    have hne : v.end_ ≠ v.cap_ := by omega
    unfold vector.emplace_back_each Mem.construct_list vector.emplace_back
      vector.construct_one_at_end
    rw [if_neg hne]
    rcases m.construct v.end_ (some x) with ⟨e, m1⟩
    cases e with
    | some e => rfl
    | none =>
      simp only
      rw [ih { v with end_ := v.end_ + 1 } m1 (by show v.end_ + 1 + xs.length ≤ v.cap_; omega)]

end tgp

namespace tgp

variable {T : Type}

/-- The single-pass `insert(pos, first, last)` when no append reallocates: for a vector
holding `old`, a position `i ≤ size()`, a range `s` that fits below `cap_` and constructors
that do not throw, the call returns position `i`, moves `end_` by the length of `s`, and
leaves `take i old ++ s ++ drop i old`. -/
theorem vector.insert_input_in_capacity (v : vector) (m : Mem T) (old s : List T) (i : Nat)
    (hinv : v.invariants = true)
    (hel : v.elements m = some old)
    (hi : i ≤ old.length)
    (hroom : v.end_ + s.length ≤ v.cap_)
    (hown : ∀ t, t < s.length → m.cells (v.end_ + t) ≠ Cell.free)
    (hctor : ∀ k, m.ctors = some k → s.length ≤ k) :
    (v.insert_input (v.begin_ + i) s m).1 = Except.ok (v.begin_ + i) ∧
    (v.insert_input (v.begin_ + i) s m).2.1 = { v with end_ := v.end_ + s.length } ∧
    (v.insert_input (v.begin_ + i) s m).2.1.elements (v.insert_input (v.begin_ + i) s m).2.2
      = some (old.take i ++ s ++ old.drop i) ∧
    (v.insert_input (v.begin_ + i) s m).2.2.fault = m.fault := by
  obtain ⟨hl, hld⟩ := (Mem.read_eq_some_iff v.size m v.begin_ old).1 hel
  obtain ⟨i1, _⟩ := vector.invariants_le hinv
  have hsz : v.size = v.end_ - v.begin_ := rfl
  obtain ⟨c1, c2, c3, c4, c5⟩ := Mem.construct_list_ok s m v.end_ hctor hown
  obtain ⟨m1, hm1⟩ : ∃ m1, m1 = (m.construct_list v.end_ s).2.2 := ⟨_, rfl⟩
  rw [← hm1] at c3 c4 c5
  have hins : v.insert_input (v.begin_ + i) s m
      = (Except.ok (v.begin_ + i), { v with end_ := v.end_ + s.length },
         std_rotate m1 (v.begin_ + i) (v.begin_ + v.size) (v.end_ + s.length)) := by
    unfold vector.insert_input
    rw [vector.emplace_back_each_inplace s v m hroom, c1, c2, Nat.add_sub_cancel_left, hm1]
  -- the cells of `[begin_, end_ + |s|)` after the appends
  have hloadOld : ∀ t, t < v.size → m1.load (v.begin_ + t) = old[t]? := by
    intro t ht
    rw [Mem.load_congr (c5 (v.begin_ + t) (by omega))]
    exact hld t ht
  have hloadNew : ∀ t, t < s.length → m1.load (v.end_ + t) = s[t]? := by
    intro t ht
    rw [c4 (v.end_ + t) (by omega) (by omega), Nat.add_sub_cancel_left]
  have hlive : ∀ t, t < v.end_ + s.length - (v.begin_ + i) →
      ∃ x, m1.cells (v.begin_ + i + t) = Cell.live x := by
    intro t ht
    by_cases hlt : i + t < v.size
    · have h := hloadOld (i + t) hlt
      rw [List.getElem?_eq_getElem (by omega)] at h
      have he : v.begin_ + i + t = v.begin_ + (i + t) := by omega
      rw [he]
      exact ⟨_, Mem.live_of_load h⟩
    · have h := hloadNew (i + t - v.size) (by omega)
      rw [List.getElem?_eq_getElem (by omega)] at h
      have he : v.begin_ + i + t = v.end_ + (i + t - v.size) := by omega
      rw [he]
      exact ⟨_, Mem.live_of_load h⟩
  obtain ⟨r1, r2, r3⟩ := std_rotate_spec m1 (v.begin_ + i) (v.begin_ + v.size)
    (v.end_ + s.length) (by omega) (by omega) hlive
  rw [hins]
  refine ⟨rfl, rfl, ?_, ?_⟩
  · show (std_rotate m1 (v.begin_ + i) (v.begin_ + v.size) (v.end_ + s.length)).read v.begin_
      (v.end_ + s.length - v.begin_) = some (old.take i ++ s ++ old.drop i)
    rw [Mem.read_eq_some_iff]
    refine ⟨?_, ?_⟩
    · simp only [List.length_append, List.length_take, List.length_drop]
      omega
    · intro t ht
      by_cases hti : t < i
      · rw [Mem.load_congr (r3 (v.begin_ + t) (by omega)), hloadOld t (by omega),
          List.append_assoc, List.getElem?_append_left (by rw [List.length_take]; omega),
          List.getElem?_take_of_lt hti]
      · have he : v.begin_ + t = v.begin_ + i + (t - i) := by omega
        rw [he, r2 (t - i) (by omega)]
        by_cases htl : t - i < s.length
        · have hm : (t - i + (v.begin_ + v.size - (v.begin_ + i)))
              % (v.end_ + s.length - (v.begin_ + i))
              = t - i + (v.size - i) := by
            rw [Nat.mod_eq_of_lt (by omega)]
            omega
          have ha : v.begin_ + i + (t - i + (v.size - i)) = v.end_ + (t - i) := by omega
          rw [hm, ha, hloadNew (t - i) htl,
            List.getElem?_append_left
              (by rw [List.length_append, List.length_take]; omega),
            List.getElem?_append_right (by rw [List.length_take]; omega)]
          congr 1
          rw [List.length_take]
          omega
        · have hm : (t - i + (v.begin_ + v.size - (v.begin_ + i)))
              % (v.end_ + s.length - (v.begin_ + i))
              = t - i - s.length := by
            rw [Nat.mod_eq_sub_mod (by omega), Nat.mod_eq_of_lt (by omega)]
            omega
          have ha : v.begin_ + i + (t - i - s.length) = v.begin_ + (t - s.length) := by omega
          rw [hm, ha, hloadOld (t - s.length) (by omega),
            List.getElem?_append_right
              (by rw [List.length_append, List.length_take]; omega),
            List.getElem?_drop]
          congr 1
          rw [List.length_append, List.length_take]
          omega
  · show (std_rotate m1 (v.begin_ + i) (v.begin_ + v.size) (v.end_ + s.length)).fault = m.fault
    rw [r1, c3]

end tgp

namespace tgp

/-- C31 (single-pass range insert), evaluated.  On `[1,2,3]` with capacity 5 no append
reallocates, and `insert(begin() + 1, first, last)` over `[7,8]` returns position 1 and
leaves `[1,7,8,2,3]`, size 5; at `end()` it leaves `[1,2,3,7,8]`.  On `[1,2,3,4]` with
capacity 4 the append of `[7]` reallocates: the call returns position 1 with size 5, but
the staging buffer's destructor inside `emplace_back` has released the storage the vector
adopted, `std::rotate` then works on released cells, and no element can be read.  The same
happens on `[1,2,3]` with capacity 4 and `[7,8]`, where the second append reallocates. -/
theorem vector.insert_input_reallocating_releases_storage :
    (buildSpare [1, 2, 3] 2).1.elements (buildSpare [1, 2, 3] 2).2 = some [1, 2, 3] ∧
    run_insert_input_room.1.toOption = some (run_insert_input_room.2.1.begin_ + 1) ∧
    run_insert_input_room.2.1.size = 5 ∧
    run_insert_input_room.2.1.elements run_insert_input_room.2.2 = some [1, 7, 8, 2, 3] ∧
    run_insert_input_end.1.toOption = some (run_insert_input_end.2.1.begin_ + 3) ∧
    run_insert_input_end.2.1.elements run_insert_input_end.2.2 = some [1, 2, 3, 7, 8] ∧
    (build [1, 2, 3, 4]).1.elements (build [1, 2, 3, 4]).2 = some [1, 2, 3, 4] ∧
    run_insert_input_full.1.toOption = some (run_insert_input_full.2.1.begin_ + 1) ∧
    run_insert_input_full.2.1.size = 5 ∧
    run_insert_input_full.2.1.elements run_insert_input_full.2.2 = none ∧
    run_insert_input_full.2.1.released run_insert_input_full.2.2 = true ∧
    run_insert_input_full.2.2.fault = true ∧
    run_insert_input_second.1.toOption = some (run_insert_input_second.2.1.begin_ + 1) ∧
    run_insert_input_second.2.1.size = 5 ∧
    run_insert_input_second.2.1.elements run_insert_input_second.2.2 = none := by
  decide

end tgp

namespace tgp

/-! ## Reallocation from a valid state -/

section ValidGrowth

variable {T : Type}

/-- Releasing a block all of whose cells are allocated frees exactly these cells and is a
valid access. -/
theorem Mem.deallocate_spec {m : Mem T} {p n : Nat}
    (h : ∀ t, t < n → m.cells (p + t) ≠ Cell.free) :
    (m.deallocate p n).fault = m.fault ∧
    ∀ a, (m.deallocate p n).cells a =
      if p ≠ 0 ∧ p ≤ a ∧ a < p + n then Cell.free else m.cells a := by
  unfold Mem.deallocate
  by_cases hp : p = 0
  · rw [if_pos hp]
    refine ⟨rfl, ?_⟩
    intro a
    rw [if_neg (by omega)]
  · rw [if_neg hp, Mem.anyFree_eq_false n m p h]
    refine ⟨rfl, ?_⟩
    intro a
    show (if p ≤ a ∧ a < p + n then Cell.free else m.cells a) = _
    by_cases c : p ≤ a ∧ a < p + n
    · rw [if_pos c, if_pos ⟨hp, c⟩]
    · rw [if_neg c, if_neg (by tauto)]

end ValidGrowth

end tgp

namespace tgp

section ValidHandoff

variable {T : Type}

end ValidHandoff

end tgp

namespace tgp

section ValidStaging

variable {T : Type}

end ValidStaging

end tgp

namespace tgp

section ValidOperations

variable {T : Type}

end ValidOperations

end tgp

namespace tgp

section ValidInsertions

variable {T : Type}

end ValidInsertions

end tgp

namespace tgp

section ValidAssign

variable {T : Type}

/-- On a vector with live elements and allocated spare slots `deallocate_vector()` destroys
the elements and releases the block; no access is invalid and no other cell changes. -/
theorem vector.deallocate_vector_valid (v : vector) (m : Mem T) (xs : List T)
    (hinv : v.invariants = true) (hxs : v.elements m = some xs)
    (hspare : ∀ a, v.end_ ≤ a → a < v.cap_ → m.cells a ≠ Cell.free) :
    (v.deallocate_vector m).2.fault = m.fault ∧
    ∀ a, (v.deallocate_vector m).2.cells a =
      if v.begin_ ≠ 0 ∧ v.begin_ ≤ a ∧ a < v.cap_ then Cell.free else m.cells a := by
  obtain ⟨i1, i2⟩ := vector.invariants_le hinv
  have hel := vector.live_of_elements hxs
  have hsz : v.size = v.end_ - v.begin_ := rfl
  unfold vector.deallocate_vector
  by_cases hb : v.begin_ ≠ 0
  · rw [if_pos hb]
    simp only [vector.clear, vector.destruct_at_end, vector.capacity]
    obtain ⟨f0, f1⟩ := vector.destruct_at_end_loop_spec (v.end_ - v.begin_) m v.end_ (by omega)
      (by
        intro c h1 h2
        exact hel c (by omega) (by omega))
    obtain ⟨d0, d1⟩ := Mem.deallocate_spec
      (m := vector.destruct_at_end_loop m v.end_ (v.end_ - v.begin_))
      (p := v.begin_) (n := v.cap_ - v.begin_)
      (by
        intro t ht
        rw [f1]
        by_cases c : v.end_ - (v.end_ - v.begin_) ≤ v.begin_ + t ∧ v.begin_ + t < v.end_
        · rw [if_pos c]
          intro h
          cases h
        · rw [if_neg c]
          exact hspare _ (by omega) (by omega))
    refine ⟨by rw [d0, f0], ?_⟩
    intro a
    rw [d1]
    by_cases c : v.begin_ ≠ 0 ∧ v.begin_ ≤ a ∧ a < v.begin_ + (v.cap_ - v.begin_)
    · rw [if_pos c, if_pos (by omega)]
    · rw [if_neg c, if_neg (by omega), f1, if_neg (by omega)]
  · rw [if_neg hb]
    refine ⟨rfl, ?_⟩
    intro a
    rw [if_neg (by tauto)]

end ValidAssign

end tgp

namespace tgp

/-- C14 (logarithmic reallocation count), evaluated.  One append to the empty vector
reallocates once and makes no invalid access, but leaves the vector (size 1, capacity 1)
on storage that the staging buffer's destructor has released.  The second append finds
`end_ == cap_` and reallocates again: it relocates from, and deallocates, that released
block, which is an invalid access; the run of two appends is not one the program can
perform, and no element can be read after it.  The same holds for five appends: the
pointers show 4 reallocations, size 5 and capacity 8, on a run with invalid accesses. -/
theorem vector.appends_second_reallocation_invalid :
    run_one_append.1 = 1 ∧
    run_one_append.2.1 = none ∧
    run_one_append.2.2.1.size = 1 ∧
    run_one_append.2.2.1.capacity = 1 ∧
    run_one_append.2.2.2.fault = false ∧
    run_one_append.2.2.1.elements run_one_append.2.2.2 = none ∧
    run_one_append.2.2.1.released run_one_append.2.2.2 = true ∧
    run_two_appends.1 = 2 ∧
    run_two_appends.2.2.1.size = 2 ∧
    run_two_appends.2.2.1.capacity = 2 ∧
    run_two_appends.2.2.2.fault = true ∧
    run_two_appends.2.2.1.elements run_two_appends.2.2.2 = none ∧
    run_five_appends.1 = 4 ∧
    run_five_appends.2.2.1.size = 5 ∧
    run_five_appends.2.2.1.capacity = 8 ∧
    run_five_appends.2.2.2.fault = true ∧
    run_five_appends.2.2.1.elements run_five_appends.2.2.2 = none := by
  decide

end tgp

namespace tgp

end tgp

namespace tgp

/-- C18 as amended (assign that cannot get its storage).  Take a non-empty vector in a
valid state: it satisfies `invariants()`, holds live elements `xs`, and its spare slots are
allocated and raw; and an assignment that needs more than the capacity.

`assign(count, value)`: when `count > max_size()` the call throws `length_error`, and when
`count ≤ max_size()` but the allocator fails it throws `bad_alloc`; in both cases the
pointers, hence size and capacity, are unchanged and no access was invalid, but every
element has already been overwritten with `value`.

Multi-pass `assign(first, last)`: when the number of elements exceeds `max_size()` the call
throws `length_error`, and when the allocator fails it throws `bad_alloc`; in both cases no
access was invalid, and the vector is left without allocation (`begin_`, `end_`, `cap_`
null: size 0, capacity 0): its elements were destroyed and its storage released, every
other cell being unchanged. -/
theorem vector.assign_failure_effect {T : Type} (v : vector) (m : Mem T) (xs : List T)
    (hinv : v.invariants = true) (hxs : v.elements m = some xs) (hne : xs ≠ [])
    (hraw : m.allRaw v.end_ (v.cap_ - v.end_) = true) :
    (∀ (count : Nat) (x : T), count > v.capacity → count > v.max_size →
      (v.assign_fill count x m).1 = some Exn.length_error ∧
      (v.assign_fill count x m).2.1 = v ∧
      (v.assign_fill count x m).2.1.elements (v.assign_fill count x m).2.2
        = some (List.replicate v.size x) ∧
      (v.assign_fill count x m).2.2.fault = m.fault) ∧
    (∀ (count : Nat) (x : T), count > v.capacity → count ≤ v.max_size → m.allocs = some 0 →
      (v.assign_fill count x m).1 = some Exn.bad_alloc ∧
      (v.assign_fill count x m).2.1 = v ∧
      (v.assign_fill count x m).2.1.elements (v.assign_fill count x m).2.2
        = some (List.replicate v.size x) ∧
      (v.assign_fill count x m).2.2.fault = m.fault) ∧
    (∀ s : List T, s.length > v.capacity → s.length > v.max_size →
      (v.assign_range s m).1 = some Exn.length_error ∧
      (v.assign_range s m).2.1 = vector.ctor v.alloc_ ∧
      (v.assign_range s m).2.1.size = 0 ∧ (v.assign_range s m).2.1.capacity = 0 ∧
      (∀ a, v.begin_ ≤ a → a < v.cap_ → (v.assign_range s m).2.2.cells a = Cell.free) ∧
      (∀ a, ¬ (v.begin_ ≤ a ∧ a < v.cap_) → (v.assign_range s m).2.2.cells a = m.cells a) ∧
      (v.assign_range s m).2.2.fault = m.fault) ∧
    (∀ s : List T, s.length > v.capacity → s.length ≤ v.max_size → m.allocs = some 0 →
      (v.assign_range s m).1 = some Exn.bad_alloc ∧
      (v.assign_range s m).2.1 = vector.ctor v.alloc_ ∧
      (v.assign_range s m).2.1.size = 0 ∧ (v.assign_range s m).2.1.capacity = 0 ∧
      (∀ a, v.begin_ ≤ a → a < v.cap_ → (v.assign_range s m).2.2.cells a = Cell.free) ∧
      (∀ a, ¬ (v.begin_ ≤ a ∧ a < v.cap_) → (v.assign_range s m).2.2.cells a = m.cells a) ∧
      (v.assign_range s m).2.2.fault = m.fault) := by
  obtain ⟨hbe, hec⟩ := vector.invariants_le hinv
  have hsizecap : v.size ≤ v.capacity := by unfold vector.size vector.capacity; omega
  obtain ⟨hd1, _⟩ := vector.deallocate_vector_pointers v m hinv
  have hlen := ((Mem.read_eq_some_iff v.size m v.begin_ xs).1 hxs).1
  have hpos : 0 < xs.length := List.length_pos.2 hne
  have hb0 : v.begin_ ≠ 0 := by
    intro h0
    unfold vector.invariants at hinv
    rw [if_pos h0] at hinv
    have hsz : v.size = v.end_ - v.begin_ := rfl
    by_cases hz : v.end_ ≠ 0 ∨ v.cap_ ≠ 0
    · rw [if_pos hz] at hinv
      cases hinv
    · omega
  obtain ⟨e0, e1⟩ := vector.deallocate_vector_valid v m xs hinv hxs (by
    intro a ha1 ha2
    have := Mem.allRaw_cells _ m v.end_ hraw (a - v.end_) (by omega)
    have he : v.end_ + (a - v.end_) = a := by omega
    rw [he] at this
    rw [this]
    intro h
    cases h)
  have hfree : ∀ a, v.begin_ ≤ a → a < v.cap_ → (v.deallocate_vector m).2.cells a = Cell.free := by
    intro a h1 h2
    rw [e1, if_pos ⟨hb0, h1, h2⟩]
  have hkeep : ∀ a, ¬ (v.begin_ ≤ a ∧ a < v.cap_) →
      (v.deallocate_vector m).2.cells a = m.cells a := by
    intro a h
    rw [e1, if_neg (by tauto)]
  refine ⟨?_, ?_, ?_, ?_⟩
  · intro count x h1 h2
    have hmin : min v.size count = v.size := Nat.min_eq_left (by omega)
    obtain ⟨f1, f2⟩ := vector.fill_all_elements v m xs x hxs
    have hcall : v.assign_fill count x m
        = (some Exn.length_error, v, std_fill_n m v.begin_ (some x) v.size) := by
      unfold vector.assign_fill vector.recommend_cap
      simp only [if_pos h1, if_pos h2, hmin]
    rw [hcall]
    exact ⟨rfl, rfl, f1, f2⟩
  · intro count x h1 h2 hal
    have hmin : min v.size count = v.size := Nat.min_eq_left (by omega)
    obtain ⟨f1, f2⟩ := vector.fill_all_elements v m xs x hxs
    obtain ⟨c, hc⟩ := vector.recommend_cap_ok v h2
    have hal0 : (std_fill_n m v.begin_ (some x) v.size).allocs = some 0 := by
      rw [(std_fill_n_sched _ _ _ _).1, hal]
    have hcall : v.assign_fill count x m
        = (some Exn.bad_alloc, v, std_fill_n m v.begin_ (some x) v.size) := by
      unfold vector.assign_fill
      simp only [if_pos h1, hc, hmin]
      unfold split_buffer.ctor Mem.allocate
      rw [hal0]
    rw [hcall]
    exact ⟨rfl, rfl, f1, f2⟩
  · intro s h1 h2
    have h2' : s.length > (vector.ctor v.alloc_).max_size := h2
    have hcall : v.assign_range s m
        = (some Exn.length_error, vector.ctor v.alloc_, (v.deallocate_vector m).2) := by
      unfold vector.assign_range vector.recommend_cap
      simp only [if_pos h1, hd1, if_pos h2']
    rw [hcall]
    exact ⟨rfl, rfl, rfl, rfl, hfree, hkeep, e0⟩
  · intro s h1 h2 hal
    have h2' : s.length ≤ (vector.ctor v.alloc_).max_size := h2
    obtain ⟨c, hc⟩ := vector.recommend_cap_ok (vector.ctor v.alloc_) h2'
    have hcle : ¬ (c > (vector.ctor v.alloc_).max_size) := by
      have hb := (vector.recommend_cap_bounds (vector.ctor v.alloc_) s.length
        (by simp [vector.capacity, vector.ctor])).2 h2'
      obtain ⟨r, hr, _, _, hr3, _⟩ := hb
      rw [hc] at hr
      injection hr with hr
      omega
    have hal0 : (v.deallocate_vector m).2.allocs = some 0 := by
      have hloop : ∀ (n : Nat) (m0 : Mem T) (e : Nat),
          (vector.destruct_at_end_loop m0 e n).allocs = m0.allocs := by
        intro n
        induction n with
        | zero => intro m0 e; rfl
        | succ n ih =>
          intro m0 e
          unfold vector.destruct_at_end_loop
          rw [ih, (Mem.destroy_sched _ _).1]
      unfold vector.deallocate_vector
      rw [if_pos hb0]
      simp only [vector.clear, vector.destruct_at_end]
      rw [(Mem.deallocate_sched _ _ _).1, hloop, hal]
    have hcall : v.assign_range s m
        = (some Exn.bad_alloc, vector.ctor v.alloc_, (v.deallocate_vector m).2) := by
      unfold vector.assign_range
      simp only [if_pos h1, hd1, hc]
      unfold vector.allocate_vector Mem.allocate
      rw [if_neg hcle, hal0]
    rw [hcall]
    exact ⟨rfl, rfl, rfl, rfl, hfree, hkeep, e0⟩

/-- Witness for C18 as amended: `[1,2,3]` with capacity 3, a valid state, under an
allocator with `max_size() = 4`; `assign(5, 9)` throws `length_error` and leaves
`[9,9,9]`, and the multi-pass `assign` of `[7,8,9,10,11]` throws `length_error`, makes no
invalid access and leaves the vector without allocation. -/
theorem vector.assign_failure_effect_witness :
    (vector.ctor_range [1, 2, 3] smallAlloc (Mem.empty Nat)).2.1.invariants = true ∧
    (vector.ctor_range [1, 2, 3] smallAlloc (Mem.empty Nat)).2.1.elements
      (vector.ctor_range [1, 2, 3] smallAlloc (Mem.empty Nat)).2.2 = some [1, 2, 3] ∧
    [1, 2, 3] ≠ [] ∧
    run_assign_fill_too_long.1 = some Exn.length_error ∧
    run_assign_fill_too_long.2.1 = (vector.ctor_range [1, 2, 3] smallAlloc (Mem.empty Nat)).2.1 ∧
    run_assign_fill_too_long.2.1.elements run_assign_fill_too_long.2.2
      = some (List.replicate 3 9) ∧
    ((vector.ctor_range [1, 2, 3] smallAlloc (Mem.empty Nat)).2.1.assign_range
      [7, 8, 9, 10, 11] (vector.ctor_range [1, 2, 3] smallAlloc (Mem.empty Nat)).2.2).1
      = some Exn.length_error ∧
    ((vector.ctor_range [1, 2, 3] smallAlloc (Mem.empty Nat)).2.1.assign_range
      [7, 8, 9, 10, 11] (vector.ctor_range [1, 2, 3] smallAlloc (Mem.empty Nat)).2.2).2.2.fault
      = (vector.ctor_range [1, 2, 3] smallAlloc (Mem.empty Nat)).2.2.fault := by
  have h := vector.assign_failure_effect
    (vector.ctor_range [1, 2, 3] smallAlloc (Mem.empty Nat)).2.1
    (vector.ctor_range [1, 2, 3] smallAlloc (Mem.empty Nat)).2.2 [1, 2, 3]
    (by decide) (by decide) (by decide) (by decide)
  obtain ⟨g1, g2, g3, _⟩ := h.1 5 9 (by decide) (by decide)
  obtain ⟨k1, _, _, _, _, _, k7⟩ := h.2.2.1 [7, 8, 9, 10, 11] (by decide) (by decide)
  exact ⟨by decide, by decide, by decide, g1, g2, g3, k1, k7⟩

end tgp
